import Mathlib

/-!
# Score orders (libmscore/scoreOrder.cpp)

A shallow embedding of `ScoreGroup`, `ScoreOrder` and the bracket / barline
derivation of `ScoreOrder::setBracketsAndBarlines`, followed by the properties
proved about them.

Conventions of the embedding:
* a `QString` is either the null string or a text; Qt's `operator==` compares
  the characters only, so the null string and the empty text compare equal;
* a pointer to a `ScoreGroup` is the group value itself; its `_index` (taken
  from the process-wide creation counter) is its identity;
* `int` values are unbounded integers (nothing below depends on wrap-around);
* the undo stack is the list of commands issued, in issue order.
-/

namespace Ms

/-! ## QString -/

/-- A Qt string: `null` is `QString()`, `str s` is a non-null string with text `s`. -/
inductive QString where
  | null : QString
  | str (s : String) : QString
deriving DecidableEq, Repr

namespace QString

/-- The characters of the string (none for the null string). -/
def toStr : QString → String
  | null => ""
  | str s => s

/-- `QString::isNull`. -/
def isNull : QString → Bool
  | null => true
  | str _ => false

/-- `QString::isEmpty`: the null string and the empty text are both empty. -/
def isEmpty (s : QString) : Bool := decide (s.toStr = "")

/-- Qt's `operator==` on strings: comparison of the characters. -/
def eqv (a b : QString) : Bool := decide (a.toStr = b.toStr)

end QString

/-! ## Machine integers -/

/-- The value a C++ `int` holds for the mathematical integer `x`: 32 bits, two's
complement, arithmetic wrapping around as the hardware does it. -/
def wrapInt (x : Int) : Int := (x + 2147483648) % 4294967296 - 2147483648

/-! ## ScoreGroup -/

/-- The class `ScoreGroup`. The static creation counter is kept as the number of
groups constructed so far and `_index` as its value when the group was
constructed; the `int` that the field holds is that number wrapped to 32 bits,
which is what `index()` returns. -/
structure ScoreGroup where
  _id : QString
  _section : QString
  _soloists : Bool
  _unsorted : QString
  _index : Nat
  bracket : Bool
  showSystemMarkings : Bool
  barLineSpan : Bool
  thinBracket : Bool
deriving DecidableEq, Repr

namespace ScoreGroup

/-- The constructor `ScoreGroup::ScoreGroup(id, section, unsorted, soloists)`: the
group takes the current value of the static counter, which is then incremented.
The declaration's default arguments are `unsorted = QString()` and
`soloists = false`. -/
def new (counter : Nat) (id sect unsorted : QString) (soloists : Bool) :
    ScoreGroup × Nat :=
  ({ _id := id, _section := sect, _soloists := soloists, _unsorted := unsorted,
     _index := counter, bracket := false, showSystemMarkings := false,
     barLineSpan := true, thinBracket := true }, counter + 1)

/-- `ScoreGroup::clone`: a new group (new creation index) with every other field copied. -/
def clone (counter : Nat) (sg : ScoreGroup) : ScoreGroup × Nat :=
  let r := ScoreGroup.new counter sg._id sg._section sg._unsorted sg._soloists
  ({ r.1 with bracket := sg.bracket, showSystemMarkings := sg.showSystemMarkings,
              barLineSpan := sg.barLineSpan, thinBracket := sg.thinBracket }, r.2)

/-- `ScoreGroup::id`. -/
def id (sg : ScoreGroup) : QString := sg._id

/-- `ScoreGroup::isSoloists`. -/
def isSoloists (sg : ScoreGroup) : Bool := sg._soloists

/-- `ScoreGroup::isUnsorted(group)`. -/
def isUnsorted (sg : ScoreGroup) (group : QString) : Bool :=
  if sg._unsorted.isNull then false
  else group.isNull || sg._unsorted.eqv group

/-- Modelled from the spec: `ScoreGroup::isUnsorted()` called without argument
(scoreOrder.h, which declares the default argument, is not part of the sources
at hand). The filter argument is then null, which matches any unsorted group. -/
def isUnsorted0 (sg : ScoreGroup) : Bool := sg.isUnsorted QString.null

/-- `ScoreGroup::index`: the `int` field `_index`. -/
def index (sg : ScoreGroup) : Int := wrapInt sg._index

end ScoreGroup

/-! ## The instrument-template catalog (instrtemplate.h) -/

/-- `BracketType`. -/
inductive BracketType where
  | NORMAL | BRACE | SQUARE | LINE | NO_BRACKET
deriving DecidableEq, Repr

/-- `InstrumentFamily`: the fields used here. -/
structure InstrumentFamily where
  id : QString
  name : QString
deriving DecidableEq, Repr

/-- `InstrumentTemplate`: the fields used here. `staves` is what `nstaves()`
returns; the three per-staff arrays are lists read with the constructor's
defaults (`NO_BRACKET`, `0`, `false`) past their end. -/
structure InstrumentTemplate where
  id : QString
  family : Option InstrumentFamily
  staves : Nat
  bracket : List BracketType
  bracketSpan : List Int
  barlineSpan : List Bool
deriving DecidableEq, Repr

/-- `InstrumentGroup`: its id and its templates, in catalog order. -/
structure InstrumentGroup where
  id : QString
  instrumentTemplates : List InstrumentTemplate
deriving DecidableEq, Repr

/-- The global `instrumentGroups`. -/
abbrev Catalog := List InstrumentGroup

/-- `InstrumentIndex`: the result of a catalog lookup. -/
structure InstrumentIndex where
  groupIndex : Int
  instrIndex : Int
  instrTemplate : Option InstrumentTemplate
deriving DecidableEq, Repr

/-- Modelled from the spec: the scan of one instrument group's templates by
`searchTemplateIndexForId` (instrtemplate.cpp is not part of the sources at
hand). `rank` is the catalog rank of the first template of `ts`. -/
def searchTemplates (id : QString) (grp : Nat) :
    List InstrumentTemplate → Nat → Option InstrumentIndex
  | [], _ => none
  | t :: ts, rank =>
    if t.id.eqv id then
      some { groupIndex := grp, instrIndex := rank, instrTemplate := some t }
    else searchTemplates id grp ts (rank + 1)

/-- Modelled from the spec: `searchTemplateIndexForId` continued over the groups
from group number `grp` on, `rank` templates having been passed already. -/
def searchGroups (id : QString) : List InstrumentGroup → Nat → Nat → InstrumentIndex
  | [], _, _ => { groupIndex := -1, instrIndex := -1, instrTemplate := none }
  | g :: gs, grp, rank =>
    match searchTemplates id grp g.instrumentTemplates rank with
    | some ii => ii
    | none => searchGroups id gs (grp + 1) (rank + g.instrumentTemplates.length)

/-- Modelled from the spec: `searchTemplateIndexForId` (instrtemplate.cpp is not
part of the sources at hand). The lookup by instrument id returns the first
template with that id, the number of its instrument group and its rank in the
global catalog ordering (the number of templates before it, over all groups);
an id with no template gives `(-1, -1, nullptr)`. -/
def searchTemplateIndexForId (cat : Catalog) (id : QString) : InstrumentIndex :=
  searchGroups id cat 0 0

/-- The expression `instrumentGroups[ii.groupIndex]->id`. -/
def instrumentGroupId (cat : Catalog) (ii : InstrumentIndex) : QString :=
  match cat.get? ii.groupIndex.toNat with
  | some g => g.id
  | none => QString.null

/-! ## ScoreOrder -/

/-- `InstrumentOverwrite`. -/
structure InstrumentOverwrite where
  id : QString
  name : QString
deriving DecidableEq, Repr

/-- A `QMap<QString, InstrumentOverwrite>`: the entries in increasing key order,
keys being compared by their characters. -/
abbrev InstrumentMap := List (String × InstrumentOverwrite)

namespace InstrumentMap

/-- `QMap::contains`. -/
def contains (m : InstrumentMap) (key : QString) : Bool :=
  m.any (fun e => decide (e.1 = key.toStr))

/-- `QMap::operator[]` of a const map: the value stored under the key, or a
default-constructed value. -/
def value (m : InstrumentMap) (key : QString) : InstrumentOverwrite :=
  match m.find? (fun e => decide (e.1 = key.toStr)) with
  | some e => e.2
  | none => { id := QString.null, name := QString.null }

/-- `QMap::insert`: replaces the value of an existing key, otherwise inserts the
entry at its place in key order. -/
def insert (key : QString) (v : InstrumentOverwrite) : InstrumentMap → InstrumentMap
  | [] => [(key.toStr, v)]
  | e :: es =>
    if e.1 = key.toStr then (key.toStr, v) :: es
    else if key.toStr.data < e.1.data then (key.toStr, v) :: e :: es
    else e :: insert key v es

end InstrumentMap

/-- The class `ScoreOrder`. `_soloists` and `_unsorted` are the cached pointers
(`none` is `nullptr`). -/
structure ScoreOrder where
  _id : QString
  _name : QString
  _soloists : Option ScoreGroup
  _unsorted : Option ScoreGroup
  _groupMultiplier : Int
  _customized : Bool
  instrumentMap : InstrumentMap
  groups : List ScoreGroup
deriving DecidableEq, Repr

namespace ScoreOrder

/-- `ScoreOrder::isCustom`. -/
def isCustom (o : ScoreOrder) : Bool := o._id.eqv (QString.str "<custom>")

/-- `ScoreOrder::isCustomized`. -/
def isCustomized (o : ScoreOrder) : Bool := o._customized

/-- The sum `1 + Σ ig->instrumentTemplates.size()` accumulated by `init`. -/
def totalTemplates : Catalog → Int
  | [] => 0
  | ig :: igs => ig.instrumentTemplates.length + totalTemplates igs

/-- `ScoreOrder::init`. -/
def init (cat : Catalog) (o : ScoreOrder) : ScoreOrder :=
  { o with
    _name := o._id
    _soloists := none
    _unsorted := none
    _groupMultiplier := if o.isCustom then 1 else 1 + totalTemplates cat
    _customized := false
    groups := [] }

/-- The constructor `ScoreOrder::ScoreOrder(orderId, name)`. -/
def new (cat : Catalog) (orderId name : QString) : ScoreOrder :=
  let o := init cat { _id := orderId, _name := QString.null, _soloists := none,
                      _unsorted := none, _groupMultiplier := 0, _customized := false,
                      instrumentMap := [], groups := [] }
  { o with _name := if name.isEmpty then orderId else name }

/-- `ScoreOrder::getFamilyName`. -/
def getFamilyName (o : ScoreOrder) (instrTemplate : Option InstrumentTemplate)
    (soloist : Bool) : QString :=
  match instrTemplate with
  | none => QString.str "<unsorted>"
  | some t =>
    if soloist then QString.str "<soloists>"
    else if InstrumentMap.contains o.instrumentMap t.id then
      (InstrumentMap.value o.instrumentMap t.id).id
    else match t.family with
      | some f => f.id
      | none => QString.str "<unsorted>"

/-- The loop of `ScoreOrder::getGroup(family, instrumentGroup)`: `some sg` when
the loop returns `sg`, otherwise the last value of the local `unsorted`. -/
def getGroupLoop (family instrumentGroup : QString) :
    List ScoreGroup → Option ScoreGroup → Option ScoreGroup ⊕ ScoreGroup
  | [], unsorted => Sum.inl unsorted
  | sg :: rest, unsorted =>
    if !sg.isUnsorted0 && sg.id.eqv family then Sum.inr sg
    else getGroupLoop family instrumentGroup rest
      (if sg.isUnsorted instrumentGroup then some sg else unsorted)

/-- `ScoreOrder::getGroup(const QString family, const QString instrumentGroup)`. -/
def getGroupByFamily (o : ScoreOrder) (family instrumentGroup : QString) :
    Option ScoreGroup :=
  if family.isEmpty then o._unsorted
  else match getGroupLoop family instrumentGroup o.groups none with
    | Sum.inr sg => some sg
    | Sum.inl (some unsorted) => some unsorted
    | Sum.inl none => o._unsorted

/-- `ScoreOrder::getGroup(const QString id, const bool soloist)`. -/
def getGroup (o : ScoreOrder) (cat : Catalog) (id : QString) (soloist : Bool) :
    Option ScoreGroup :=
  let ii := searchTemplateIndexForId cat id
  match ii.instrTemplate with
  | none => o._unsorted
  | some t =>
    let family := o.getFamilyName (some t) soloist
    o.getGroupByFamily family (instrumentGroupId cat ii)

/-- `ScoreOrder::instrumentIndex`: the product and the sum are computed in `int`. -/
def instrumentIndex (o : ScoreOrder) (cat : Catalog) (id : QString) (soloist : Bool) : Int :=
  let sg := o.getGroup cat id soloist
  let groupIndex : Int := match sg with
    | some g => g.index
    | none => o._groupMultiplier
  let unsorted : Bool := match sg with
    | some g => g.isUnsorted0
    | none => false
  wrapInt (wrapInt (o._groupMultiplier * groupIndex) +
    (if unsorted then 0 else (searchTemplateIndexForId cat id).instrIndex))

/-- The loop of `ScoreOrder::isScoreOrder(const QList<int>&)`. -/
def isScoreOrderLoop : List Int → Int → Bool
  | [], _ => true
  | curIndex :: rest, prvIndex =>
    if curIndex < prvIndex then false else isScoreOrderLoop rest curIndex

/-- `ScoreOrder::isScoreOrder(const QList<int>& indices)`. -/
def isScoreOrder (o : ScoreOrder) (indices : List Int) : Bool :=
  if o.isCustom then true else isScoreOrderLoop indices (-1)


end ScoreOrder

/-! ### Reading an `Order` element

The XML reader is a collaborator; the element handed to `ScoreOrder::read` is
given as the tree of its children. An attribute is `none` when absent and
`some v` when present with value `v`. `translate` stands for
`qApp->translate("OrderXML", ...)`. -/

/-- A child element of `section`. -/
inductive SectionChild where
  | family (text : String)
  | unsorted (group : Option String)
  | unknown
deriving DecidableEq, Repr

/-- A child element of `instrument`. -/
inductive InstrumentChild where
  | family (id : Option String) (text : String)
  | unknown
deriving DecidableEq, Repr

/-- A child element of `Order`. -/
inductive OrderChild where
  | name (text : String)
  | sectionTag (id showSystemMarkings barLineSpan thinBrackets : Option String)
      (children : List SectionChild)
  | instrument (id : Option String) (children : List InstrumentChild)
  | family (text : String)
  | soloists
  | unsorted (group : Option String)
  | unknown
deriving DecidableEq, Repr

/-- An `Order` element: the value of `intAttribute("customized")` and the children. -/
structure OrderElement where
  customized : Int
  children : List OrderChild
deriving DecidableEq, Repr

namespace ScoreOrder

/-- `XmlReader::attribute(name)`: the null string when the attribute is absent. -/
def xmlAttribute : Option String → QString
  | none => QString.null
  | some v => QString.str v

/-- `XmlReader::attribute(name, default)`. -/
def xmlAttributeD (a : Option String) (dflt : QString) : QString :=
  match a with
  | none => dflt
  | some v => QString.str v

/-- `QString::toLower`, character by character. -/
def toLower (a : String) : String := String.mk (a.data.map Char.toLower)

/-- `ScoreOrder::readBoolAttribute`. -/
def readBoolAttribute (attr : Option String) (defvalue : Bool) : Bool :=
  match attr with
  | none => defvalue
  | some a =>
    if toLower a = "false" then false
    else if toLower a = "true" then true
    else defvalue

/-- `ScoreOrder::readName`. -/
def readName (translate : String → String) (text : String) (o : ScoreOrder) : ScoreOrder :=
  { o with _name := QString.str (translate text) }

/-- The loop over the children of an `instrument` element in `readInstrument`. -/
def readInstrumentChildren (translate : String → String) (instrumentId : QString) :
    List InstrumentChild → InstrumentMap → InstrumentMap
  | [], m => m
  | InstrumentChild.family id text :: rest, m =>
    readInstrumentChildren translate instrumentId rest
      (InstrumentMap.insert instrumentId
        { id := xmlAttribute id, name := QString.str (translate text) } m)
  | InstrumentChild.unknown :: rest, m => readInstrumentChildren translate instrumentId rest m

/-- `ScoreOrder::readInstrument`; `searchTemplate(id)` is the template found by the
catalog lookup. -/
def readInstrument (cat : Catalog) (translate : String → String) (id : Option String)
    (children : List InstrumentChild) (o : ScoreOrder) : ScoreOrder :=
  let instrumentId := xmlAttribute id
  match (searchTemplateIndexForId cat instrumentId).instrTemplate with
  | none => o
  | some _ =>
    { o with instrumentMap := readInstrumentChildren translate instrumentId children o.instrumentMap }

/-- `ScoreOrder::readSoloists`. -/
def readSoloists (sect : QString) (s : ScoreOrder × Nat) : ScoreOrder × Nat :=
  match s.1._soloists with
  | some _ => s
  | none =>
    let r := ScoreGroup.new s.2 (QString.str "<soloists>") sect QString.null true
    ({ s.1 with _soloists := some r.1, groups := s.1.groups ++ [r.1] }, r.2)

/-- `ScoreOrder::readUnsorted`. -/
def readUnsorted (groupAttr : Option String) (sect : QString) (br ssm bls tbr : Bool)
    (s : ScoreOrder × Nat) : ScoreOrder × Nat :=
  let group := xmlAttributeD groupAttr (QString.str "")
  if s.1.groups.any (fun sg => sg.isUnsorted group) then s
  else
    let r := ScoreGroup.new s.2 (QString.str "<unsorted>") sect group false
    let sg := { r.1 with bracket := br, showSystemMarkings := ssm, barLineSpan := bls,
                         thinBracket := tbr }
    ({ s.1 with
       groups := s.1.groups ++ [sg]
       _unsorted := if s.1._unsorted.isNone && group.isEmpty then some sg else s.1._unsorted },
     r.2)

/-- `ScoreOrder::readFamily`. -/
def readFamily (text : String) (sect : QString) (br ssm bls tbr : Bool)
    (s : ScoreOrder × Nat) : ScoreOrder × Nat :=
  let id := QString.str text
  if s.1.groups.any (fun sg => sg.id.eqv id) then s
  else
    let r := ScoreGroup.new s.2 id sect QString.null false
    let sg := { r.1 with bracket := br, showSystemMarkings := ssm, barLineSpan := bls,
                         thinBracket := tbr }
    ({ s.1 with groups := s.1.groups ++ [sg] }, r.2)

/-- One child of a `section` element, as handled by the loop of `readSection`. -/
def readSectionChild (id : QString) (ssm bls tbr : Bool) (s : ScoreOrder × Nat) :
    SectionChild → ScoreOrder × Nat
  | SectionChild.family text => readFamily text id true ssm bls tbr s
  | SectionChild.unsorted group => readUnsorted group id true ssm bls tbr s
  | SectionChild.unknown => s

/-- `ScoreOrder::readSection`. -/
def readSection (id showSystemMarkings barLineSpan thinBrackets : Option String)
    (children : List SectionChild) (s : ScoreOrder × Nat) : ScoreOrder × Nat :=
  let ssm := readBoolAttribute showSystemMarkings false
  let bls := readBoolAttribute barLineSpan true
  let tbr := readBoolAttribute thinBrackets true
  children.foldl (readSectionChild (xmlAttribute id) ssm bls tbr) s

/-- `ScoreOrder::createUnsortedGroup`. -/
def createUnsortedGroup (s : ScoreOrder × Nat) : ScoreOrder × Nat :=
  let r := ScoreGroup.new s.2 (QString.str "<unsorted>") (QString.str "") (QString.str "") false
  let sg := { r.1 with bracket := false, showSystemMarkings := false, barLineSpan := false,
                       thinBracket := false }
  ({ s.1 with _unsorted := some sg, groups := s.1.groups ++ [sg] }, r.2)

/-- One child of the `Order` element, as handled by the loop of `read`. -/
def readChild (cat : Catalog) (translate : String → String) (s : ScoreOrder × Nat) :
    OrderChild → ScoreOrder × Nat
  | OrderChild.name text => (readName translate text s.1, s.2)
  | OrderChild.sectionTag id ssm bls tbr children => readSection id ssm bls tbr children s
  | OrderChild.instrument id children => (readInstrument cat translate id children s.1, s.2)
  | OrderChild.family text => readFamily text (QString.str "") false false false false s
  | OrderChild.soloists => readSoloists (QString.str "") s
  | OrderChild.unsorted group => readUnsorted group (QString.str "") false false false false s
  | OrderChild.unknown => s

/-- `ScoreOrder::read`: the order and the creation counter before, the order and
the counter after. -/
def read (cat : Catalog) (translate : String → String) (e : OrderElement)
    (s : ScoreOrder × Nat) : ScoreOrder × Nat :=
  let o := init cat s.1
  let o := { o with _customized := decide (e.customized ≠ 0) }
  let r := e.children.foldl (readChild cat translate) (o, s.2)
  match r.1._unsorted with
  | none => createUnsortedGroup r
  | some _ => r


end ScoreOrder

/-! ### Brackets and barlines

The score is a collaborator: a list of parts, each with its instrument id, its
soloist flag and its staves. A staff is identified by `idx` and carries the
bracket items it has when it is visited. The commands pushed on the undo stack
are the output. -/

/-- `BracketItem`: the fields read by `setBracketsAndBarlines`. -/
structure BracketItem where
  column : Int
  bracketType : BracketType
  bracketSpan : Int
deriving DecidableEq, Repr

/-- A `Staff`: `idx` identifies the object, `brackets` is `staff->brackets()`. -/
structure Staff where
  idx : Nat
  brackets : List BracketItem
deriving DecidableEq, Repr

/-- A `Part`: `instrumentId` is `part->instrument()->getId()`. -/
structure Part where
  instrumentId : QString
  soloist : Bool
  staves : List Staff
deriving DecidableEq, Repr

/-- Modelled from the spec: `Part::nstaves` (part.h is not part of the sources at
hand), the number of staves of the part, whose sum over a run is the span of a
bracket. -/
def Part.nstaves (p : Part) : Int := p.staves.length

/-- A `Score`: its parts, in score order. -/
structure Score where
  parts : List Part
deriving DecidableEq, Repr

/-- The value handed to `undoChangeProperty(Pid::STAFF_BARLINE_SPAN, ...)`. -/
inductive PropertyValue where
  | int (i : Int)
  | bool (b : Bool)
deriving DecidableEq, Repr

/-- The commands issued to the score: `RemoveBracket`, `undoAddBracket` and
`undoChangeProperty(Pid::STAFF_BARLINE_SPAN, value)`, each on a staff. -/
inductive Command where
  | removeBracket (staff : Nat) (column : Int) (type : BracketType) (span : Int)
  | addBracket (staff : Nat) (level : Int) (type : BracketType) (span : Int)
  | changeBarlineSpan (staff : Nat) (value : PropertyValue)
deriving DecidableEq, Repr

/-- The locals of `setBracketsAndBarlines` that live across parts. -/
structure BracketState where
  prvScoreGroup : Option ScoreGroup
  prvInstrument : Int
  prvStaff : Option Staff
  thkBracketStaff : Option Staff
  thnBracketStaff : Option Staff
  thkBracketSpan : Int
  thnBracketSpan : Int
deriving DecidableEq, Repr

/-- The locals of the staff loop: the outer locals, `staffIdx` and `blockThinBracket`. -/
structure StaffLoopState where
  st : BracketState
  staffIdx : Nat
  blockThinBracket : Bool
deriving DecidableEq, Repr

namespace ScoreOrder

/-- The initial values of the locals of `setBracketsAndBarlines`. -/
def initialBracketState : BracketState :=
  { prvScoreGroup := none, prvInstrument := 0, prvStaff := none,
    thkBracketStaff := none, thnBracketStaff := none,
    thkBracketSpan := 0, thnBracketSpan := 0 }

/-- The guarded call `if (staff && (span > 1)) score->undoAddBracket(staff, level, type, span)`. -/
def emitBracket (staff : Option Staff) (span : Int) (level : Int) (type : BracketType) :
    List Command :=
  match staff with
  | some s => if span > 1 then [Command.addBracket s.idx level type span] else []
  | none => []

/-- The test `!prvScoreGroup || (sg->section() != prvScoreGroup->section())`. -/
def sectionBoundary (sg : ScoreGroup) (prvScoreGroup : Option ScoreGroup) : Bool :=
  match prvScoreGroup with
  | none => true
  | some prv => !(sg._section.eqv prv._section)

/-- The test `!prvScoreGroup || (sg->section() == prvScoreGroup->section())`. -/
def sameSection (sg : ScoreGroup) (prvScoreGroup : Option ScoreGroup) : Bool :=
  match prvScoreGroup with
  | none => true
  | some prv => sg._section.eqv prv._section

/-- The thick bracket accumulator of one staff visit. -/
def thickPhase (sg : ScoreGroup) (part : Part) (staff : Staff) (staffIdx : Nat)
    (st : BracketState) : BracketState × List Command :=
  let boundary := sectionBoundary sg st.prvScoreGroup
  let cmds := if boundary then emitBracket st.thkBracketStaff st.thkBracketSpan 0 BracketType.NORMAL
              else []
  let st1 : BracketState :=
    if boundary && (sg.bracket && decide (staffIdx = 0)) then
      { st with thkBracketStaff := if sg.bracket then some staff else none
                thkBracketSpan := 0 }
    else st
  let st2 : BracketState :=
    if sg.bracket && decide (staffIdx = 0) then
      { st1 with thkBracketSpan := st1.thkBracketSpan + part.nstaves }
    else st1
  (st2, cmds)

/-- The thin bracket accumulator of one staff visit (up to the template test). -/
def thinPhase (ii : InstrumentIndex) (sg : ScoreGroup) (staff : Staff) (staffIdx : Nat)
    (blockThinBracket : Bool) (st : BracketState) : BracketState × List Command :=
  if decide (staffIdx = 0) || decide (ii.instrIndex ≠ st.prvInstrument) then
    let cmds := emitBracket st.thnBracketStaff st.thnBracketSpan 1 BracketType.SQUARE
    let st1 : BracketState :=
      if ii.instrIndex ≠ st.prvInstrument then
        { st with thnBracketStaff := if sg.thinBracket && !blockThinBracket then some staff
                                     else none
                  thnBracketSpan := 0 }
      else st
    (st1, cmds)
  else (st, [])

/-- The `if (ii.instrTemplate->nstaves() > 1) ... else ...` part of one staff visit,
followed by `prvScoreGroup = sg`. -/
def templatePhase (t : InstrumentTemplate) (sg : ScoreGroup) (part : Part) (staff : Staff)
    (ls : StaffLoopState) : StaffLoopState × List Command :=
  let st := ls.st
  if t.staves > 1 then
    let cmds :=
      (if t.bracket.getD ls.staffIdx BracketType.NO_BRACKET ≠ BracketType.NO_BRACKET then
        [Command.addBracket staff.idx 2 (t.bracket.getD ls.staffIdx BracketType.NO_BRACKET)
          (t.bracketSpan.getD ls.staffIdx 0)]
       else []) ++
      [Command.changeBarlineSpan staff.idx
        (PropertyValue.bool (t.barlineSpan.getD ls.staffIdx false))]
    ({ st := { st with prvStaff := none, prvScoreGroup := some sg }
       staffIdx := if ls.staffIdx < t.staves then ls.staffIdx + 1 else ls.staffIdx
       blockThinBracket := true }, cmds)
  else
    let thnSpan := if sg.thinBracket && decide (ls.staffIdx = 0)
                   then st.thnBracketSpan + part.nstaves else st.thnBracketSpan
    let cmds := match st.prvStaff with
      | some prv =>
        [Command.changeBarlineSpan prv.idx
          (PropertyValue.bool (sg.barLineSpan && sameSection sg st.prvScoreGroup))]
      | none => []
    ({ st := { st with thnBracketSpan := thnSpan, prvStaff := some staff,
                       prvScoreGroup := some sg }
       staffIdx := ls.staffIdx + 1
       blockThinBracket := ls.blockThinBracket }, cmds)

/-- The body of the staff loop of `setBracketsAndBarlines` for one staff. -/
def staffStep (ii : InstrumentIndex) (t : InstrumentTemplate) (sg : ScoreGroup) (part : Part)
    (ls : StaffLoopState) (staff : Staff) : StaffLoopState × List Command :=
  let c0 := staff.brackets.map
      (fun bi => Command.removeBracket staff.idx bi.column bi.bracketType bi.bracketSpan) ++
    [Command.changeBarlineSpan staff.idx (PropertyValue.int 0)]
  let r1 := thickPhase sg part staff ls.staffIdx ls.st
  let r2 := thinPhase ii sg staff ls.staffIdx ls.blockThinBracket r1.1
  let r3 := templatePhase t sg part staff { ls with st := r2.1 }
  (r3.1, c0 ++ r1.2 ++ r2.2 ++ r3.2)

/-- The staff loop `for (Staff* staff : *part->staves())`. -/
def staffLoop (ii : InstrumentIndex) (t : InstrumentTemplate) (sg : ScoreGroup) (part : Part) :
    List Staff → StaffLoopState → StaffLoopState × List Command
  | [], ls => (ls, [])
  | staff :: rest, ls =>
    let r := staffStep ii t sg part ls staff
    let r2 := staffLoop ii t sg part rest r.1
    (r2.1, r.2 ++ r2.2)

/-- The body of the part loop of `setBracketsAndBarlines` for one part. The result
is `none` when a staff is visited while the classified group `sg` is a null
pointer (the loop body dereferences `sg` unconditionally). -/
def partStep (o : ScoreOrder) (cat : Catalog) (st : BracketState) (part : Part) :
    Option (BracketState × List Command) :=
  let ii := searchTemplateIndexForId cat part.instrumentId
  match ii.instrTemplate with
  | none => some (st, [])
  | some t =>
    let family := o.getFamilyName (some t) part.soloist
    match part.staves, o.getGroupByFamily family (instrumentGroupId cat ii) with
    | [], _ => some ({ st with prvInstrument := ii.instrIndex }, [])
    | _ :: _, none => none
    | staves, some sg =>
      let r := staffLoop ii t sg part staves
        { st := st, staffIdx := 0, blockThinBracket := false }
      some ({ r.1.st with prvInstrument := ii.instrIndex }, r.2)

/-- The part loop `for (Part* part : score->parts())`. -/
def partLoop (o : ScoreOrder) (cat : Catalog) :
    List Part → BracketState → Option (BracketState × List Command)
  | [], st => some (st, [])
  | part :: rest, st =>
    match partStep o cat st part with
    | none => none
    | some r =>
      match partLoop o cat rest r.1 with
      | none => none
      | some r2 => some (r2.1, r.2 ++ r2.2)

/-- The two statements after the part loop. The second dereferences
`prvScoreGroup` once a thin bracket of span above 1 is pending. -/
def finalBrackets (st : BracketState) : Option (List Command) :=
  let thick := emitBracket st.thkBracketStaff st.thkBracketSpan 0 BracketType.NORMAL
  match emitBracket st.thnBracketStaff st.thnBracketSpan 1 BracketType.SQUARE with
  | [] => some thick
  | thin =>
    match st.prvScoreGroup with
    | none => none
    | some prv => some (thick ++ (if prv.thinBracket then thin else []))

/-- `ScoreOrder::setBracketsAndBarlines`: the commands issued, in order, or `none`
when a null group pointer is dereferenced. -/
def setBracketsAndBarlines (o : ScoreOrder) (cat : Catalog) (score : Score) :
    Option (List Command) :=
  if o.isCustom then some []
  else
    match partLoop o cat score.parts initialBracketState with
    | none => none
    | some r =>
      match finalBrackets r.1 with
      | none => none
      | some cmds => some (r.2 ++ cmds)

/-- `ScoreOrder::isScoreOrder(const Score*)`. -/
def isScoreOrderOfScore (o : ScoreOrder) (cat : Catalog) (score : Score) : Bool :=
  o.isScoreOrder (score.parts.map (fun part => o.instrumentIndex cat part.instrumentId part.soloist))

end ScoreOrder

/-! ## ScoreOrderList

The registry holds pointers to `ScoreOrder` objects. A pointer is an address and
the objects live in a heap indexed by address, so that two distinct objects with
equal fields remain distinct and `order->_customized = false` is a heap update.
`trCustom` stands for `QObject::tr("Custom")`. -/

/-- A pointer to a `ScoreOrder` object: its address. -/
abbrev OrderPtr := Nat

/-- The `ScoreOrder` objects, by address. -/
abbrev Heap := OrderPtr → ScoreOrder

/-- The heap after an assignment to the object at address `p`. -/
def Heap.set (heap : Heap) (p : OrderPtr) (o : ScoreOrder) : Heap :=
  fun q => if q = p then o else heap q

/-- `QList::insert(i, value)`: the value is placed at index `i`. -/
def qlistInsert {α : Type} (i : Nat) (value : α) (l : List α) : List α :=
  l.take i ++ value :: l.drop i

/-- `ScoreOrder::getName`. -/
def ScoreOrder.getName (trCustom : QString) (o : ScoreOrder) : QString :=
  if o.isCustom then trCustom else o._name

/-- The class `ScoreOrderList`: the pointers `_orders`, in registry order. -/
structure ScoreOrderList where
  _orders : List OrderPtr
deriving DecidableEq, Repr

namespace ScoreOrderList

/-- `ScoreOrderList::append`. -/
def append (heap : Heap) (l : ScoreOrderList) (order : OrderPtr) : ScoreOrderList :=
  match l._orders.getLast? with
  | none => { _orders := l._orders ++ [order] }
  | some last =>
    if !(heap last).isCustom then { _orders := l._orders ++ [order] }
    else { _orders := qlistInsert (l._orders.length - 1) order l._orders }

/-- The loop of `addScoreOrder`: the first index, counted from `index`, of an order
whose name equals `name`. -/
def addScoreOrderLoop (trCustom : QString) (heap : Heap) (name : QString) :
    List OrderPtr → Nat → Option Nat
  | [], _ => none
  | q :: rest, index =>
    if ((heap q).getName trCustom).eqv name then some index
    else addScoreOrderLoop trCustom heap name rest (index + 1)

/-- `ScoreOrderList::addScoreOrder`; `none` is the null pointer. The result is the
heap (the added order may be demoted) and the registry. -/
def addScoreOrder (trCustom : QString) (heap : Heap) (l : ScoreOrderList)
    (order : Option OrderPtr) : Heap × ScoreOrderList :=
  match order with
  | none => (heap, l)
  | some p =>
    if p ∈ l._orders then (heap, l)
    else if !(heap p).isCustomized then (heap, append heap l p)
    else
      match addScoreOrderLoop trCustom heap ((heap p).getName trCustom) l._orders 0 with
      | some index => (heap, { _orders := qlistInsert (index + 1) p l._orders })
      | none => (Heap.set heap p { heap p with _customized := false }, append heap l p)

/-- The constructor `ScoreOrderList::ScoreOrderList`: the custom order is allocated
at address `addr`, gets its unsorted group and is added to the empty registry.
The result is the heap, the group creation counter and the registry. -/
def new (cat : Catalog) (trCustom : QString) (heap : Heap) (counter : Nat) (addr : OrderPtr) :
    Heap × Nat × ScoreOrderList :=
  let custom := ScoreOrder.new cat (QString.str "<custom>") (QString.str "Custom")
  let r := ScoreOrder.createUnsortedGroup (custom, counter)
  let heap1 := Heap.set heap addr r.1
  let a := addScoreOrder trCustom heap1 { _orders := [] } (some addr)
  (a.1, r.2, a.2)

/-- The loop of `findByName`. -/
def findByNameLoop (trCustom : QString) (heap : Heap) (name : QString) (customized : Bool) :
    List OrderPtr → Option OrderPtr → Option OrderPtr
  | [], customizedOrder => customizedOrder
  | order :: rest, customizedOrder =>
    if ((heap order).getName trCustom).eqv name then
      if customized then
        if (heap order).isCustomized then some order
        else findByNameLoop trCustom heap name customized rest customizedOrder
      else
        if (heap order).isCustomized then
          findByNameLoop trCustom heap name customized rest (some order)
        else some order
    else findByNameLoop trCustom heap name customized rest customizedOrder

/-- `ScoreOrderList::findByName`. -/
def findByName (trCustom : QString) (heap : Heap) (l : ScoreOrderList) (name : QString)
    (customized : Bool) : Option OrderPtr :=
  findByNameLoop trCustom heap name customized l._orders none

/-- `ScoreOrderList::customScoreOrder`. -/
def customScoreOrder (heap : Heap) (l : ScoreOrderList) : Option OrderPtr :=
  l._orders.find? (fun so => (heap so).isCustom)

/-- The loop of `getScoreOrderIndex`. -/
def getScoreOrderIndexLoop (order : OrderPtr) : List OrderPtr → Nat → Nat
  | [], _ => 0
  | so :: rest, index =>
    if so = order then index else getScoreOrderIndexLoop order rest (index + 1)

/-- `ScoreOrderList::getScoreOrderIndex`. -/
def getScoreOrderIndex (l : ScoreOrderList) (order : OrderPtr) : Nat :=
  getScoreOrderIndexLoop order l._orders 0

/-- `ScoreOrderList::removeScoreOrder`; `none` is the null pointer. -/
def removeScoreOrder (l : ScoreOrderList) (order : Option OrderPtr) : ScoreOrderList :=
  match order with
  | none => l
  | some p =>
    let index := getScoreOrderIndex l p
    if index ≠ 0 then { _orders := l._orders.eraseIdx index } else l

/-- `ScoreOrderList::searchScoreOrders(const QList<int>& indices)`. -/
def searchScoreOrders (heap : Heap) (l : ScoreOrderList) (indices : List Int) :
    List OrderPtr :=
  l._orders.filter (fun order => !(heap order).isCustom && (heap order).isScoreOrder indices)

/-- The inner loop of `searchScoreOrders(const Score*)` for one part: `indices` is the
list built so far for this part, and the result lists the orders appended to
`orders`. -/
def searchScoreOrdersPart (heap : Heap) (cat : Catalog) (part : Part) :
    List OrderPtr → List Int → List OrderPtr
  | [], _ => []
  | order :: rest, indices =>
    if (heap order).isCustom then searchScoreOrdersPart heap cat part rest indices
    else
      let indices1 := indices ++ [(heap order).instrumentIndex cat part.instrumentId part.soloist]
      (if (heap order).isScoreOrder indices1 then [order] else []) ++
        searchScoreOrdersPart heap cat part rest indices1

/-- `ScoreOrderList::searchScoreOrders(const Score* score)`. -/
def searchScoreOrdersOfScore (heap : Heap) (cat : Catalog) (l : ScoreOrderList)
    (score : Score) : List OrderPtr :=
  (score.parts.map (fun part => searchScoreOrdersPart heap cat part l._orders [])).flatten

end ScoreOrderList


/-! ### Writing an `Order` element

The XML writer is a collaborator; what `ScoreOrder::write` does is given as the
calls it makes on the writer, in order, with the texts it hands over. The text
of a start tag, built with `QString::arg`, is the name of the element followed
by its attributes, as it goes into the file between `<` and `>`. -/

/-- A token of a text in which `QString::arg` looks for place markers: a stretch of
plain text, or a place marker with its number and its characters. -/
inductive ArgToken where
  | text (cs : List Char)
  | marker (n : Nat) (raw : List Char)
deriving DecidableEq, Repr

/-- The state of the scan for place markers: in plain text, after a `%` (or `%L`),
or after the first digit of a marker. -/
inductive ArgScan where
  | plain
  | percent (raw : List Char)
  | digit (raw : List Char) (v : Nat)
deriving DecidableEq, Repr

/-- The value of an ASCII digit. -/
def digitValue (c : Char) : Option Nat :=
  if c.isDigit then some (c.toNat - 48) else none

/-- The scan of `QString::arg` for place markers: a marker is `%`, an optional `L`
and one or two digits. -/
def argTokens : List Char → ArgScan → List ArgToken
  | [], ArgScan.plain => []
  | [], ArgScan.percent raw => [ArgToken.text raw]
  | [], ArgScan.digit raw v => [ArgToken.marker v raw]
  | c :: cs, ArgScan.plain =>
    if c = '%' then argTokens cs (ArgScan.percent ['%'])
    else ArgToken.text [c] :: argTokens cs ArgScan.plain
  | c :: cs, ArgScan.percent raw =>
    if c = 'L' ∧ raw = ['%'] then argTokens cs (ArgScan.percent ['%', 'L'])
    else match digitValue c with
      | some v => argTokens cs (ArgScan.digit (raw ++ [c]) v)
      | none =>
        ArgToken.text raw ::
          (if c = '%' then argTokens cs (ArgScan.percent ['%'])
           else ArgToken.text [c] :: argTokens cs ArgScan.plain)
  | c :: cs, ArgScan.digit raw v =>
    match digitValue c with
    | some v2 => ArgToken.marker (10 * v + v2) (raw ++ [c]) :: argTokens cs ArgScan.plain
    | none =>
      ArgToken.marker v raw ::
        (if c = '%' then argTokens cs (ArgScan.percent ['%'])
         else ArgToken.text [c] :: argTokens cs ArgScan.plain)

/-- The lowest number among the place markers of a token list. -/
def lowestMarker : List ArgToken → Option Nat
  | [] => none
  | ArgToken.text _ :: ts => lowestMarker ts
  | ArgToken.marker n _ :: ts =>
    match lowestMarker ts with
    | none => some n
    | some m => some (min n m)

/-- `QString::arg(a)`: every place marker with the lowest number is replaced by `a`;
a text without place marker is returned as it is. -/
def qArg (s a : String) : String :=
  let ts := argTokens s.data ArgScan.plain
  match lowestMarker ts with
  | none => s
  | some m =>
    String.mk ((ts.map (fun t =>
      match t with
      | ArgToken.text cs => cs
      | ArgToken.marker n raw => if n = m then a.data else raw)).flatten)

/-- A call made on the `XmlWriter`: `stag(s)`, `etag()`, `tag(name, data)` and
`tagE(s)`. -/
inductive XmlCall where
  | stag (s : String)
  | etag
  | tag (name : String) (data : String)
  | tagE (s : String)
deriving DecidableEq, Repr

namespace ScoreGroup

/-- `ScoreGroup::write`. -/
def write (sg : ScoreGroup) : XmlCall :=
  if sg._soloists then XmlCall.tagE "soloists"
  else if sg._unsorted.isNull then XmlCall.tag "family" sg._id.toStr
  else if sg._unsorted.isEmpty then XmlCall.tagE "unsorted"
  else XmlCall.tagE (qArg "unsorted group=\"%1\"" sg._unsorted.toStr)

end ScoreGroup

namespace ScoreOrder

/-- The text written for a flag: `flag ? "true" : "false"`. -/
def boolText (flag : Bool) : String := if flag then "true" else "false"

/-- The start tag of the `Order` element:
`QString("Order id=\"%1\" customized=\"%2\"").arg(_id).arg(_customized)`. -/
def orderTag (o : ScoreOrder) : String :=
  qArg (qArg "Order id=\"%1\" customized=\"%2\"" o._id.toStr)
    (if o._customized then "1" else "0")

/-- The start tag of a `section` element, the five place markers of the literal
being replaced in one pass by the section of the group and its four flags. -/
def sectionTag (sg : ScoreGroup) : String :=
  "section id=\"" ++ sg._section.toStr ++ "\" brackets=\"" ++ boolText sg.bracket ++
    "\" showSystemMarkings=\"" ++ boolText sg.showSystemMarkings ++
    "\" barLineSpan=\"" ++ boolText sg.barLineSpan ++
    "\" thinBrackets=\"" ++ boolText sg.thinBracket ++ "\""

/-- The calls of `write` for the override map, in key order. -/
def writeInstruments (m : InstrumentMap) : List XmlCall :=
  (m.map (fun e =>
    [XmlCall.stag (qArg "instrument id=\"%1\"" e.1),
     XmlCall.tag (qArg "family id=\"%1\"" e.2.id.toStr) e.2.name.toStr,
     XmlCall.etag])).flatten

/-- The body of the group loop of `ScoreOrder::write` for one group: the local
`section` and the calls made so far, before and after. -/
def writeGroup (st : QString × List XmlCall) (sg : ScoreGroup) : QString × List XmlCall :=
  if !(sg._section.eqv st.1) then
    (sg._section,
     st.2 ++ (if !st.1.isEmpty then [XmlCall.etag] else []) ++
       (if !sg._section.isEmpty then [XmlCall.stag (sectionTag sg)] else []) ++ [sg.write])
  else (st.1, st.2 ++ [sg.write])

/-- `ScoreOrder::write`: the calls made on the writer, none for the custom order. -/
def write (o : ScoreOrder) : List XmlCall :=
  if o.isCustom then []
  else
    let st := o.groups.foldl writeGroup
      (QString.str "",
       [XmlCall.stag (orderTag o), XmlCall.tag "name" o._name.toStr] ++
         writeInstruments o.instrumentMap)
    st.2 ++ (if !st.1.isEmpty then [XmlCall.etag] else []) ++ [XmlCall.etag]

end ScoreOrder


/-! ### Cloning, and the unsorted test -/

namespace ScoreOrder

/-- The body of the loop of `ScoreOrder::clone` for one group: `order` is the clone
under construction. -/
def cloneGroup (s : ScoreOrder × Nat) (sg : ScoreGroup) : ScoreOrder × Nat :=
  let r := sg.clone s.2
  let order1 := if sg.isSoloists then { s.1 with _soloists := some r.1 } else s.1
  let order2 := if sg.isUnsorted0 then { order1 with _unsorted := some r.1 } else order1
  ({ order2 with groups := order2.groups ++ [r.1] }, r.2)

/-- `ScoreOrder::clone`: the clone, and the creation counter before and after. -/
def clone (cat : Catalog) (o : ScoreOrder) (counter : Nat) : ScoreOrder × Nat :=
  let order := ScoreOrder.new cat o._id o._name
  let r := o.groups.foldl cloneGroup (order, counter)
  ({ r.1 with instrumentMap := o.instrumentMap, _groupMultiplier := o._groupMultiplier,
              _customized := true }, r.2)

/-- `ScoreOrder::instrumentInUnsortedSection`; `none` when the group returned by
`getGroup` is a null pointer, which the function dereferences. -/
def instrumentInUnsortedSection (o : ScoreOrder) (cat : Catalog) (id : QString)
    (soloist : Bool) : Option Bool :=
  if soloist then some true
  else match o.getGroup cat id soloist with
    | none => none
    | some sg => some sg.isUnsorted0

end ScoreOrder


/-! ## Notions used to state the properties -/

/-- The effective family id of the instrument `id` with template `t`, in the
words of the classification rule: the target family of the override-map entry of
the instrument id when there is one, otherwise the family declared by the
template (`none` when the template declares no family). -/
def effectiveFamilyId (o : ScoreOrder) (id : QString) (t : InstrumentTemplate) :
    Option QString :=
  if InstrumentMap.contains o.instrumentMap id then
    some (InstrumentMap.value o.instrumentMap id).id
  else t.family.map (fun f => f.id)

/-- The last group, in definition order, that is an unsorted group whose filter
equals `filter`. -/
def lastUnsortedWithFilter (groups : List ScoreGroup) (filter : QString) : Option ScoreGroup :=
  groups.reverse.find? (fun g => !g._unsorted.isNull && g._unsorted.eqv filter)

/-- The last group, in definition order, that is an unsorted group (any filter). -/
def lastUnsorted (groups : List ScoreGroup) : Option ScoreGroup :=
  groups.reverse.find? (fun g => !g._unsorted.isNull)

/-- The id of the instrument group of the catalog that holds the template found
for the instrument `id`. -/
def templateGroupId (cat : Catalog) (id : QString) : QString :=
  instrumentGroupId cat (searchTemplateIndexForId cat id)

/-- The invariant kept by the functions called from `ScoreOrder::read`, on the
order under construction and the creation counter: the id and the multiplier
are the ones `init` left (`id0`, `m0`); the groups of the order were created in
definition order, all before the current counter value; a group flagged as
soloists is the cached soloists group, which is the one `readSoloists` creates;
and the cached default unsorted group is a group of the order with an empty,
non-null filter. -/
structure ReadInv (id0 : QString) (m0 : Int) (s : ScoreOrder × Nat) : Prop where
  id_eq : s.1._id = id0
  multiplier_eq : s.1._groupMultiplier = m0
  index_lt : ∀ g ∈ s.1.groups, g._index < s.2
  sorted : s.1.groups.Pairwise (fun a b => a._index < b._index)
  soloists_unique : ∀ g ∈ s.1.groups, g._soloists = true → s.1._soloists = some g
  soloists_cached : ∀ sg, s.1._soloists = some sg →
    sg ∈ s.1.groups ∧ sg._id = QString.str "<soloists>" ∧ sg._unsorted = QString.null ∧
      sg._soloists = true
  unsorted_cached : ∀ u, s.1._unsorted = some u →
    u ∈ s.1.groups ∧ u._unsorted = QString.str ""

/-- The catalog rank of the instrument of a part (`instrIndex` of the lookup). -/
def catalogRank (cat : Catalog) (p : Part) : Int :=
  (searchTemplateIndexForId cat p.instrumentId).instrIndex

/-- A part sequence generated group by group: `blocks` lists, for each group of the
order in definition order, parts classified into that group, in increasing
catalog rank (equal ranks, as for two parts of one instrument, are allowed). -/
def GeneratedByGroups (o : ScoreOrder) (cat : Catalog) (blocks : List (List Part)) : Prop :=
  List.Forall₂
    (fun g blk =>
      (∀ p ∈ blk, o.getGroup cat p.instrumentId p.soloist = some g) ∧
      blk.Pairwise (fun p q => catalogRank cat p ≤ catalogRank cat q))
    o.groups blocks

/-- A thick bracket directive: `undoAddBracket` at column 0 with type `NORMAL`. -/
def Command.isThickBracket : Command → Bool
  | Command.addBracket _ level type _ => decide (level = 0) && decide (type = BracketType.NORMAL)
  | _ => false

/-- A thin bracket directive: `undoAddBracket` at column 1 with type `SQUARE`. -/
def Command.isThinBracket : Command → Bool
  | Command.addBracket _ level type _ => decide (level = 1) && decide (type = BracketType.SQUARE)
  | _ => false

/-- Two parts are classified into groups with identical section. -/
def sameSectionParts (o : ScoreOrder) (cat : Catalog) (p q : Part) : Bool :=
  match o.getGroup cat p.instrumentId p.soloist, o.getGroup cat q.instrumentId q.soloist with
  | some g, some h => g._section.eqv h._section
  | _, _ => false

/-- The maximal runs of consecutive parts whose groups have identical section. -/
def sectionRuns (o : ScoreOrder) (cat : Catalog) (parts : List Part) : List (List Part) :=
  parts.splitBy (sameSectionParts o cat)

/-- The staves of a run of parts, in score order. -/
def runStaves (run : List Part) : List Staff := (run.map Part.staves).flatten

/-- The sum of the stave counts of the parts of a run. -/
def runSpan (run : List Part) : Int := (run.map Part.nstaves).sum

/-- The thick bracket expected for a run: none when the total stave count is at
most 1, otherwise one bracket at column 0, type `NORMAL`, on the first staff of
the run, spanning the total stave count. -/
def thickDirective (run : List Part) : Option Command :=
  match runStaves run with
  | [] => none
  | s :: _ =>
    if 1 < runSpan run then
      some (Command.addBracket s.idx 0 BracketType.NORMAL (runSpan run))
    else none

/-- The thick bracket directives expected for a score: one per maximal run of
total stave count above 1, in score order. -/
def thickBracketsOfRuns (o : ScoreOrder) (cat : Catalog) (parts : List Part) : List Command :=
  (sectionRuns o cat parts).filterMap thickDirective

/-- The pointers of a list, each once, at the place of its first occurrence. -/
def firstOccurrences : List OrderPtr → List OrderPtr
  | [] => []
  | x :: xs => x :: (firstOccurrences xs).filter (fun y => decide (y ≠ x))

/-- A sequence of `addScoreOrder` calls, one per pointer of `adds`, in order. -/
def addScoreOrders (trCustom : QString) (s : Heap × ScoreOrderList) (adds : List OrderPtr) :
    Heap × ScoreOrderList :=
  adds.foldl (fun s a => ScoreOrderList.addScoreOrder trCustom s.1 s.2 (some a)) s

/-- The test of the name loops: the order at `q` has the display name `name`. -/
def hasName (trCustom : QString) (heap : Heap) (name : QString) (q : OrderPtr) : Bool :=
  ((heap q).getName trCustom).eqv name


/-- One execution of the body of the staff loop: the staff visited, the group and
the template of its part, and the value of `staffIdx` at the visit. -/
structure Visit where
  staff : Staff
  sg : ScoreGroup
  template : InstrumentTemplate
  staffIdx : Nat
deriving DecidableEq, Repr

/-- The value of `staffIdx` after a visit made with `staffIdx = k`. -/
def nextStaffIdx (t : InstrumentTemplate) (k : Nat) : Nat :=
  if t.staves > 1 then (if k < t.staves then k + 1 else k) else k + 1

/-- The visits of the staves of one part, `staffIdx` starting at `k`. -/
def staffVisits (t : InstrumentTemplate) (sg : ScoreGroup) : List Staff → Nat → List Visit
  | [], _ => []
  | s :: rest, k =>
    { staff := s, sg := sg, template := t, staffIdx := k } ::
      staffVisits t sg rest (nextStaffIdx t k)

/-- The visits made for one part: none when the instrument id resolves to no
template, otherwise one per staff of the part. -/
def partVisits (o : ScoreOrder) (cat : Catalog) (p : Part) : List Visit :=
  match (searchTemplateIndexForId cat p.instrumentId).instrTemplate,
      o.getGroup cat p.instrumentId p.soloist with
  | some t, some sg => staffVisits t sg p.staves 0
  | _, _ => []

/-- The staves visited by `setBracketsAndBarlines`, in visiting order. -/
def scoreVisits (o : ScoreOrder) (cat : Catalog) (parts : List Part) : List Visit :=
  (parts.map (partVisits o cat)).flatten

/-- The staff a command is issued on. -/
def Command.staff : Command → Nat
  | Command.removeBracket s _ _ _ => s
  | Command.addBracket s _ _ _ => s
  | Command.changeBarlineSpan s _ => s

/-- The staff and the value of a barline-span command. -/
def Command.barline : Command → Option (Nat × PropertyValue)
  | Command.changeBarlineSpan s v => some (s, v)
  | _ => none

/-- The barline-span commands of a command list, in issue order. -/
def barlineCommands (cmds : List Command) : List (Nat × PropertyValue) :=
  cmds.filterMap Command.barline

/-- The value of the last command of a list of barline-span commands that is issued
on the staff `i`. -/
def lastValueOn (i : Nat) (l : List (Nat × PropertyValue)) : Option PropertyValue :=
  ((l.filter (fun x => decide (x.1 = i))).getLast?).map (fun x => x.2)

/-- The value of the last barline-span command issued on the staff `i`. -/
def lastBarlineOn (i : Nat) (cmds : List Command) : Option PropertyValue :=
  lastValueOn i (barlineCommands cmds)

/-- The barline-span commands issued over a list of visits, from the values of
`prvStaff` and `prvScoreGroup` before the first of them. -/
def barlineTrace : List Visit → Option Staff → Option ScoreGroup → List (Nat × PropertyValue)
  | [], _, _ => []
  | v :: vs, prvStaff, prvGroup =>
    (v.staff.idx, PropertyValue.int 0) ::
      (if v.template.staves > 1 then
        (v.staff.idx, PropertyValue.bool (v.template.barlineSpan.getD v.staffIdx false)) ::
          barlineTrace vs none (some v.sg)
       else
        (match prvStaff with
          | some prv =>
            [(prv.idx, PropertyValue.bool
              (v.sg.barLineSpan && ScoreOrder.sameSection v.sg prvGroup))]
          | none => []) ++ barlineTrace vs (some v.staff) (some v.sg))

/-- The values of `prvStaff` and `prvScoreGroup` after a list of visits. -/
def traceEnd : List Visit → Option Staff × Option ScoreGroup → Option Staff × Option ScoreGroup
  | [], s => s
  | v :: vs, _ =>
    traceEnd vs (if v.template.staves > 1 then none else some v.staff, some v.sg)

/-- The part resolves to an instrument template. -/
def Part.resolves (cat : Catalog) (p : Part) : Bool :=
  (searchTemplateIndexForId cat p.instrumentId).instrTemplate.isSome

/-- Every part that is visited has a group: a part that resolves to a template and
has a staff is classified. -/
def VisitedClassified (o : ScoreOrder) (cat : Catalog) (parts : List Part) : Prop :=
  ∀ p ∈ parts, p.resolves cat = true → p.staves ≠ [] →
    (o.getGroup cat p.instrumentId p.soloist).isSome = true


/-- The staves remembered in the state (`prvStaff` and the two bracket anchors) all
have their object identity in `S`. -/
def Anchored (S : Nat → Prop) (st : BracketState) : Prop :=
  (∀ s, st.prvStaff = some s → S s.idx) ∧
  (∀ s, st.thkBracketStaff = some s → S s.idx) ∧
  (∀ s, st.thnBracketStaff = some s → S s.idx)

/-- The staff `i` is a staff of a part of the list that resolves to a template. -/
def StaffOfResolved (cat : Catalog) (parts : List Part) (i : Nat) : Prop :=
  ∃ p ∈ parts, p.resolves cat = true ∧ ∃ s ∈ p.staves, s.idx = i


/-- What a declaration of an `Order` element declares: the soloists group, the group
of a family, or an unsorted group with a filter. -/
inductive DeclKind where
  | soloists
  | family (id : String)
  | unsorted (filter : String)
deriving DecidableEq, Repr

/-- A group declaration in document order, with what it assigns to the group it
creates: the section id and the four display flags. -/
structure Declaration where
  kind : DeclKind
  sect : QString
  bracket : Bool
  showSystemMarkings : Bool
  barLineSpan : Bool
  thinBracket : Bool
deriving DecidableEq, Repr

/-- Two declarations declare the same bucket: both soloists, the same family id, or
the same unsorted filter. -/
def DeclKind.same : DeclKind → DeclKind → Bool
  | DeclKind.soloists, DeclKind.soloists => true
  | DeclKind.family a, DeclKind.family b => decide (a = b)
  | DeclKind.unsorted a, DeclKind.unsorted b => decide (a = b)
  | _, _ => false

/-- The declaration made by a child of a `section` element. -/
def sectionChildDecls (id : QString) (ssm bls tbr : Bool) : SectionChild → List Declaration
  | SectionChild.family text =>
    [{ kind := DeclKind.family text, sect := id, bracket := true,
       showSystemMarkings := ssm, barLineSpan := bls, thinBracket := tbr }]
  | SectionChild.unsorted group =>
    [{ kind := DeclKind.unsorted (group.getD ""), sect := id, bracket := true,
       showSystemMarkings := ssm, barLineSpan := bls, thinBracket := tbr }]
  | SectionChild.unknown => []

/-- The declarations made by a child of an `Order` element. A soloists declaration
carries the flags of the `ScoreGroup` constructor. -/
def childDecls : OrderChild → List Declaration
  | OrderChild.sectionTag id ssm bls tbr children =>
    (children.map (sectionChildDecls (ScoreOrder.xmlAttribute id)
      (ScoreOrder.readBoolAttribute ssm false) (ScoreOrder.readBoolAttribute bls true)
      (ScoreOrder.readBoolAttribute tbr true))).flatten
  | OrderChild.family text =>
    [{ kind := DeclKind.family text, sect := QString.str "", bracket := false,
       showSystemMarkings := false, barLineSpan := false, thinBracket := false }]
  | OrderChild.soloists =>
    [{ kind := DeclKind.soloists, sect := QString.str "", bracket := false,
       showSystemMarkings := false, barLineSpan := true, thinBracket := true }]
  | OrderChild.unsorted group =>
    [{ kind := DeclKind.unsorted (group.getD ""), sect := QString.str "", bracket := false,
       showSystemMarkings := false, barLineSpan := false, thinBracket := false }]
  | _ => []

/-- The group declarations of an `Order` element, in document order. -/
def declarations (e : OrderElement) : List Declaration :=
  (e.children.map childDecls).flatten

/-- The group `g` is the group of the declaration `d`: its kind, id and filter are
those declared and it has the section and the display flags of `d`. -/
def GroupOf (d : Declaration) (g : ScoreGroup) : Prop :=
  g._section = d.sect ∧ g.bracket = d.bracket ∧
  g.showSystemMarkings = d.showSystemMarkings ∧ g.barLineSpan = d.barLineSpan ∧
  g.thinBracket = d.thinBracket ∧
  match d.kind with
  | DeclKind.soloists =>
    g._soloists = true ∧ g._id = QString.str "<soloists>" ∧ g._unsorted = QString.null
  | DeclKind.family id =>
    g._soloists = false ∧ g._id = QString.str id ∧ g._unsorted = QString.null
  | DeclKind.unsorted filter =>
    g._soloists = false ∧ g._id = QString.str "<unsorted>" ∧ g._unsorted = QString.str filter

/-- The declaration `d` is the first declaration of its bucket in the list. -/
def FirstDecl (decls : List Declaration) (d : Declaration) : Prop :=
  decls.find? (fun x => d.kind.same x.kind) = some d

/-- The group `g` is the default unsorted group made by `createUnsortedGroup`. -/
def SynthesizedDefault (g : ScoreGroup) : Prop :=
  g._soloists = false ∧ g._id = QString.str "<unsorted>" ∧ g._unsorted = QString.str "" ∧
  g._section = QString.str "" ∧ g.bracket = false ∧ g.showSystemMarkings = false ∧
  g.barLineSpan = false ∧ g.thinBracket = false

/-- A family group: neither the soloists group nor an unsorted group. -/
def ScoreGroup.isFamily (g : ScoreGroup) : Bool := !g._soloists && g._unsorted.isNull

/-- The declaration `d` has left a group in its bucket: a soloists group is cached,
some group has the declared family id, or some unsorted group has the declared
filter. -/
def Covered (o : ScoreOrder) (d : Declaration) : Prop :=
  match d.kind with
  | DeclKind.soloists => o._soloists.isSome = true
  | DeclKind.family id => ∃ g ∈ o.groups, g.id.eqv (QString.str id) = true
  | DeclKind.unsorted filter => ∃ g ∈ o.groups, g.isUnsorted (QString.str filter) = true

/-- The invariant that ties the groups of an order under construction to the
declarations `decls` read so far: every group is the group of the first
declaration of its bucket; every declaration read has left a group in its bucket;
a default unsorted group is cached once an unsorted group with empty filter
exists; no two unsorted groups have the same filter and no family group has the
id of an earlier group. -/
structure DeclInv (decls : List Declaration) (s : ScoreOrder × Nat) : Prop where
  first : ∀ g ∈ s.1.groups, ∃ d, FirstDecl decls d ∧ GroupOf d g
  covered : ∀ d ∈ decls, Covered s.1 d
  cached : ∀ g ∈ s.1.groups, g._unsorted.isNull = false → g._unsorted.isEmpty = true →
    s.1._unsorted.isSome = true
  unsorted_distinct : s.1.groups.Pairwise (fun a b =>
    ¬ (a._unsorted.isNull = false ∧ b._unsorted.isNull = false ∧
        a._unsorted.eqv b._unsorted = true))
  family_distinct : s.1.groups.Pairwise (fun a b =>
    ¬ (b.isFamily = true ∧ a.id.eqv b.id = true))


/-! ### Comparing groups -/

/-- The fields of two groups agree, the creation index apart: strings are compared
as Qt compares them, and the filters are both null or both not. -/
def ScoreGroup.sameFields (a b : ScoreGroup) : Bool :=
  a._id.eqv b._id && a._section.eqv b._section &&
  (a._unsorted.isNull == b._unsorted.isNull) && a._unsorted.eqv b._unsorted &&
  (a._soloists == b._soloists) && (a.bracket == b.bracket) &&
  (a.showSystemMarkings == b.showSystemMarkings) && (a.barLineSpan == b.barLineSpan) &&
  (a.thinBracket == b.thinBracket)

/-- Two group sequences agree field for field, in the same order. -/
def sameGroups : List ScoreGroup → List ScoreGroup → Bool
  | [], [] => true
  | a :: as, b :: bs => a.sameFields b && sameGroups as bs
  | _, _ => false

/-! ### Boolean attributes -/

/-- Two texts are equal when letter case is ignored: they have the same length and,
position by position, characters with the same lower-case form. -/
def equalsIgnoringCase (a b : String) : Bool :=
  decide (a.data.length = b.data.length) &&
    (a.data.zip b.data).all (fun p => p.1.toLower == p.2.toLower)

/-- The value of a boolean attribute as the specification words it: the default when
the attribute is absent, `true` for "true" and `false` for "false" in any letter
case, the default for any other value. -/
def boolAttributeSpec (attr : Option String) (defvalue : Bool) : Bool :=
  match attr with
  | none => defvalue
  | some a =>
    if equalsIgnoringCase a "true" then true
    else if equalsIgnoringCase a "false" then false
    else defvalue


/-! ### Spans of the accumulated brackets -/

/-- A bracket added at another column than 2, the column of the template brackets,
spans at least two staves; any other command passes. -/
def Command.spanAtLeastTwo : Command → Prop
  | Command.addBracket _ level _ span => level ≠ 2 → 2 ≤ span
  | _ => True


/-! ### The commands issued on the staff visited -/

/-- The command adds a bracket for one of the two accumulators: a bracket at another
column than 2, the column of the template brackets. -/
def Command.isAccumulated : Command → Bool
  | Command.addBracket _ level _ _ => decide (level ≠ 2)
  | _ => false

/-- The commands of a list other than the brackets of the accumulators, in issue
order: the bracket removals, the template brackets and the barline spans. -/
def directCommands (cmds : List Command) : List Command :=
  cmds.filter (fun c => !c.isAccumulated)

/-- The commands other than accumulator brackets issued at one visit, from the value
of `prvStaff` and `prvScoreGroup` before it. -/
def visitCommands (v : Visit) (prvStaff : Option Staff) (prvGroup : Option ScoreGroup) :
    List Command :=
  v.staff.brackets.map
      (fun bi => Command.removeBracket v.staff.idx bi.column bi.bracketType bi.bracketSpan) ++
    [Command.changeBarlineSpan v.staff.idx (PropertyValue.int 0)] ++
    (if v.template.staves > 1 then
      (if v.template.bracket.getD v.staffIdx BracketType.NO_BRACKET ≠ BracketType.NO_BRACKET then
        [Command.addBracket v.staff.idx 2
          (v.template.bracket.getD v.staffIdx BracketType.NO_BRACKET)
          (v.template.bracketSpan.getD v.staffIdx 0)]
       else []) ++
      [Command.changeBarlineSpan v.staff.idx
        (PropertyValue.bool (v.template.barlineSpan.getD v.staffIdx false))]
     else
      match prvStaff with
      | some prv =>
        [Command.changeBarlineSpan prv.idx
          (PropertyValue.bool (v.sg.barLineSpan && ScoreOrder.sameSection v.sg prvGroup))]
      | none => [])

/-- The commands other than accumulator brackets issued over a list of visits. -/
def directTrace : List Visit → Option Staff → Option ScoreGroup → List Command
  | [], _, _ => []
  | v :: vs, prvStaff, prvGroup =>
    visitCommands v prvStaff prvGroup ++
      directTrace vs (if v.template.staves > 1 then none else some v.staff) (some v.sg)

/-- What the template prescribes for the staff `staff` visited with index `k`: the
removal of the brackets the staff has, the reset of its barline span, the
template bracket at column 2 unless its type is `NO_BRACKET`, and the barline
span of the template. -/
def templateCommands (t : InstrumentTemplate) (staff : Staff) (k : Nat) : List Command :=
  staff.brackets.map
      (fun bi => Command.removeBracket staff.idx bi.column bi.bracketType bi.bracketSpan) ++
    [Command.changeBarlineSpan staff.idx (PropertyValue.int 0)] ++
    (if t.bracket.getD k BracketType.NO_BRACKET ≠ BracketType.NO_BRACKET then
      [Command.addBracket staff.idx 2 (t.bracket.getD k BracketType.NO_BRACKET)
        (t.bracketSpan.getD k 0)]
     else []) ++
    [Command.changeBarlineSpan staff.idx (PropertyValue.bool (t.barlineSpan.getD k false))]


/-! ### Sort keys -/

/-- The sort key of an instrument classified into the group `g`, as a mathematical
integer: `groupMultiplier * creationIndex + r`, with `r = 0` for an unsorted
group (any filter) and `r` the catalog rank of the instrument otherwise. -/
def sortKey (o : ScoreOrder) (cat : Catalog) (id : QString) (g : ScoreGroup) : Int :=
  o._groupMultiplier * (g._index : Int) +
    (if g._unsorted.isNull = false then 0
     else (searchTemplateIndexForId cat id).instrIndex)


/-! ## Sample data -/

namespace Sample

/-- A single-staff flute template, family "woodwinds". -/
def flute : InstrumentTemplate :=
  { id := QString.str "flute"
    family := some { id := QString.str "woodwinds", name := QString.str "Woodwinds" }
    staves := 1, bracket := [], bracketSpan := [], barlineSpan := [] }

/-- A single-staff oboe template, family "woodwinds". -/
def oboe : InstrumentTemplate :=
  { id := QString.str "oboe"
    family := some { id := QString.str "woodwinds", name := QString.str "Woodwinds" }
    staves := 1, bracket := [], bracketSpan := [], barlineSpan := [] }

/-- A single-staff violin template, family "strings". -/
def violin : InstrumentTemplate :=
  { id := QString.str "violin"
    family := some { id := QString.str "strings", name := QString.str "Strings" }
    staves := 1, bracket := [], bracketSpan := [], barlineSpan := [] }

/-- A catalog of two instrument groups: flute (rank 0), oboe (rank 1), violin (rank 2). -/
def catalog : Catalog :=
  [{ id := QString.str "wind", instrumentTemplates := [flute, oboe] },
   { id := QString.str "bowed", instrumentTemplates := [violin] }]

/-- A catalog whose only instrument group has no id (a null string). -/
def catalogNoGroupId : Catalog :=
  [{ id := QString.null, instrumentTemplates := [violin] }]

/-- An order that has not been read yet. -/
def blank : ScoreOrder := ScoreOrder.new catalog (QString.str "orchestral") QString.null

/-- An `Order` element with sections "Winds" (woodwinds) and "Strings" (strings)
and a default unsorted group. -/
def orchestralElement : OrderElement :=
  { customized := 0
    children := [OrderChild.sectionTag (some "Winds") none none none
                   [SectionChild.family "woodwinds"],
                 OrderChild.sectionTag (some "Strings") none none none
                   [SectionChild.family "strings"],
                 OrderChild.unsorted none] }

/-- The order read from `orchestralElement`. -/
def orchestral : ScoreOrder :=
  (ScoreOrder.read catalog (fun s => s) orchestralElement (blank, 0)).1

/-- An order with two unsorted groups only: the default one and one for the
instrument group "brass". -/
def unsortedOnly : ScoreOrder :=
  (ScoreOrder.read catalogNoGroupId (fun s => s)
    { customized := 0
      children := [OrderChild.unsorted none, OrderChild.unsorted (some "brass")] }
    (blank, 0)).1

/-- An `Order` element that declares a family named "<soloists>" before its
soloists group. -/
def soloistsClash : OrderElement :=
  { customized := 0
    children := [OrderChild.family "<soloists>", OrderChild.soloists, OrderChild.family "strings"] }

/-- An `Order` element with a soloists group, the strings family and an unsorted group. -/
def withSoloists : OrderElement :=
  { customized := 0
    children := [OrderChild.soloists, OrderChild.family "strings", OrderChild.unsorted none] }

/-- The order read from `soloistsClash`. -/
def clashOrder : ScoreOrder :=
  (ScoreOrder.read catalog (fun s => s) soloistsClash (blank, 0)).1

/-- The order read from `withSoloists`. -/
def soloistsOrder : ScoreOrder :=
  (ScoreOrder.read catalog (fun s => s) withSoloists (blank, 0)).1

/-- A single-staff part of the given instrument; `idx` identifies its staff. -/
def part (id : String) (idx : Nat) : Part :=
  { instrumentId := QString.str id, soloist := false, staves := [{ idx := idx, brackets := [] }] }

/-- A part of the given instrument without any staff. -/
def emptyPart (id : String) : Part :=
  { instrumentId := QString.str id, soloist := false, staves := [] }

/-- Two flutes followed by a violin, one staff each (staves 0, 1, 2). -/
def fluteFluteViolin : Score :=
  { parts := [part "flute" 0, part "flute" 1, part "violin" 2] }

/-- Two flutes (staves 0 and 1) with a violin part without staves between them. -/
def fluteGapFlute : Score :=
  { parts := [part "flute" 0, emptyPart "violin", part "flute" 1] }

/-- Two flutes, one staff each (staves 0 and 1). -/
def twoFlutes : Score := { parts := [part "flute" 0, part "flute" 1] }

/-- Two oboes, one staff each (staves 0 and 1). -/
def twoOboes : Score := { parts := [part "oboe" 0, part "oboe" 1] }

/-- Three oboes, one staff each (staves 0, 1 and 2). -/
def threeOboes : Score := { parts := [part "oboe" 0, part "oboe" 1, part "oboe" 2] }

/-- A non-customized order named "Band". -/
def band : ScoreOrder := ScoreOrder.new catalog (QString.str "band") (QString.str "Band")

/-- A non-customized order named "Choir". -/
def choir : ScoreOrder := ScoreOrder.new catalog (QString.str "choir") (QString.str "Choir")

/-- The sample orchestral order under the name "Orchestra". -/
def orchestraBase : ScoreOrder := { orchestral with _name := QString.str "Orchestra" }

/-- A customized order named "Orchestra". -/
def orchestraCustomized : ScoreOrder := { orchestraBase with _customized := true }

/-- A heap with orders at the addresses 1 ("Band"), 2 ("Choir"), 3 ("Orchestra") and
4 ("Orchestra", customized); address 0 is free for the custom order. -/
def heap : Heap := fun a =>
  match a with
  | 1 => band
  | 2 => choir
  | 3 => orchestraBase
  | 4 => orchestraCustomized
  | _ => blank

/-- A freshly constructed registry, its custom order at address 0. -/
def freshRegistry : Heap × Nat × ScoreOrderList :=
  ScoreOrderList.new catalog (QString.str "Custom") heap 100 0

/-- The registry after adding the orders at 1, 2 and 3: "Band", "Choir", "Orchestra"
and the custom order. -/
def registry : Heap × ScoreOrderList :=
  addScoreOrders (QString.str "Custom") (freshRegistry.1, freshRegistry.2.2) [1, 2, 3]

/-- The registry after adding the order at 3 only. -/
def smallRegistry : Heap × ScoreOrderList :=
  addScoreOrders (QString.str "Custom") (freshRegistry.1, freshRegistry.2.2) [3]

/-- A violin followed by a flute, one staff each: not in orchestral order. -/
def violinFlute : Score := { parts := [part "violin" 0, part "flute" 1] }


/-- The woodwinds group of the sample orchestral order. -/
def woodwindsGroup : ScoreGroup :=
  { _id := QString.str "woodwinds", _section := QString.str "Winds", _soloists := false,
    _unsorted := QString.null, _index := 0, bracket := true, showSystemMarkings := false,
    barLineSpan := true, thinBracket := true }

/-- The strings group of the sample orchestral order. -/
def stringsGroup : ScoreGroup :=
  { _id := QString.str "strings", _section := QString.str "Strings", _soloists := false,
    _unsorted := QString.null, _index := 1, bracket := true, showSystemMarkings := false,
    barLineSpan := true, thinBracket := true }

/-- The visit of a single staff of the given group and template. -/
def visit (idx : Nat) (sg : ScoreGroup) (t : InstrumentTemplate) : Visit :=
  { staff := { idx := idx, brackets := [] }, sg := sg, template := t, staffIdx := 0 }

/-- A part whose instrument id is in no catalog, with one staff (staff 9). -/
def unknownPart : Part :=
  { instrumentId := QString.str "theremin", soloist := false,
    staves := [{ idx := 9, brackets := [] }] }

/-- Flute, an unknown instrument, flute and violin. -/
def withUnknown : Score :=
  { parts := [part "flute" 0, unknownPart, part "flute" 1, part "violin" 2] }


/-- A customized order named "Festival", a name no other sample order has. -/
def festival : ScoreOrder :=
  { orchestral with _name := QString.str "Festival", _customized := true }

/-- The heap of `registry` with the order "Festival" at address 5. -/
def festivalHeap : Heap := Heap.set registry.1 5 festival


/-- An `Order` element with one section, "Winds", for the family `woodwinds`, and the
default unsorted group outside any section. -/
def windsElement : OrderElement :=
  { customized := 0
    children := [OrderChild.sectionTag (some "Winds") none none none
                   [SectionChild.family "woodwinds"],
                 OrderChild.unsorted none] }

/-- The order read from `windsElement`. -/
def windsOnly : ScoreOrder :=
  (ScoreOrder.read catalog (fun s => s) windsElement (blank, 0)).1

/-- An `Order` element with the family `strings`, the default unsorted group and,
after it, an unsorted group for the instrument group `bowed`. -/
def filteredLastElement : OrderElement :=
  { customized := 0
    children := [OrderChild.family "strings", OrderChild.unsorted none,
                 OrderChild.unsorted (some "bowed")] }

/-- The order read from `filteredLastElement`. -/
def filteredLast : ScoreOrder :=
  (ScoreOrder.read catalog (fun s => s) filteredLastElement (blank, 0)).1


/-- A piano: two staves, a brace over both on the first staff, barlines joined from
the first staff to the second. -/
def piano : InstrumentTemplate :=
  { id := QString.str "piano"
    family := some { id := QString.str "keyboards", name := QString.str "Keyboards" }
    staves := 2, bracket := [BracketType.BRACE, BracketType.NO_BRACKET]
    bracketSpan := [2, 0], barlineSpan := [true, false] }

/-- The sample catalog with a third group, `keys`, holding the piano. -/
def keyboardCatalog : Catalog :=
  catalog ++ [{ id := QString.str "keys", instrumentTemplates := [piano] }]

/-- The upper staff of the piano part (staff 1); it has a square bracket of span 2. -/
def pianoUpper : Staff :=
  { idx := 1, brackets := [{ column := 1, bracketType := BracketType.SQUARE, bracketSpan := 2 }] }

/-- The piano part: staves 1 and 2. -/
def pianoPart : Part :=
  { instrumentId := QString.str "piano", soloist := false
    staves := [pianoUpper, { idx := 2, brackets := [] }] }

/-- Flute (staff 0), piano (staves 1 and 2), violin (staff 3). -/
def flutePianoViolin : Score :=
  { parts := [part "flute" 0, pianoPart, part "violin" 3] }


/-- The sample orchestral order read when 536870911 groups have been constructed
before: its groups have the creation indices 536870911, 536870912 and 536870913. -/
def lateOrchestral : ScoreOrder :=
  (ScoreOrder.read catalog (fun s => s) orchestralElement (blank, 536870911)).1


end Sample

/-! ## Properties -/

/-! ### Strings and catalog lookup -/

theorem QString.eqv_iff (a b : QString) : a.eqv b = true ↔ a.toStr = b.toStr := by
  simp [QString.eqv]

theorem QString.eqv_refl (a : QString) : a.eqv a = true := by
  simp [QString.eqv]

theorem QString.eqv_symm (a b : QString) : a.eqv b = b.eqv a := by
  simp [QString.eqv, eq_comm]

theorem QString.eqv_trans {a b c : QString} (h1 : a.eqv b = true) (h2 : b.eqv c = true) :
    a.eqv c = true := by
  simp only [QString.eqv_iff] at *
  exact h1.trans h2

theorem searchTemplates_some (id : QString) (grp : Nat) (ts : List InstrumentTemplate)
    (rank : Nat) (ii : InstrumentIndex) (h : searchTemplates id grp ts rank = some ii) :
    ∃ t, ii.instrTemplate = some t ∧ t ∈ ts ∧ t.id.eqv id = true ∧ ii.groupIndex = grp ∧
      (rank : Int) ≤ ii.instrIndex ∧ ii.instrIndex < rank + ts.length := by
  induction ts generalizing rank with
  | nil => simp [searchTemplates] at h
  | cons t ts ih =>
    unfold searchTemplates at h
    split at h
    · rename_i ht
      cases h
      exact ⟨t, rfl, by simp, ht, rfl, by simp, by simp⟩
    · obtain ⟨t', h1, h2, h3, h4, h5, h6⟩ := ih (rank + 1) h
      refine ⟨t', h1, by simp [h2], h3, h4, ?_, ?_⟩
      · push_cast at h5; omega
      · push_cast at h6 ⊢; simp only [List.length_cons]; push_cast; omega

open ScoreOrder in
theorem searchGroups_spec (id : QString) (gs : List InstrumentGroup) (grp rank : Nat) :
    ((searchGroups id gs grp rank).instrTemplate = none ∧
      (searchGroups id gs grp rank).instrIndex = -1) ∨
    (∃ t, (searchGroups id gs grp rank).instrTemplate = some t ∧ t.id.eqv id = true ∧
      (rank : Int) ≤ (searchGroups id gs grp rank).instrIndex ∧
      (searchGroups id gs grp rank).instrIndex < rank + totalTemplates gs) := by
  induction gs generalizing grp rank with
  | nil => left; simp [searchGroups]
  | cons g gs ih =>
    unfold searchGroups
    cases hs : searchTemplates id grp g.instrumentTemplates rank with
    | some ii =>
      right
      obtain ⟨t, h1, _, h3, _, h5, h6⟩ := searchTemplates_some _ _ _ _ _ hs
      refine ⟨t, h1, h3, h5, ?_⟩
      simp only [totalTemplates]
      have : (0 : Int) ≤ totalTemplates gs := by
        clear ih hs h6
        induction gs with
        | nil => simp [totalTemplates]
        | cons a l ih => simp only [totalTemplates]; omega
      omega
    | none =>
      dsimp only
      rcases ih (grp + 1) (rank + g.instrumentTemplates.length) with h | ⟨t, h1, h2, h3, h4⟩
      · left; exact h
      · right
        refine ⟨t, h1, h2, ?_, ?_⟩
        · push_cast at h3; omega
        · simp only [totalTemplates]; push_cast at h4; omega

open ScoreOrder in
theorem search_resolved (cat : Catalog) (id : QString) (t : InstrumentTemplate)
    (h : (searchTemplateIndexForId cat id).instrTemplate = some t) :
    t.id.eqv id = true ∧ 0 ≤ (searchTemplateIndexForId cat id).instrIndex ∧
      (searchTemplateIndexForId cat id).instrIndex < totalTemplates cat := by
  unfold searchTemplateIndexForId at h ⊢
  rcases searchGroups_spec id cat 0 0 with h' | ⟨t', h1, h2, h3, h4⟩
  · rw [h'.1] at h; cases h
  · rw [h1] at h; cases h
    exact ⟨h2, by simpa using h3, by simpa using h4⟩

theorem search_unresolved (cat : Catalog) (id : QString)
    (h : (searchTemplateIndexForId cat id).instrTemplate = none) :
    (searchTemplateIndexForId cat id).instrIndex = -1 := by
  unfold searchTemplateIndexForId at h ⊢
  rcases searchGroups_spec id cat 0 0 with h' | ⟨t', h1, _⟩
  · exact h'.2
  · rw [h1] at h; cases h

open ScoreOrder in
/-- When some group passes the family test, the loop of `getGroup` returns the first one. -/
theorem getGroupLoop_found (family ig : QString) (groups : List ScoreGroup)
    (u : Option ScoreGroup) (g : ScoreGroup)
    (h : groups.find? (fun sg => !sg.isUnsorted0 && sg.id.eqv family) = some g) :
    getGroupLoop family ig groups u = Sum.inr g := by
  induction groups generalizing u with
  | nil => simp at h
  | cons sg rest ih =>
    unfold getGroupLoop
    by_cases hp : (!sg.isUnsorted0 && sg.id.eqv family) = true
    · simp only [List.find?_cons, hp] at h
      cases h
      simp [hp]
    · simp only [List.find?_cons, hp] at h
      simp only [hp]
      exact ih _ h

open ScoreOrder in
/-- When no group passes the family test, the loop of `getGroup` ends with the last
group that passes `isUnsorted(instrumentGroup)`, or with the initial value. -/
theorem getGroupLoop_not_found (family ig : QString) (groups : List ScoreGroup)
    (u : Option ScoreGroup)
    (h : ∀ sg ∈ groups, (!sg.isUnsorted0 && sg.id.eqv family) = false) :
    getGroupLoop family ig groups u =
      Sum.inl ((groups.reverse.find? (fun sg => sg.isUnsorted ig)).or u) := by
  induction groups generalizing u with
  | nil => simp [getGroupLoop]
  | cons sg rest ih =>
    unfold getGroupLoop
    have hsg := h sg (by simp)
    rw [hsg]
    simp only [Bool.false_eq_true, if_false]
    rw [ih _ (fun x hx => h x (by simp [hx]))]
    simp only [List.reverse_cons, List.find?_append]
    cases hr : List.find? (fun sg => sg.isUnsorted ig) rest.reverse with
    | some x => simp
    | none =>
      by_cases hq : sg.isUnsorted ig = true
      · simp [hq]
      · simp [hq]

/-! ### Classification -/

theorem ScoreGroup.isUnsorted0_eq (sg : ScoreGroup) :
    sg.isUnsorted0 = !sg._unsorted.isNull := by
  cases h : sg._unsorted <;> simp [ScoreGroup.isUnsorted0, ScoreGroup.isUnsorted, h, QString.isNull]

theorem InstrumentMap.contains_congr (m : InstrumentMap) {a b : QString}
    (h : a.eqv b = true) : InstrumentMap.contains m a = InstrumentMap.contains m b := by
  rw [QString.eqv_iff] at h
  simp [InstrumentMap.contains, h]

theorem InstrumentMap.value_congr (m : InstrumentMap) {a b : QString}
    (h : a.eqv b = true) : InstrumentMap.value m a = InstrumentMap.value m b := by
  rw [QString.eqv_iff] at h
  simp [InstrumentMap.value, h]

/-- For a non-soloist whose effective family id exists, `getFamilyName` is that id. -/
theorem getFamilyName_effective (o : ScoreOrder) (id : QString) (t : InstrumentTemplate)
    (fam : QString) (hid : t.id.eqv id = true) (hfam : effectiveFamilyId o id t = some fam) :
    o.getFamilyName (some t) false = fam := by
  unfold effectiveFamilyId at hfam
  unfold ScoreOrder.getFamilyName
  simp only [Bool.false_eq_true, if_false]
  rw [InstrumentMap.contains_congr _ hid, InstrumentMap.value_congr _ hid]
  split at hfam
  · rename_i hc
    simp only [hc, if_true]
    exact Option.some.inj hfam
  · rename_i hc
    simp only [hc, if_false]
    cases hf : t.family with
    | none => simp [hf] at hfam
    | some f => simpa [hf] using hfam

/-- `getGroup(id, soloist)` of a resolvable instrument is `getGroup(family, group)` at
its family name and the id of its instrument group. -/
theorem getGroup_resolved (o : ScoreOrder) (cat : Catalog) (id : QString) (soloist : Bool)
    (t : InstrumentTemplate) (h : (searchTemplateIndexForId cat id).instrTemplate = some t) :
    o.getGroup cat id soloist =
      o.getGroupByFamily (o.getFamilyName (some t) soloist) (templateGroupId cat id) := by
  simp only [ScoreOrder.getGroup, h, templateGroupId]

/-- C1. For a resolvable, non-soloist instrument whose effective family id is
non-empty and is the id of at least one non-unsorted group of the order,
`getGroup(id, false)` returns the first non-unsorted group with that id, in
definition order, and the group returned is not an unsorted group. -/
theorem getGroup_first_family_match (o : ScoreOrder) (cat : Catalog) (id : QString)
    (t : InstrumentTemplate) (fam : QString)
    (hres : (searchTemplateIndexForId cat id).instrTemplate = some t)
    (hfam : effectiveFamilyId o id t = some fam)
    (hne : fam.isEmpty = false)
    (hex : ∃ g ∈ o.groups, g._unsorted.isNull = true ∧ g.id.eqv fam = true) :
    ∃ g, o.getGroup cat id false = some g ∧
      o.groups.find? (fun sg => sg._unsorted.isNull && sg.id.eqv fam) = some g ∧
      g._unsorted.isNull = true ∧ ∀ filter, g.isUnsorted filter = false := by
  have hid := (search_resolved cat id t hres).1
  have hp : (fun sg : ScoreGroup => sg._unsorted.isNull && sg.id.eqv fam) =
      (fun sg : ScoreGroup => !sg.isUnsorted0 && sg.id.eqv fam) := by
    funext sg
    rw [ScoreGroup.isUnsorted0_eq, Bool.not_not]
  cases hf : o.groups.find? (fun sg => sg._unsorted.isNull && sg.id.eqv fam) with
  | none =>
    obtain ⟨g, hg, h1, h2⟩ := hex
    have := List.find?_eq_none.mp hf g hg
    simp [h1, h2] at this
  | some g =>
    have hg := List.find?_some hf
    simp only [Bool.and_eq_true] at hg
    refine ⟨g, ?_, rfl, hg.1, ?_⟩
    · rw [getGroup_resolved o cat id false t hres, getFamilyName_effective o id t fam hid hfam]
      unfold ScoreOrder.getGroupByFamily
      rw [hp] at hf
      rw [hne, getGroupLoop_found fam _ o.groups none g hf]
      simp
    · intro filter
      simp [ScoreGroup.isUnsorted, hg.1]

/-- Witness of C1: the violin (family "strings") in the sample orchestral order. -/
theorem getGroup_first_family_match_witness :
    ∃ g, Sample.orchestral.getGroup Sample.catalog (QString.str "violin") false = some g ∧
      Sample.orchestral.groups.find?
        (fun sg => sg._unsorted.isNull && sg.id.eqv (QString.str "strings")) = some g ∧
      g._unsorted.isNull = true ∧ ∀ filter, g.isUnsorted filter = false :=
  getGroup_first_family_match Sample.orchestral Sample.catalog (QString.str "violin")
    Sample.violin (QString.str "strings") (by decide) (by decide) (by decide) (by decide)

theorem isUnsorted_pred (ig : QString) :
    (fun sg : ScoreGroup => sg.isUnsorted ig) =
      (fun g : ScoreGroup => !g._unsorted.isNull && (ig.isNull || g._unsorted.eqv ig)) := by
  funext sg
  cases h : sg._unsorted.isNull <;> simp [ScoreGroup.isUnsorted, h]

/-- The unsorted fallback of `getGroup(family, instrumentGroup)`: when the family is
non-empty and no non-unsorted group has it as id, the result is the last group
passing `isUnsorted(instrumentGroup)`, else the cached default. -/
theorem getGroupByFamily_no_match (o : ScoreOrder) (fam ig : QString)
    (hne : fam.isEmpty = false)
    (hno : ∀ g ∈ o.groups, g._unsorted.isNull = true → g.id.eqv fam = false) :
    o.getGroupByFamily fam ig =
      match (if ig.isNull then lastUnsorted o.groups
             else lastUnsortedWithFilter o.groups ig) with
      | some g => some g
      | none => o._unsorted := by
  have hloop := getGroupLoop_not_found fam ig o.groups none (by
    intro sg hsg
    rw [ScoreGroup.isUnsorted0_eq, Bool.not_not]
    cases hn : sg._unsorted.isNull
    · simp
    · simp [hno sg hsg hn])
  unfold ScoreOrder.getGroupByFamily
  rw [hne, hloop, isUnsorted_pred]
  simp only [Bool.false_eq_true, if_false, lastUnsorted, lastUnsortedWithFilter]
  cases hig : ig.isNull
  · simp only [Bool.false_or, Bool.false_eq_true, if_false]
    cases List.find? (fun g : ScoreGroup => !g._unsorted.isNull && g._unsorted.eqv ig)
      o.groups.reverse <;> simp
  · simp only [Bool.true_or, Bool.and_true, if_true]
    cases List.find? (fun g : ScoreGroup => !g._unsorted.isNull) o.groups.reverse <;> simp

/-- The unsorted fallback of `getGroup(id, false)` for a resolvable instrument whose
effective family id is non-empty and is the id of no non-unsorted group. -/
theorem getGroup_no_family_match (o : ScoreOrder) (cat : Catalog) (id : QString)
    (t : InstrumentTemplate) (fam : QString)
    (hres : (searchTemplateIndexForId cat id).instrTemplate = some t)
    (hfam : effectiveFamilyId o id t = some fam)
    (hne : fam.isEmpty = false)
    (hno : ∀ g ∈ o.groups, g._unsorted.isNull = true → g.id.eqv fam = false) :
    o.getGroup cat id false =
      match (if (templateGroupId cat id).isNull then lastUnsorted o.groups
             else lastUnsortedWithFilter o.groups (templateGroupId cat id)) with
      | some g => some g
      | none => o._unsorted := by
  have hid := (search_resolved cat id t hres).1
  rw [getGroup_resolved o cat id false t hres, getFamilyName_effective o id t fam hid hfam]
  exact getGroupByFamily_no_match o fam _ hne hno

/-- Counterexample to C2 as stated: the violin's instrument group has a null id and
the order has the unsorted groups with filters "" and "brass". The last unsorted
group whose filter equals the (null) group id is the one with filter "", but
`getGroup` returns the one with filter "brass". -/
theorem getGroup_unsorted_filter_counterexample :
    (searchTemplateIndexForId Sample.catalogNoGroupId (QString.str "violin")).instrTemplate
      = some Sample.violin ∧
    effectiveFamilyId Sample.unsortedOnly (QString.str "violin") Sample.violin
      = some (QString.str "strings") ∧
    (∀ g ∈ Sample.unsortedOnly.groups, g._unsorted.isNull = true →
      g.id.eqv (QString.str "strings") = false) ∧
    (Sample.unsortedOnly.getGroup Sample.catalogNoGroupId (QString.str "violin") false).map
      (fun g : ScoreGroup => g._unsorted) = some (QString.str "brass") ∧
    (match lastUnsortedWithFilter Sample.unsortedOnly.groups
        (templateGroupId Sample.catalogNoGroupId (QString.str "violin")) with
      | some g => some g
      | none => Sample.unsortedOnly._unsorted).map (fun g : ScoreGroup => g._unsorted)
      = some (QString.str "") := by
  decide

/-- C2, amended. For a resolvable, non-soloist instrument whose effective family id
is non-empty and is the id of no non-unsorted group, `getGroup(id, false)` returns
the last unsorted group, in definition order, whose filter equals the id of the
template's instrument group, or, when that id is a null string, the last unsorted
group whatever its filter; when there is no such group it returns the cached
default unsorted group. -/
theorem getGroup_unsorted_fallback (o : ScoreOrder) (cat : Catalog) (id : QString)
    (t : InstrumentTemplate) (fam : QString)
    (hres : (searchTemplateIndexForId cat id).instrTemplate = some t)
    (hfam : effectiveFamilyId o id t = some fam)
    (hne : fam.isEmpty = false)
    (hno : ∀ g ∈ o.groups, g._unsorted.isNull = true → g.id.eqv fam = false) :
    o.getGroup cat id false =
      match (if (templateGroupId cat id).isNull then lastUnsorted o.groups
             else lastUnsortedWithFilter o.groups (templateGroupId cat id)) with
      | some g => some g
      | none => o._unsorted :=
  getGroup_no_family_match o cat id t fam hres hfam hne hno

/-- Witness of C2 (amended): the violin in the order with unsorted groups only. -/
theorem getGroup_unsorted_fallback_witness :
    Sample.unsortedOnly.getGroup Sample.catalogNoGroupId (QString.str "violin") false =
      match (if (templateGroupId Sample.catalogNoGroupId (QString.str "violin")).isNull
             then lastUnsorted Sample.unsortedOnly.groups
             else lastUnsortedWithFilter Sample.unsortedOnly.groups
               (templateGroupId Sample.catalogNoGroupId (QString.str "violin"))) with
      | some g => some g
      | none => Sample.unsortedOnly._unsorted :=
  getGroup_unsorted_fallback Sample.unsortedOnly Sample.catalogNoGroupId (QString.str "violin")
    Sample.violin (QString.str "strings") (by decide) (by decide) (by decide) (by decide)

/-- Counterexample to C4 as stated: the sample orchestral order has no soloists
group, yet the violin is classified into the unsorted group as a soloist and into
the "strings" group otherwise. -/
theorem getGroup_soloist_fallback_counterexample :
    (∀ g ∈ Sample.orchestral.groups, g.isSoloists = false) ∧
    (searchTemplateIndexForId Sample.catalog (QString.str "violin")).instrTemplate
      = some Sample.violin ∧
    (Sample.orchestral.getGroup Sample.catalog (QString.str "violin") true).map
      (fun g : ScoreGroup => g.id) = some (QString.str "<unsorted>") ∧
    (Sample.orchestral.getGroup Sample.catalog (QString.str "violin") false).map
      (fun g : ScoreGroup => g.id) = some (QString.str "strings") ∧
    Sample.orchestral.getGroup Sample.catalog (QString.str "violin") true ≠
      Sample.orchestral.getGroup Sample.catalog (QString.str "violin") false := by
  decide

/-- C4, amended. In an order with no soloists group and no other non-unsorted group
named "<soloists>", a resolvable instrument classified as a soloist does not go
through the family lookup: `getGroup(id, true)` returns the last unsorted group
whose filter equals the id of the template's instrument group (the last unsorted
group of any filter when that id is null), else the cached default unsorted group.
It is the group `getGroup(id, false)` returns whenever the effective family id of
the instrument is non-empty and is the id of no non-unsorted group. -/
theorem getGroup_soloist_without_soloists_group (o : ScoreOrder) (cat : Catalog)
    (id : QString) (t : InstrumentTemplate)
    (hres : (searchTemplateIndexForId cat id).instrTemplate = some t)
    (hno : ∀ g ∈ o.groups, g._unsorted.isNull = true →
      g.id.eqv (QString.str "<soloists>") = false) :
    (o.getGroup cat id true =
      match (if (templateGroupId cat id).isNull then lastUnsorted o.groups
             else lastUnsortedWithFilter o.groups (templateGroupId cat id)) with
      | some g => some g
      | none => o._unsorted) ∧
    (∀ fam, effectiveFamilyId o id t = some fam → fam.isEmpty = false →
      (∀ g ∈ o.groups, g._unsorted.isNull = true → g.id.eqv fam = false) →
      o.getGroup cat id true = o.getGroup cat id false) := by
  have h1 : o.getGroup cat id true =
      match (if (templateGroupId cat id).isNull then lastUnsorted o.groups
             else lastUnsortedWithFilter o.groups (templateGroupId cat id)) with
      | some g => some g
      | none => o._unsorted := by
    rw [getGroup_resolved o cat id true t hres]
    have : o.getFamilyName (some t) true = QString.str "<soloists>" := by
      simp [ScoreOrder.getFamilyName]
    rw [this]
    exact getGroupByFamily_no_match o _ _ (by decide) hno
  refine ⟨h1, ?_⟩
  intro fam hfam hne hnf
  rw [h1, getGroup_no_family_match o cat id t fam hres hfam hne hnf]

/-- Witness of C4 (amended): the violin as a soloist in the sample orchestral order. -/
theorem getGroup_soloist_without_soloists_group_witness :
    Sample.orchestral.getGroup Sample.catalog (QString.str "violin") true =
      Sample.orchestral._unsorted :=
  (getGroup_soloist_without_soloists_group Sample.orchestral Sample.catalog
    (QString.str "violin") Sample.violin (by decide) (by decide)).1.trans (by decide)

/-! ### Sort index -/

theorem wrapInt_of_fits (x : Int) (h1 : -2147483648 ≤ x) (h2 : x ≤ 2147483647) :
    wrapInt x = x := by
  unfold wrapInt
  omega

theorem wrapInt_add_mul (x k : Int) : wrapInt (x + 4294967296 * k) = wrapInt x := by
  unfold wrapInt
  omega

theorem wrapInt_eq_add_mul (x : Int) : ∃ k, wrapInt x = x + 4294967296 * k := by
  refine ⟨-((x + 2147483648) / 4294967296), ?_⟩
  unfold wrapInt
  omega

/-- Wrapping the index, the product and the sum one after the other gives the
wrapped value of the exact expression. -/
theorem wrapInt_mul_add (m i r : Int) :
    wrapInt (wrapInt (m * wrapInt i) + r) = wrapInt (m * i + r) := by
  obtain ⟨k1, h1⟩ := wrapInt_eq_add_mul i
  have e1 : m * wrapInt i = m * i + 4294967296 * (m * k1) := by rw [h1]; ring
  rw [e1, wrapInt_add_mul]
  obtain ⟨k2, h2⟩ := wrapInt_eq_add_mul (m * i)
  have e2 : wrapInt (m * i) + r = (m * i + r) + 4294967296 * k2 := by rw [h2]; ring
  rw [e2, wrapInt_add_mul]

/-- The sort index at a classified instrument is the sort key wrapped to 32 bits. -/
theorem instrumentIndex_of_group (o : ScoreOrder) (cat : Catalog) (id : QString)
    (soloist : Bool) (g : ScoreGroup) (h : o.getGroup cat id soloist = some g) :
    o.instrumentIndex cat id soloist = wrapInt (sortKey o cat id g) := by
  unfold ScoreOrder.instrumentIndex sortKey
  simp only [h, ScoreGroup.index, ScoreGroup.isUnsorted0_eq]
  rw [wrapInt_mul_add]
  cases g._unsorted.isNull <;> simp

/-- C5. When classification yields a group `g`, `instrumentIndex` is the value of
`groupMultiplier * g.creationIndex + r` wrapped to the 32 bits of an `int`, with
`r = 0` when `g` is an unsorted group (its filter is not null, whatever it is)
and `r` the catalog rank of the instrument otherwise; it is that value itself
whenever the value lies in the range of `int`. -/
theorem instrumentIndex_eq (o : ScoreOrder) (cat : Catalog) (id : QString) (soloist : Bool)
    (g : ScoreGroup) (h : o.getGroup cat id soloist = some g) :
    o.instrumentIndex cat id soloist =
      wrapInt (o._groupMultiplier * (g._index : Int) +
        (if g._unsorted.isNull = false then 0
         else (searchTemplateIndexForId cat id).instrIndex)) ∧
    (-2147483648 ≤ o._groupMultiplier * (g._index : Int) +
        (if g._unsorted.isNull = false then 0
         else (searchTemplateIndexForId cat id).instrIndex) →
      o._groupMultiplier * (g._index : Int) +
        (if g._unsorted.isNull = false then 0
         else (searchTemplateIndexForId cat id).instrIndex) ≤ 2147483647 →
      o.instrumentIndex cat id soloist =
        o._groupMultiplier * (g._index : Int) +
          (if g._unsorted.isNull = false then 0
           else (searchTemplateIndexForId cat id).instrIndex)) := by
  have hw := instrumentIndex_of_group o cat id soloist g h
  unfold sortKey at hw
  refine ⟨hw, fun h1 h2 => ?_⟩
  rw [hw]
  exact wrapInt_of_fits _ h1 h2

/-- Witness of C5: the violin in the sample orchestral order has index `4 * 1 + 2`. -/
theorem instrumentIndex_eq_witness :
    Sample.orchestral.instrumentIndex Sample.catalog (QString.str "violin") false = 6 :=
  ((instrumentIndex_eq Sample.orchestral Sample.catalog (QString.str "violin") false
    { _id := QString.str "strings", _section := QString.str "Strings", _soloists := false,
      _unsorted := QString.null, _index := 1, bracket := true, showSystemMarkings := false,
      barLineSpan := true, thinBracket := true } (by decide)).2 (by decide) (by decide)).trans
    (by decide)

/-- Counterexample to C5 as stated: in the orchestral order read when 536870911
groups have been constructed, the violin is classified into the group `strings`,
whose creation index is 536870912; with the multiplier 4 and the rank 2 the
expression `groupMultiplier * creationIndex + rank` is 2147483650, which is no
`int`, and `instrumentIndex` returns -2147483646. -/
theorem instrumentIndex_wraps_counterexample :
    (Sample.lateOrchestral.getGroup Sample.catalog (QString.str "violin") false).map
      (fun g => (g._id, g._unsorted, g._index)) =
      some (QString.str "strings", QString.null, 536870912) ∧
    Sample.lateOrchestral._groupMultiplier = 4 ∧
    (searchTemplateIndexForId Sample.catalog (QString.str "violin")).instrIndex = 2 ∧
    Sample.lateOrchestral.instrumentIndex Sample.catalog (QString.str "violin") false =
      -2147483646 ∧
    (Sample.lateOrchestral.getGroup Sample.catalog (QString.str "violin") false).map
      (fun g => Sample.lateOrchestral._groupMultiplier * (g._index : Int) +
        (searchTemplateIndexForId Sample.catalog (QString.str "violin")).instrIndex) =
      some 2147483650 := by
  decide

theorem totalTemplates_nonneg (cat : Catalog) : 0 ≤ ScoreOrder.totalTemplates cat := by
  induction cat with
  | nil => simp [ScoreOrder.totalTemplates]
  | cons g gs ih => simp only [ScoreOrder.totalTemplates]; omega

/-- The sort key of a classified instrument is `groupMultiplier * creationIndex`
plus a secondary component that is `0`, a catalog rank, or `-1` for an instrument
without template. -/
theorem sortKey_bounds (o : ScoreOrder) (cat : Catalog) (id : QString) (g : ScoreGroup) :
    o._groupMultiplier * (g._index : Int) - 1 ≤ sortKey o cat id g ∧
    sortKey o cat id g ≤
      o._groupMultiplier * (g._index : Int) + (ScoreOrder.totalTemplates cat - 1) ⊔ 0 := by
  unfold sortKey
  have hnn := totalTemplates_nonneg cat
  have hmax : (0 : Int) ≤ (ScoreOrder.totalTemplates cat - 1) ⊔ 0 := le_max_right _ _
  have hmax' : ScoreOrder.totalTemplates cat - 1 ≤ (ScoreOrder.totalTemplates cat - 1) ⊔ 0 :=
    le_max_left _ _
  cases hg : g._unsorted.isNull
  · simp only [if_true]; omega
  · simp only [Bool.true_eq_false, if_false]
    cases ht : (searchTemplateIndexForId cat id).instrTemplate with
    | none =>
      rw [search_unresolved cat id ht]; omega
    | some t =>
      have := search_resolved cat id t ht
      omega

/-- With `groupMultiplier = 1 + number of templates`, the sort key of a classified
instrument lies between `-1` and `groupMultiplier * (creationIndex + 1) - 1`. -/
theorem sortKey_range (o : ScoreOrder) (cat : Catalog)
    (hM : o._groupMultiplier = 1 + ScoreOrder.totalTemplates cat)
    (id : QString) (g : ScoreGroup) :
    -1 ≤ sortKey o cat id g ∧
    sortKey o cat id g ≤ o._groupMultiplier * ((g._index : Int) + 1) - 1 := by
  obtain ⟨h1, h2⟩ := sortKey_bounds o cat id g
  have hnn := totalTemplates_nonneg cat
  have hpos : 0 ≤ o._groupMultiplier * (g._index : Int) :=
    Int.mul_nonneg (by omega) (by omega)
  have hexp : o._groupMultiplier * ((g._index : Int) + 1) =
      o._groupMultiplier * (g._index : Int) + o._groupMultiplier := by ring
  have hmax : (ScoreOrder.totalTemplates cat - 1) ⊔ 0 ≤ ScoreOrder.totalTemplates cat :=
    max_le (by omega) hnn
  constructor
  · omega
  · omega

/-- With `groupMultiplier = 1 + number of templates`, the sort index of a classified
instrument is its sort key as long as `groupMultiplier * (creationIndex + 1)`
is an `int`. -/
theorem instrumentIndex_eq_sortKey (o : ScoreOrder) (cat : Catalog)
    (hM : o._groupMultiplier = 1 + ScoreOrder.totalTemplates cat)
    (id : QString) (soloist : Bool) (g : ScoreGroup)
    (h : o.getGroup cat id soloist = some g)
    (hfit : o._groupMultiplier * ((g._index : Int) + 1) ≤ 2147483647) :
    o.instrumentIndex cat id soloist = sortKey o cat id g := by
  obtain ⟨h1, h2⟩ := sortKey_range o cat hM id g
  rw [instrumentIndex_of_group o cat id soloist g h]
  exact wrapInt_of_fits _ (by omega) (by omega)

/-- With `groupMultiplier = 1 + number of templates`, instruments classified into
groups of increasing creation index have increasing sort keys. -/
theorem sortKey_lt_of_group_lt (o : ScoreOrder) (cat : Catalog)
    (hM : o._groupMultiplier = 1 + ScoreOrder.totalTemplates cat)
    (a b : QString) (sa sb : Bool) (ga gb : ScoreGroup)
    (ha : o.getGroup cat a sa = some ga) (hb : o.getGroup cat b sb = some gb)
    (hlt : ga._index < gb._index) :
    sortKey o cat a ga < sortKey o cat b gb := by
  have hnn := totalTemplates_nonneg cat
  by_cases h0 : ScoreOrder.totalTemplates cat = 0
  · -- an empty catalog resolves no instrument: both groups are the cached default
    exfalso
    have hnone : ∀ id, (searchTemplateIndexForId cat id).instrTemplate = none := by
      intro id
      cases ht : (searchTemplateIndexForId cat id).instrTemplate with
      | none => rfl
      | some t => have := search_resolved cat id t ht; omega
    simp only [ScoreOrder.getGroup, hnone] at ha hb
    rw [ha] at hb
    cases hb
    omega
  · have h1 := (sortKey_bounds o cat a ga).2
    have h2 := (sortKey_bounds o cat b gb).1
    have hmax : (ScoreOrder.totalTemplates cat - 1) ⊔ 0 = ScoreOrder.totalTemplates cat - 1 :=
      max_eq_left (by omega)
    rw [hmax] at h1
    have hstep : o._groupMultiplier * ((ga._index : Int) + 1) ≤
        o._groupMultiplier * (gb._index : Int) := by
      apply Int.mul_le_mul_of_nonneg_left
      · omega
      · omega
    have hexp : o._groupMultiplier * ((ga._index : Int) + 1) =
        o._groupMultiplier * (ga._index : Int) + o._groupMultiplier := by ring
    omega

/-- With `groupMultiplier = 1 + number of templates`, instruments classified into
groups of increasing creation index have increasing sort indices, as long as
`groupMultiplier * (creationIndex + 1)` is an `int` for the later group. -/
theorem instrumentIndex_lt_of_group_lt (o : ScoreOrder) (cat : Catalog)
    (hM : o._groupMultiplier = 1 + ScoreOrder.totalTemplates cat)
    (a b : QString) (sa sb : Bool) (ga gb : ScoreGroup)
    (ha : o.getGroup cat a sa = some ga) (hb : o.getGroup cat b sb = some gb)
    (hlt : ga._index < gb._index)
    (hfit : o._groupMultiplier * ((gb._index : Int) + 1) ≤ 2147483647) :
    o.instrumentIndex cat a sa < o.instrumentIndex cat b sb := by
  have hnn := totalTemplates_nonneg cat
  have hfita : o._groupMultiplier * ((ga._index : Int) + 1) ≤ 2147483647 := by
    have : o._groupMultiplier * ((ga._index : Int) + 1) ≤
        o._groupMultiplier * ((gb._index : Int) + 1) :=
      Int.mul_le_mul_of_nonneg_left (by omega) (by omega)
    omega
  rw [instrumentIndex_eq_sortKey o cat hM a sa ga ha hfita,
    instrumentIndex_eq_sortKey o cat hM b sb gb hb hfit]
  exact sortKey_lt_of_group_lt o cat hM a b sa sb ga gb ha hb hlt

/-- C6. In a non-custom order whose `groupMultiplier` is the one computed by `init`
over the catalog, `groupMultiplier` is strictly greater than the catalog rank of
every instrument, and two instruments classified into groups with
`creationIndex(a) < creationIndex(b)` have `instrumentIndex(a) < instrumentIndex(b)`
as long as `groupMultiplier * (creationIndex(b) + 1)` is an `int`, so that
neither sort index wraps around. -/
theorem groupMultiplier_separates_groups (o : ScoreOrder) (cat : Catalog)
    (hc : o.isCustom = false)
    (hm : o._groupMultiplier = (ScoreOrder.init cat o)._groupMultiplier) :
    (∀ id t, (searchTemplateIndexForId cat id).instrTemplate = some t →
      (searchTemplateIndexForId cat id).instrIndex < o._groupMultiplier) ∧
    (∀ a b sa sb ga gb, o.getGroup cat a sa = some ga → o.getGroup cat b sb = some gb →
      ga._index < gb._index →
      o._groupMultiplier * ((gb._index : Int) + 1) ≤ 2147483647 →
      o.instrumentIndex cat a sa < o.instrumentIndex cat b sb) := by
  have hM : o._groupMultiplier = 1 + ScoreOrder.totalTemplates cat := by
    rw [hm]; simp [ScoreOrder.init, hc]
  constructor
  · intro id t ht
    have := search_resolved cat id t ht
    omega
  · intro a b sa sb ga gb ha hb hlt hfit
    exact instrumentIndex_lt_of_group_lt o cat hM a b sa sb ga gb ha hb hlt hfit

/-- Witness of C6: the flute (group `woodwinds`, creation index 0) and the violin
(group `strings`, creation index 1) in the sample orchestral order over the
sample catalog. -/
theorem groupMultiplier_separates_groups_witness :
    Sample.orchestral.instrumentIndex Sample.catalog (QString.str "flute") false <
      Sample.orchestral.instrumentIndex Sample.catalog (QString.str "violin") false :=
  (groupMultiplier_separates_groups Sample.orchestral Sample.catalog (by decide)
    (by decide)).2 (QString.str "flute") (QString.str "violin") false false
    Sample.woodwindsGroup Sample.stringsGroup (by decide) (by decide) (by decide) (by decide)

/-- Counterexample to C6 as stated: in the orchestral order read when 536870911
groups have been constructed, the flute is classified into the group of
creation index 536870911 and the violin into the group of creation index
536870912, yet the sort index of the flute, 2147483644, is above that of the
violin, -2147483646: `4 * 536870912 + 2` is no `int`. -/
theorem sort_index_order_counterexample :
    Sample.lateOrchestral.isCustom = false ∧
    Sample.lateOrchestral._groupMultiplier =
      (ScoreOrder.init Sample.catalog Sample.lateOrchestral)._groupMultiplier ∧
    (Sample.lateOrchestral.getGroup Sample.catalog (QString.str "flute") false).map
      (fun g => g._index) = some 536870911 ∧
    (Sample.lateOrchestral.getGroup Sample.catalog (QString.str "violin") false).map
      (fun g => g._index) = some 536870912 ∧
    Sample.lateOrchestral.instrumentIndex Sample.catalog (QString.str "flute") false =
      2147483644 ∧
    Sample.lateOrchestral.instrumentIndex Sample.catalog (QString.str "violin") false =
      -2147483646 := by
  decide

/-! ### Ordering validation -/

theorem isScoreOrderLoop_iff (l : List Int) (p : Int) :
    ScoreOrder.isScoreOrderLoop l p = true ↔ List.Chain (fun a b => a ≤ b) p l := by
  induction l generalizing p with
  | nil => simp [ScoreOrder.isScoreOrderLoop]
  | cons x xs ih =>
    unfold ScoreOrder.isScoreOrderLoop
    by_cases hx : x < p
    · simp only [hx, if_true, List.chain_cons]
      constructor
      · intro h; cases h
      · intro h; omega
    · simp only [hx, if_false, List.chain_cons, ih]
      constructor
      · intro h; exact ⟨by omega, h⟩
      · intro h; exact h.2

/-- Counterexample to C7 as stated: the one-element list `[-2]` is non-decreasing,
and a non-custom order rejects it. -/
theorem isScoreOrder_negative_counterexample :
    Sample.orchestral.isCustom = false ∧
    List.Chain' (fun a b : Int => a ≤ b) [-2] ∧
    Sample.orchestral.isScoreOrder [-2] = false := by
  refine ⟨by decide, by simp, by decide⟩

/-- C7, amended. `isScoreOrder(indices)` is true for the custom order; for any other
order it is true if and only if the list is non-decreasing and its first element,
if there is one, is at least `-1`. In particular, on lists whose elements are all
at least `-1` it is true exactly when the list is non-decreasing. -/
theorem isScoreOrder_iff (o : ScoreOrder) (indices : List Int) :
    (o.isCustom = true → o.isScoreOrder indices = true) ∧
    (o.isCustom = false →
      (o.isScoreOrder indices = true ↔
        List.Chain' (fun a b => a ≤ b) indices ∧ ∀ x ∈ indices.head?, -1 ≤ x)) ∧
    (o.isCustom = false → (∀ x ∈ indices, -1 ≤ x) →
      (o.isScoreOrder indices = true ↔ List.Chain' (fun a b => a ≤ b) indices)) := by
  have key : o.isCustom = false →
      (o.isScoreOrder indices = true ↔
        List.Chain' (fun a b => a ≤ b) indices ∧ ∀ x ∈ indices.head?, -1 ≤ x) := by
    intro h
    simp only [ScoreOrder.isScoreOrder, h, Bool.false_eq_true, if_false, isScoreOrderLoop_iff]
    cases indices with
    | nil => simp
    | cons x xs =>
      simp only [List.chain_cons, List.Chain', List.head?_cons, Option.mem_def,
        Option.some.injEq, forall_eq']
      exact and_comm
  refine ⟨?_, key, ?_⟩
  · intro h; simp [ScoreOrder.isScoreOrder, h]
  · intro h hall
    rw [key h]
    constructor
    · intro hx; exact hx.1
    · intro hx
      refine ⟨hx, ?_⟩
      intro x hmem
      exact hall x (List.mem_of_mem_head? hmem)

/-- Witness of C7 (amended): a non-custom order accepts `[0, 4, 4, 6]`. -/
theorem isScoreOrder_iff_witness :
    Sample.orchestral.isScoreOrder [0, 4, 4, 6] = true :=
  ((isScoreOrder_iff Sample.orchestral [0, 4, 4, 6]).2.1 (by decide)).2
    ⟨by simp, by simp⟩


/-! ### The invariant of `read` -/

theorem ReadInv.push {id0 : QString} {m0 : Int} {s : ScoreOrder × Nat}
    (h : ReadInv id0 m0 s) (sg : ScoreGroup) (o' : ScoreOrder)
    (hidx : sg._index = s.2)
    (hid : o'._id = s.1._id) (hm : o'._groupMultiplier = s.1._groupMultiplier)
    (hg : o'.groups = s.1.groups ++ [sg])
    (hsol : (sg._soloists = false ∧ o'._soloists = s.1._soloists) ∨
      (s.1._soloists = none ∧ o'._soloists = some sg ∧ sg._id = QString.str "<soloists>" ∧
        sg._unsorted = QString.null ∧ sg._soloists = true))
    (hu : o'._unsorted = s.1._unsorted ∨
      (o'._unsorted = some sg ∧ sg._unsorted = QString.str "")) :
    ReadInv id0 m0 (o', s.2 + 1) where
  id_eq := by rw [hid]; exact h.id_eq
  multiplier_eq := by rw [hm]; exact h.multiplier_eq
  index_lt := by
    intro g hgm
    simp only [hg, List.mem_append, List.mem_singleton] at hgm
    rcases hgm with hgm | rfl
    · have := h.index_lt g hgm
      show g._index < s.2 + 1
      omega
    · show g._index < s.2 + 1
      omega
  sorted := by
    show o'.groups.Pairwise _
    rw [hg, List.pairwise_append]
    refine ⟨h.sorted, by simp, ?_⟩
    intro a ha b hb
    simp only [List.mem_singleton] at hb
    subst hb
    rw [hidx]
    exact h.index_lt a ha
  soloists_unique := by
    intro g hgm hgs
    simp only [hg, List.mem_append, List.mem_singleton] at hgm
    show o'._soloists = some g
    rcases hsol with ⟨h1, h2⟩ | ⟨h1, h2, _⟩
    · rcases hgm with hgm | rfl
      · rw [h2]; exact h.soloists_unique g hgm hgs
      · rw [h1] at hgs; cases hgs
    · rcases hgm with hgm | rfl
      · have := h.soloists_unique g hgm hgs
        rw [h1] at this; cases this
      · exact h2
  soloists_cached := by
    intro x hx
    change o'._soloists = some x at hx
    show x ∈ o'.groups ∧ _
    rcases hsol with ⟨_, h2⟩ | ⟨_, h2, h3, h4, h5⟩
    · rw [h2] at hx
      obtain ⟨a, b⟩ := h.soloists_cached x hx
      exact ⟨by rw [hg]; simp [a], b⟩
    · rw [h2] at hx
      cases hx
      exact ⟨by rw [hg]; simp, h3, h4, h5⟩
  unsorted_cached := by
    intro x hx
    change o'._unsorted = some x at hx
    show x ∈ o'.groups ∧ _
    rcases hu with h1 | ⟨h1, h2⟩
    · rw [h1] at hx
      obtain ⟨a, b⟩ := h.unsorted_cached x hx
      exact ⟨by rw [hg]; simp [a], b⟩
    · rw [h1] at hx
      cases hx
      exact ⟨by rw [hg]; simp, h2⟩

theorem ReadInv.readSoloists {id0 : QString} {m0 : Int} {s : ScoreOrder × Nat}
    (h : ReadInv id0 m0 s) (sect : QString) :
    ReadInv id0 m0 (ScoreOrder.readSoloists sect s) := by
  unfold ScoreOrder.readSoloists
  cases hs : s.1._soloists with
  | some x => exact h
  | none =>
    exact h.push _ _ rfl rfl rfl rfl (Or.inr ⟨hs, rfl, rfl, rfl, rfl⟩) (Or.inl rfl)

theorem ReadInv.readFamily {id0 : QString} {m0 : Int} {s : ScoreOrder × Nat}
    (h : ReadInv id0 m0 s) (text : String) (sect : QString) (br ssm bls tbr : Bool) :
    ReadInv id0 m0 (ScoreOrder.readFamily text sect br ssm bls tbr s) := by
  unfold ScoreOrder.readFamily
  dsimp only
  split
  · exact h
  · exact h.push _ _ rfl rfl rfl rfl (Or.inl ⟨rfl, rfl⟩) (Or.inl rfl)

theorem QString.str_of_isEmpty (v : String) (h : (QString.str v).isEmpty = true) :
    QString.str v = QString.str "" := by
  simp [QString.isEmpty, QString.toStr] at h
  rw [h]

theorem ReadInv.readUnsorted {id0 : QString} {m0 : Int} {s : ScoreOrder × Nat}
    (h : ReadInv id0 m0 s) (groupAttr : Option String) (sect : QString)
    (br ssm bls tbr : Bool) :
    ReadInv id0 m0 (ScoreOrder.readUnsorted groupAttr sect br ssm bls tbr s) := by
  unfold ScoreOrder.readUnsorted
  dsimp only
  split
  · exact h
  · refine h.push _ _ rfl rfl rfl rfl (Or.inl ⟨rfl, rfl⟩) ?_
    by_cases hc : (s.1._unsorted.isNone && (ScoreOrder.xmlAttributeD groupAttr (QString.str "")).isEmpty) = true
    · right
      simp only [hc, if_true, true_and]
      simp only [Bool.and_eq_true] at hc
      show ScoreOrder.xmlAttributeD groupAttr (QString.str "") = QString.str ""
      cases groupAttr with
      | none => rfl
      | some v => exact QString.str_of_isEmpty v hc.2
    · left
      simp only [hc, if_false, Bool.false_eq_true]

theorem ReadInv.createUnsortedGroup {id0 : QString} {m0 : Int} {s : ScoreOrder × Nat}
    (h : ReadInv id0 m0 s) : ReadInv id0 m0 (ScoreOrder.createUnsortedGroup s) := by
  unfold ScoreOrder.createUnsortedGroup
  exact h.push _ _ rfl rfl rfl rfl (Or.inl ⟨rfl, rfl⟩) (Or.inr ⟨rfl, rfl⟩)

theorem ReadInv.readSection {id0 : QString} {m0 : Int} {s : ScoreOrder × Nat}
    (h : ReadInv id0 m0 s) (id ssm bls tbr : Option String) (children : List SectionChild) :
    ReadInv id0 m0 (ScoreOrder.readSection id ssm bls tbr children s) := by
  unfold ScoreOrder.readSection
  dsimp only
  induction children generalizing s with
  | nil => exact h
  | cons c cs ih =>
    rw [List.foldl_cons]
    apply ih
    cases c with
    | family text => exact h.readFamily _ _ _ _ _ _
    | unsorted group => exact h.readUnsorted _ _ _ _ _ _
    | unknown => exact h

theorem ReadInv.frame {id0 : QString} {m0 : Int} {s : ScoreOrder × Nat}
    (h : ReadInv id0 m0 s) (o' : ScoreOrder)
    (hid : o'._id = s.1._id) (hm : o'._groupMultiplier = s.1._groupMultiplier)
    (hg : o'.groups = s.1.groups) (hs : o'._soloists = s.1._soloists)
    (hu : o'._unsorted = s.1._unsorted) : ReadInv id0 m0 (o', s.2) where
  id_eq := by rw [hid]; exact h.id_eq
  multiplier_eq := by rw [hm]; exact h.multiplier_eq
  index_lt := by show ∀ g ∈ o'.groups, _; rw [hg]; exact h.index_lt
  sorted := by show o'.groups.Pairwise _; rw [hg]; exact h.sorted
  soloists_unique := by
    show ∀ g ∈ o'.groups, _ → o'._soloists = _; rw [hg, hs]; exact h.soloists_unique
  soloists_cached := by
    show ∀ sg, o'._soloists = _ → sg ∈ o'.groups ∧ _; rw [hg, hs]; exact h.soloists_cached
  unsorted_cached := by
    show ∀ u, o'._unsorted = _ → u ∈ o'.groups ∧ _; rw [hg, hu]; exact h.unsorted_cached

theorem ReadInv.readChild {id0 : QString} {m0 : Int} {s : ScoreOrder × Nat}
    (h : ReadInv id0 m0 s) (cat : Catalog) (translate : String → String) (c : OrderChild) :
    ReadInv id0 m0 (ScoreOrder.readChild cat translate s c) := by
  cases c with
  | name text => exact h.frame _ rfl rfl rfl rfl rfl
  | sectionTag id ssm bls tbr children => exact h.readSection _ _ _ _ _
  | instrument id children =>
    simp only [ScoreOrder.readChild, ScoreOrder.readInstrument]
    split
    · exact h
    · exact h.frame _ rfl rfl rfl rfl rfl
  | family text => exact h.readFamily _ _ _ _ _ _
  | soloists => exact h.readSoloists _
  | unsorted group => exact h.readUnsorted _ _ _ _ _ _
  | unknown => exact h

theorem ReadInv.foldl_readChild {id0 : QString} {m0 : Int} {s : ScoreOrder × Nat}
    (h : ReadInv id0 m0 s) (cat : Catalog) (translate : String → String)
    (cs : List OrderChild) :
    ReadInv id0 m0 (cs.foldl (ScoreOrder.readChild cat translate) s) := by
  induction cs generalizing s with
  | nil => exact h
  | cons c cs ih => rw [List.foldl_cons]; exact ih (h.readChild cat translate c)

/-- The order produced by `read` satisfies the invariant, keeps the id it had, has
the multiplier computed by `init`, and has a cached default unsorted group. -/
theorem read_inv (cat : Catalog) (translate : String → String) (e : OrderElement)
    (s : ScoreOrder × Nat) :
    ReadInv s.1._id (ScoreOrder.init cat s.1)._groupMultiplier
      (ScoreOrder.read cat translate e s) ∧
    ∃ u, (ScoreOrder.read cat translate e s).1._unsorted = some u := by
  have h0 : ReadInv s.1._id (ScoreOrder.init cat s.1)._groupMultiplier
      ({ ScoreOrder.init cat s.1 with _customized := decide (e.customized ≠ 0) }, s.2) :=
    { id_eq := rfl
      multiplier_eq := rfl
      index_lt := by intro g hg; simp [ScoreOrder.init] at hg
      sorted := by simp [ScoreOrder.init]
      soloists_unique := by intro g hg; simp [ScoreOrder.init] at hg
      soloists_cached := by intro sg hsg; simp [ScoreOrder.init] at hsg
      unsorted_cached := by intro u hu; simp [ScoreOrder.init] at hu }
  have h1 := h0.foldl_readChild cat translate e.children
  unfold ScoreOrder.read
  dsimp only
  split
  · rename_i hn
    refine ⟨h1.createUnsortedGroup, ?_⟩
    simp [ScoreOrder.createUnsortedGroup]
  · rename_i u hu
    exact ⟨h1, u, hu⟩


/-- Counterexample to C3 as stated: the order read from an element that declares a
family named "<soloists>" before its soloists group contains a soloists group,
yet a soloist violin is classified into the family group, which is not the
soloists group. -/
theorem read_soloist_counterexample :
    (∃ sg ∈ Sample.clashOrder.groups, sg.isSoloists = true) ∧
    (searchTemplateIndexForId Sample.catalog (QString.str "violin")).instrTemplate
      = some Sample.violin ∧
    (Sample.clashOrder.getGroup Sample.catalog (QString.str "violin") true).map
      (fun g : ScoreGroup => g.isSoloists) = some false := by
  decide

/-- C3, amended. For an order obtained by `read` that contains a soloists group and
in which no family group has the id "<soloists>", a resolvable instrument
classified with `isSoloist = true` is put in the soloists group (the cached one,
the only group flagged as soloists), whatever its template family and its
override-map entry. -/
theorem read_soloist_classification (cat : Catalog) (translate : String → String)
    (e : OrderElement) (s : ScoreOrder × Nat) (id : QString) (t : InstrumentTemplate)
    (hres : (searchTemplateIndexForId cat id).instrTemplate = some t)
    (hsol : ∃ sg ∈ (ScoreOrder.read cat translate e s).1.groups, sg.isSoloists = true)
    (hno : ∀ g ∈ (ScoreOrder.read cat translate e s).1.groups,
      g._soloists = false → g._unsorted.isNull = true →
        g.id.eqv (QString.str "<soloists>") = false) :
    ∃ sg, (ScoreOrder.read cat translate e s).1.getGroup cat id true = some sg ∧
      sg.isSoloists = true ∧ (ScoreOrder.read cat translate e s).1._soloists = some sg ∧
      ∀ g ∈ (ScoreOrder.read cat translate e s).1.groups, g.isSoloists = true → g = sg := by
  have inv := (read_inv cat translate e s).1
  generalize ScoreOrder.read cat translate e s = r at *
  obtain ⟨sg0, hmem0, hflag0⟩ := hsol
  have hc0 := inv.soloists_unique sg0 hmem0 hflag0
  obtain ⟨_, hid0, hun0, _⟩ := inv.soloists_cached sg0 hc0
  have hfam : r.1.getFamilyName (some t) true = QString.str "<soloists>" := by
    simp [ScoreOrder.getFamilyName]
  cases hf : r.1.groups.find?
      (fun sg => !sg.isUnsorted0 && sg.id.eqv (QString.str "<soloists>")) with
  | none =>
    have := List.find?_eq_none.mp hf sg0 hmem0
    simp [ScoreGroup.isUnsorted0_eq, hun0, QString.isNull, ScoreGroup.id, hid0,
      QString.eqv] at this
  | some g =>
    have hg := List.find?_some hf
    have hgm := List.mem_of_find?_eq_some hf
    simp only [Bool.and_eq_true, ScoreGroup.isUnsorted0_eq, Bool.not_not] at hg
    have hgs : g._soloists = true := by
      cases hs : g._soloists
      · have := hno g hgm hs hg.1
        rw [hg.2] at this; cases this
      · rfl
    have hgc := inv.soloists_unique g hgm hgs
    refine ⟨g, ?_, hgs, hgc, ?_⟩
    · rw [getGroup_resolved r.1 cat id true t hres, hfam]
      unfold ScoreOrder.getGroupByFamily
      rw [getGroupLoop_found _ _ _ none g hf]
      simp [QString.isEmpty, QString.toStr]
    · intro g' hg' hs'
      have := inv.soloists_unique g' hg' hs'
      rw [hgc] at this
      exact (Option.some.inj this).symm

/-- Witness of C3 (amended): a soloist violin in the order read from `withSoloists`. -/
theorem read_soloist_classification_witness :
    ∃ sg, Sample.soloistsOrder.getGroup Sample.catalog (QString.str "violin") true = some sg ∧
      sg.isSoloists = true ∧ Sample.soloistsOrder._soloists = some sg ∧
      ∀ g ∈ Sample.soloistsOrder.groups, g.isSoloists = true → g = sg :=
  read_soloist_classification Sample.catalog (fun s => s) Sample.withSoloists
    (Sample.blank, 0) (QString.str "violin") Sample.violin (by decide) (by decide) (by decide)

/-! ### Construction consistency -/

/-- Within one group, parts in increasing catalog rank have non-decreasing sort
indices; across groups of increasing creation index the sort indices increase;
this as long as `groupMultiplier * (creationIndex + 1)` is an `int` for every
group. -/
theorem generated_pairwise (o : ScoreOrder) (cat : Catalog)
    (hM : o._groupMultiplier = 1 + ScoreOrder.totalTemplates cat)
    (groups : List ScoreGroup) (blocks : List (List Part))
    (hsorted : groups.Pairwise (fun a b => a._index < b._index))
    (hfit : ∀ g ∈ groups, o._groupMultiplier * ((g._index : Int) + 1) ≤ 2147483647)
    (hgen : List.Forall₂
      (fun g blk =>
        (∀ p ∈ blk, o.getGroup cat p.instrumentId p.soloist = some g) ∧
        blk.Pairwise (fun p q => catalogRank cat p ≤ catalogRank cat q)) groups blocks) :
    (blocks.flatten.Pairwise (fun p q =>
      o.instrumentIndex cat p.instrumentId p.soloist ≤
        o.instrumentIndex cat q.instrumentId q.soloist)) ∧
    ∀ p ∈ blocks.flatten, ∃ g ∈ groups, o.getGroup cat p.instrumentId p.soloist = some g := by
  induction hgen with
  | nil => simp
  | @cons g blk gs bs hhead _ ih =>
    rw [List.pairwise_cons] at hsorted
    obtain ⟨ihp, ihm⟩ := ih hsorted.2 (fun x hx => hfit x (List.mem_cons_of_mem _ hx))
    have hg := hfit g (List.mem_cons_self _ _)
    constructor
    · rw [List.flatten_cons, List.pairwise_append]
      refine ⟨?_, ihp, ?_⟩
      · refine List.Pairwise.imp_of_mem ?_ hhead.2
        intro p q hp hq hpq
        rw [instrumentIndex_eq_sortKey o cat hM _ _ g (hhead.1 p hp) hg,
          instrumentIndex_eq_sortKey o cat hM _ _ g (hhead.1 q hq) hg]
        unfold catalogRank at hpq
        unfold sortKey
        split
        · exact le_refl _
        · omega
      · intro p hp q hq
        obtain ⟨g', hg', hq'⟩ := ihm q hq
        exact le_of_lt (instrumentIndex_lt_of_group_lt o cat hM _ _ _ _ g g'
          (hhead.1 p hp) hq' (hsorted.1 g' hg') (hfit g' (List.mem_cons_of_mem _ hg')))
    · intro p hp
      rw [List.flatten_cons, List.mem_append] at hp
      rcases hp with hp | hp
      · exact ⟨g, by simp, hhead.1 p hp⟩
      · obtain ⟨g', hg', hq'⟩ := ihm p hp
        exact ⟨g', by simp [hg'], hq'⟩

/-- C8. For a non-custom order obtained by `read` and a part sequence generated by
iterating the groups of the order in definition order and, within each group,
parts classified into it in increasing catalog rank, the list of the
`instrumentIndex` values of the sequence is accepted by `isScoreOrder`, as long
as `groupMultiplier * (creationIndex + 1)` is an `int` for every group of the
order, so that no sort index wraps around. -/
theorem read_construction_consistent (cat : Catalog) (translate : String → String)
    (e : OrderElement) (s : ScoreOrder × Nat) (blocks : List (List Part))
    (hc : s.1.isCustom = false)
    (hfit : ∀ g ∈ (ScoreOrder.read cat translate e s).1.groups,
      (ScoreOrder.read cat translate e s).1._groupMultiplier * ((g._index : Int) + 1)
        ≤ 2147483647)
    (hgen : GeneratedByGroups (ScoreOrder.read cat translate e s).1 cat blocks) :
    (ScoreOrder.read cat translate e s).1.isScoreOrder
      (blocks.flatten.map (fun p =>
        (ScoreOrder.read cat translate e s).1.instrumentIndex cat p.instrumentId p.soloist))
      = true ∧
    (ScoreOrder.read cat translate e s).1.isScoreOrderOfScore cat { parts := blocks.flatten }
      = true := by
  have inv := (read_inv cat translate e s).1
  have hM : (ScoreOrder.read cat translate e s).1._groupMultiplier =
      1 + ScoreOrder.totalTemplates cat := by
    rw [inv.multiplier_eq]; simp [ScoreOrder.init, hc]
  have hcust : (ScoreOrder.read cat translate e s).1.isCustom = false := by
    unfold ScoreOrder.isCustom at hc ⊢
    rw [inv.id_eq]; exact hc
  generalize ScoreOrder.read cat translate e s = r at *
  obtain ⟨hp, hm⟩ := generated_pairwise r.1 cat hM r.1.groups blocks inv.sorted hfit hgen
  have key : r.1.isScoreOrder
      (blocks.flatten.map (fun p => r.1.instrumentIndex cat p.instrumentId p.soloist)) = true := by
    unfold ScoreOrder.isScoreOrder
    rw [hcust]
    simp only [Bool.false_eq_true, if_false, isScoreOrderLoop_iff]
    rw [List.chain_iff_pairwise, List.pairwise_cons, List.pairwise_map]
    refine ⟨?_, hp⟩
    intro x hx
    rw [List.mem_map] at hx
    obtain ⟨p, hpm, rfl⟩ := hx
    obtain ⟨g, hgm, hg⟩ := hm p hpm
    rw [instrumentIndex_eq_sortKey r.1 cat hM _ _ g hg (hfit g hgm)]
    exact (sortKey_range r.1 cat hM _ g).1
  exact ⟨key, key⟩

/-- Witness of C8: flute, oboe, violin in the sample orchestral order. -/
theorem read_construction_consistent_witness :
    Sample.orchestral.isScoreOrder
      ([Sample.part "flute" 0, Sample.part "oboe" 1, Sample.part "violin" 2].map (fun p =>
        Sample.orchestral.instrumentIndex Sample.catalog p.instrumentId p.soloist)) = true :=
  (read_construction_consistent Sample.catalog (fun s => s) Sample.orchestralElement
    (Sample.blank, 0)
    [[Sample.part "flute" 0, Sample.part "oboe" 1], [Sample.part "violin" 2], []]
    (by decide) (by decide)
    (List.Forall₂.cons ⟨by decide, by decide⟩
      (List.Forall₂.cons ⟨by decide, by decide⟩
        (List.Forall₂.cons ⟨by decide, by decide⟩ List.Forall₂.nil)))).1

/-- Counterexample to C8 as stated: the orchestral order read when 536870911 groups
have been constructed is not custom, and flute, violin is generated by its
groups (the flute in the first group, the violin in the second, none in the
third); the sort indices are 2147483644 and, `4 * 536870912 + 2` being no
`int`, -2147483646, and `isScoreOrder` rejects the list. -/
theorem read_construction_wraps_counterexample :
    Sample.blank.isCustom = false ∧
    GeneratedByGroups Sample.lateOrchestral Sample.catalog
      [[Sample.part "flute" 0], [Sample.part "violin" 1], []] ∧
    [Sample.part "flute" 0, Sample.part "violin" 1].map (fun p =>
        Sample.lateOrchestral.instrumentIndex Sample.catalog p.instrumentId p.soloist) =
      [2147483644, -2147483646] ∧
    Sample.lateOrchestral.isScoreOrder
      ([[Sample.part "flute" 0], [Sample.part "violin" 1], []].flatten.map (fun p =>
        Sample.lateOrchestral.instrumentIndex Sample.catalog p.instrumentId p.soloist))
      = false ∧
    Sample.lateOrchestral.isScoreOrderOfScore Sample.catalog
      { parts := [[Sample.part "flute" 0], [Sample.part "violin" 1], []].flatten } = false :=
  ⟨by decide,
   List.Forall₂.cons ⟨by decide, by decide⟩
     (List.Forall₂.cons ⟨by decide, by decide⟩
       (List.Forall₂.cons ⟨by decide, by decide⟩ List.Forall₂.nil)),
   by decide, by decide, by decide⟩



/-! ### Thick brackets -/

theorem filter_thick_emit_thick (staff : Option Staff) (span : Int) :
    (ScoreOrder.emitBracket staff span 0 BracketType.NORMAL).filter Command.isThickBracket =
      ScoreOrder.emitBracket staff span 0 BracketType.NORMAL := by
  unfold ScoreOrder.emitBracket
  cases staff with
  | none => rfl
  | some s => split <;> simp [Command.isThickBracket]

theorem filter_thick_emit_thin (staff : Option Staff) (span : Int) :
    (ScoreOrder.emitBracket staff span 1 BracketType.SQUARE).filter Command.isThickBracket
      = [] := by
  unfold ScoreOrder.emitBracket
  cases staff with
  | none => rfl
  | some s => split <;> simp [Command.isThickBracket]

/-- The thin bracket phase leaves the thick bracket accumulator and the previous
group alone and issues no thick bracket. -/
theorem thinPhase_frame (ii : InstrumentIndex) (sg : ScoreGroup) (staff : Staff)
    (staffIdx : Nat) (b : Bool) (st : BracketState) :
    (ScoreOrder.thinPhase ii sg staff staffIdx b st).1.thkBracketStaff = st.thkBracketStaff ∧
    (ScoreOrder.thinPhase ii sg staff staffIdx b st).1.thkBracketSpan = st.thkBracketSpan ∧
    (ScoreOrder.thinPhase ii sg staff staffIdx b st).1.prvScoreGroup = st.prvScoreGroup ∧
    (ScoreOrder.thinPhase ii sg staff staffIdx b st).2.filter Command.isThickBracket = [] := by
  unfold ScoreOrder.thinPhase
  split
  · dsimp only
    refine ⟨?_, ?_, ?_, filter_thick_emit_thin _ _⟩ <;> split <;> rfl
  · exact ⟨rfl, rfl, rfl, rfl⟩

/-- The template phase leaves the thick bracket accumulator alone, records the group
as the previous one, leaves a staff index of at least 1 and issues no thick bracket. -/
theorem templatePhase_frame (t : InstrumentTemplate) (sg : ScoreGroup) (part : Part)
    (staff : Staff) (ls : StaffLoopState) :
    (ScoreOrder.templatePhase t sg part staff ls).1.st.thkBracketStaff
      = ls.st.thkBracketStaff ∧
    (ScoreOrder.templatePhase t sg part staff ls).1.st.thkBracketSpan
      = ls.st.thkBracketSpan ∧
    (ScoreOrder.templatePhase t sg part staff ls).1.st.prvScoreGroup = some sg ∧
    1 ≤ (ScoreOrder.templatePhase t sg part staff ls).1.staffIdx ∧
    (ScoreOrder.templatePhase t sg part staff ls).2.filter Command.isThickBracket = [] := by
  unfold ScoreOrder.templatePhase
  dsimp only
  split
  · rename_i ht
    refine ⟨rfl, rfl, rfl, ?_, ?_⟩
    · dsimp only
      split <;> omega
    · dsimp only
      split <;> simp [Command.isThickBracket]
  · refine ⟨rfl, rfl, rfl, by dsimp only; omega, ?_⟩
    dsimp only
    cases ls.st.prvStaff <;> simp [Command.isThickBracket]

theorem filter_thick_removals (staff : Staff) :
    (staff.brackets.map
        (fun bi => Command.removeBracket staff.idx bi.column bi.bracketType bi.bracketSpan) ++
      [Command.changeBarlineSpan staff.idx (PropertyValue.int 0)]).filter
      Command.isThickBracket = [] := by
  rw [List.filter_eq_nil_iff]
  intro c hc
  simp only [List.mem_append, List.mem_map, List.mem_singleton] at hc
  rcases hc with ⟨bi, _, rfl⟩ | rfl <;> simp [Command.isThickBracket]

/-- The first staff of a part whose group requests a bracket: at a section boundary
the pending thick bracket is issued and a new run starts at this staff; in both
cases the stave count of the part is added to the span. -/
theorem staffStep_first (ii : InstrumentIndex) (t : InstrumentTemplate) (sg : ScoreGroup)
    (part : Part) (ls : StaffLoopState) (staff : Staff)
    (hidx : ls.staffIdx = 0) (hbr : sg.bracket = true) :
    (ScoreOrder.staffStep ii t sg part ls staff).1.st.prvScoreGroup = some sg ∧
    1 ≤ (ScoreOrder.staffStep ii t sg part ls staff).1.staffIdx ∧
    (ScoreOrder.staffStep ii t sg part ls staff).1.st.thkBracketStaff =
      (if ScoreOrder.sectionBoundary sg ls.st.prvScoreGroup then some staff
       else ls.st.thkBracketStaff) ∧
    (ScoreOrder.staffStep ii t sg part ls staff).1.st.thkBracketSpan =
      (if ScoreOrder.sectionBoundary sg ls.st.prvScoreGroup then 0
       else ls.st.thkBracketSpan) + part.nstaves ∧
    (ScoreOrder.staffStep ii t sg part ls staff).2.filter Command.isThickBracket =
      (if ScoreOrder.sectionBoundary sg ls.st.prvScoreGroup then
        ScoreOrder.emitBracket ls.st.thkBracketStaff ls.st.thkBracketSpan 0 BracketType.NORMAL
       else []) := by
  unfold ScoreOrder.staffStep
  dsimp only
  obtain ⟨t1, t2, t3, t4, t5⟩ := templatePhase_frame t sg part staff
    { ls with st := (ScoreOrder.thinPhase ii sg staff ls.staffIdx ls.blockThinBracket
        (ScoreOrder.thickPhase sg part staff ls.staffIdx ls.st).1).1 }
  obtain ⟨n1, n2, n3, n4⟩ := thinPhase_frame ii sg staff ls.staffIdx ls.blockThinBracket
    (ScoreOrder.thickPhase sg part staff ls.staffIdx ls.st).1
  refine ⟨t3, t4, ?_, ?_, ?_⟩
  · rw [t1]; dsimp only; rw [n1]
    unfold ScoreOrder.thickPhase
    cases hb : ScoreOrder.sectionBoundary sg ls.st.prvScoreGroup <;> simp [hidx, hbr]
  · rw [t2]; dsimp only; rw [n2]
    unfold ScoreOrder.thickPhase
    cases hb : ScoreOrder.sectionBoundary sg ls.st.prvScoreGroup <;> simp [hidx, hbr]
  · rw [List.filter_append, List.filter_append, List.filter_append, t5, n4,
      filter_thick_removals]
    unfold ScoreOrder.thickPhase
    cases hb : ScoreOrder.sectionBoundary sg ls.st.prvScoreGroup <;>
      simp [filter_thick_emit_thick]

theorem sectionBoundary_self (sg : ScoreGroup) :
    ScoreOrder.sectionBoundary sg (some sg) = false := by
  simp [ScoreOrder.sectionBoundary, QString.eqv_refl]

/-- A later staff of a part (staff index at least 1, previous group the part's own):
the thick bracket accumulator is left alone and no thick bracket is issued. -/
theorem staffStep_later (ii : InstrumentIndex) (t : InstrumentTemplate) (sg : ScoreGroup)
    (part : Part) (ls : StaffLoopState) (staff : Staff)
    (hidx : 1 ≤ ls.staffIdx) (hprv : ls.st.prvScoreGroup = some sg) :
    (ScoreOrder.staffStep ii t sg part ls staff).1.st.prvScoreGroup = some sg ∧
    1 ≤ (ScoreOrder.staffStep ii t sg part ls staff).1.staffIdx ∧
    (ScoreOrder.staffStep ii t sg part ls staff).1.st.thkBracketStaff
      = ls.st.thkBracketStaff ∧
    (ScoreOrder.staffStep ii t sg part ls staff).1.st.thkBracketSpan
      = ls.st.thkBracketSpan ∧
    (ScoreOrder.staffStep ii t sg part ls staff).2.filter Command.isThickBracket = [] := by
  unfold ScoreOrder.staffStep
  dsimp only
  obtain ⟨t1, t2, t3, t4, t5⟩ := templatePhase_frame t sg part staff
    { ls with st := (ScoreOrder.thinPhase ii sg staff ls.staffIdx ls.blockThinBracket
        (ScoreOrder.thickPhase sg part staff ls.staffIdx ls.st).1).1 }
  obtain ⟨n1, n2, n3, n4⟩ := thinPhase_frame ii sg staff ls.staffIdx ls.blockThinBracket
    (ScoreOrder.thickPhase sg part staff ls.staffIdx ls.st).1
  have hne : ¬ ls.staffIdx = 0 := by omega
  refine ⟨t3, t4, ?_, ?_, ?_⟩
  · rw [t1]; dsimp only; rw [n1]
    unfold ScoreOrder.thickPhase
    simp [hne]
  · rw [t2]; dsimp only; rw [n2]
    unfold ScoreOrder.thickPhase
    simp [hne]
  · rw [List.filter_append, List.filter_append, List.filter_append, t5, n4,
      filter_thick_removals]
    unfold ScoreOrder.thickPhase
    simp [hprv, sectionBoundary_self]

theorem staffLoop_later (ii : InstrumentIndex) (t : InstrumentTemplate) (sg : ScoreGroup)
    (part : Part) (staves : List Staff) (ls : StaffLoopState)
    (hidx : 1 ≤ ls.staffIdx) (hprv : ls.st.prvScoreGroup = some sg) :
    (ScoreOrder.staffLoop ii t sg part staves ls).1.st.prvScoreGroup = some sg ∧
    (ScoreOrder.staffLoop ii t sg part staves ls).1.st.thkBracketStaff
      = ls.st.thkBracketStaff ∧
    (ScoreOrder.staffLoop ii t sg part staves ls).1.st.thkBracketSpan
      = ls.st.thkBracketSpan ∧
    (ScoreOrder.staffLoop ii t sg part staves ls).2.filter Command.isThickBracket = [] := by
  induction staves generalizing ls with
  | nil => exact ⟨hprv, rfl, rfl, rfl⟩
  | cons s rest ih =>
    obtain ⟨a1, a2, a3, a4, a5⟩ := staffStep_later ii t sg part ls s hidx hprv
    obtain ⟨b1, b2, b3, b4⟩ := ih (ScoreOrder.staffStep ii t sg part ls s).1 a2 a1
    unfold ScoreOrder.staffLoop
    dsimp only
    refine ⟨b1, by rw [b2, a3], by rw [b3, a4], ?_⟩
    rw [List.filter_append, a5, b4]; rfl

/-- The effect of one part on the thick bracket accumulator, for a resolvable part
with at least one staff whose group requests a bracket. -/
theorem partStep_thick (o : ScoreOrder) (cat : Catalog) (st : BracketState) (part : Part)
    (t : InstrumentTemplate) (sg : ScoreGroup) (s0 : Staff) (rest : List Staff)
    (hres : (searchTemplateIndexForId cat part.instrumentId).instrTemplate = some t)
    (hg : o.getGroup cat part.instrumentId part.soloist = some sg)
    (hbr : sg.bracket = true) (hst : part.staves = s0 :: rest) :
    ∃ st' cmds, ScoreOrder.partStep o cat st part = some (st', cmds) ∧
      st'.prvScoreGroup = some sg ∧
      st'.thkBracketStaff =
        (if ScoreOrder.sectionBoundary sg st.prvScoreGroup then some s0
         else st.thkBracketStaff) ∧
      st'.thkBracketSpan =
        (if ScoreOrder.sectionBoundary sg st.prvScoreGroup then 0
         else st.thkBracketSpan) + part.nstaves ∧
      cmds.filter Command.isThickBracket =
        (if ScoreOrder.sectionBoundary sg st.prvScoreGroup then
          ScoreOrder.emitBracket st.thkBracketStaff st.thkBracketSpan 0 BracketType.NORMAL
         else []) := by
  rw [getGroup_resolved o cat _ _ t hres] at hg
  unfold templateGroupId at hg
  unfold ScoreOrder.partStep
  simp only [hres, hg, hst]
  obtain ⟨a1, a2, a3, a4, a5⟩ := staffStep_first (searchTemplateIndexForId cat part.instrumentId)
    t sg part { st := st, staffIdx := 0, blockThinBracket := false } s0 rfl hbr
  obtain ⟨b1, b2, b3, b4⟩ := staffLoop_later (searchTemplateIndexForId cat part.instrumentId)
    t sg part rest _ a2 a1
  refine ⟨_, _, rfl, ?_, ?_, ?_, ?_⟩
  · exact b1
  · show (ScoreOrder.staffLoop _ t sg part (s0 :: rest) _).1.st.thkBracketStaff = _
    unfold ScoreOrder.staffLoop
    dsimp only
    rw [b2, a3]
  · show (ScoreOrder.staffLoop _ t sg part (s0 :: rest) _).1.st.thkBracketSpan = _
    unfold ScoreOrder.staffLoop
    dsimp only
    rw [b3, a4]
  · show (ScoreOrder.staffLoop _ t sg part (s0 :: rest) _).2.filter _ = _
    unfold ScoreOrder.staffLoop
    dsimp only
    rw [List.filter_append, a5, b4, List.append_nil]


theorem splitBy_loop_acc {α : Type} (R : α → α → Bool) (l : List α) (a : α) (g : List α)
    (gs : List (List α)) :
    List.splitBy.loop R l a g gs = gs.reverse ++ List.splitBy.loop R l a g [] := by
  induction l generalizing a g gs with
  | nil => simp [List.splitBy.loop]
  | cons b l ih =>
    simp only [List.splitBy.loop]
    cases R a b
    · dsimp only
      rw [ih b [] ((a :: g).reverse :: gs), ih b [] [(a :: g).reverse]]
      simp
    · dsimp only
      exact ih b (a :: g) gs

theorem runStaves_snoc (run : List Part) (p : Part) :
    runStaves (run ++ [p]) = runStaves run ++ p.staves := by
  simp [runStaves]

theorem runSpan_snoc (run : List Part) (p : Part) :
    runSpan (run ++ [p]) = runSpan run + p.nstaves := by
  simp [runSpan]

/-- The guarded emission of a pending thick bracket is the directive of its run. -/
theorem emitBracket_eq_directive (run : List Part) (s : Staff) (srest : List Staff)
    (h : runStaves run = s :: srest) :
    ScoreOrder.emitBracket (some s) (runSpan run) 0 BracketType.NORMAL =
      [run].filterMap thickDirective := by
  unfold ScoreOrder.emitBracket thickDirective
  simp only [h, List.filterMap_cons, List.filterMap_nil]
  by_cases hs : 1 < runSpan run
  · simp [hs]
  · simp [hs]

/-- The part loop from a state in which a run is pending: the thick brackets issued
by the loop, followed by the one pending at its end, are the directives of the
runs into which the remaining parts extend and split the pending run. -/
theorem partLoop_thick (o : ScoreOrder) (cat : Catalog) (ps : List Part)
    (hok : ∀ p ∈ ps,
      (∃ t, (searchTemplateIndexForId cat p.instrumentId).instrTemplate = some t) ∧
      (∃ sg, o.getGroup cat p.instrumentId p.soloist = some sg ∧ sg.bracket = true) ∧
      p.staves ≠ [])
    (st : BracketState) (ag : Part) (g : List Part) (sgA : ScoreGroup)
    (hag : o.getGroup cat ag.instrumentId ag.soloist = some sgA)
    (hprv : st.prvScoreGroup = some sgA)
    (s : Staff) (srest : List Staff) (hstaves : runStaves (ag :: g).reverse = s :: srest)
    (hanchor : st.thkBracketStaff = some s)
    (hspan : st.thkBracketSpan = runSpan (ag :: g).reverse) :
    ∃ st' cmds, ScoreOrder.partLoop o cat ps st = some (st', cmds) ∧
      st'.prvScoreGroup.isSome = true ∧
      cmds.filter Command.isThickBracket ++
          ScoreOrder.emitBracket st'.thkBracketStaff st'.thkBracketSpan 0 BracketType.NORMAL =
        (List.splitBy.loop (sameSectionParts o cat) ps ag g []).filterMap thickDirective := by
  induction ps generalizing st ag g sgA s srest with
  | nil =>
    refine ⟨st, [], rfl, by simp [hprv], ?_⟩
    rw [hanchor, hspan]
    simp only [List.filter_nil, List.nil_append, List.splitBy.loop, List.reverse_cons,
      List.reverse_nil, List.nil_append]
    rw [← List.reverse_cons]
    exact emitBracket_eq_directive _ s srest hstaves
  | cons p ps ih =>
    obtain ⟨⟨t, ht⟩, ⟨sg, hsg, hbr⟩, hne⟩ := hok p (by simp)
    obtain ⟨s0, rest, hs0⟩ := List.exists_cons_of_ne_nil hne
    obtain ⟨st1, cmds1, hstep, h1, h2, h3, h4⟩ :=
      partStep_thick o cat st p t sg s0 rest ht hsg hbr hs0
    have hR : sameSectionParts o cat ag p = !ScoreOrder.sectionBoundary sg st.prvScoreGroup := by
      simp [sameSectionParts, hag, hsg, hprv, ScoreOrder.sectionBoundary,
        QString.eqv_symm sgA._section]
    have hok' : ∀ q ∈ ps,
        (∃ t, (searchTemplateIndexForId cat q.instrumentId).instrTemplate = some t) ∧
        (∃ sg, o.getGroup cat q.instrumentId q.soloist = some sg ∧ sg.bracket = true) ∧
        q.staves ≠ [] := fun q hq => hok q (by simp [hq])
    cases hb : ScoreOrder.sectionBoundary sg st.prvScoreGroup
    · -- the part continues the pending run
      rw [hb] at hR h2 h3 h4
      simp only [Bool.false_eq_true, if_false, Bool.not_false] at hR h2 h3 h4
      have hst' : runStaves (p :: ag :: g).reverse = s :: (srest ++ p.staves) := by
        rw [List.reverse_cons, runStaves_snoc, hstaves]; rfl
      have hsp' : st1.thkBracketSpan = runSpan (p :: ag :: g).reverse := by
        rw [List.reverse_cons, runSpan_snoc, h3, hspan]
      obtain ⟨st2, cmds2, hloop, hsome, hout⟩ :=
        ih hok' st1 p (ag :: g) sg hsg h1 s _ hst' (h2.trans hanchor) hsp'
      refine ⟨st2, cmds1 ++ cmds2, ?_, hsome, ?_⟩
      · simp only [ScoreOrder.partLoop, hstep, hloop]
      · rw [List.filter_append, h4, List.nil_append, hout]
        simp only [List.splitBy.loop, hR]
    · -- the part starts a new run
      rw [hb] at hR h2 h3 h4
      simp only [if_true, Bool.not_true] at hR h2 h3 h4
      have hst' : runStaves (p :: ([] : List Part)).reverse = s0 :: rest := by
        simp [runStaves, hs0]
      have hsp' : st1.thkBracketSpan = runSpan (p :: ([] : List Part)).reverse := by
        rw [h3]; simp [runSpan]
      obtain ⟨st2, cmds2, hloop, hsome, hout⟩ :=
        ih hok' st1 p [] sg hsg h1 s0 rest hst' h2 hsp'
      refine ⟨st2, cmds1 ++ cmds2, ?_, hsome, ?_⟩
      · simp only [ScoreOrder.partLoop, hstep, hloop]
      · rw [List.filter_append, h4, List.append_assoc, hout, hanchor, hspan,
          emitBracket_eq_directive _ s srest hstaves]
        simp only [List.splitBy.loop, hR]
        rw [splitBy_loop_acc _ _ _ _ [(ag :: g).reverse], List.reverse_singleton,
          ← List.filterMap_append]

/-- After the part loop, with a previous group recorded, the final statements
succeed and issue the pending thick bracket as their only thick bracket. -/
theorem finalBrackets_thick (st : BracketState) (h : st.prvScoreGroup.isSome = true) :
    ∃ cmds, ScoreOrder.finalBrackets st = some cmds ∧
      cmds.filter Command.isThickBracket =
        ScoreOrder.emitBracket st.thkBracketStaff st.thkBracketSpan 0 BracketType.NORMAL := by
  obtain ⟨prv, hprv⟩ := Option.isSome_iff_exists.mp h
  unfold ScoreOrder.finalBrackets
  dsimp only
  split
  · exact ⟨_, rfl, filter_thick_emit_thick _ _⟩
  · rw [hprv]
    refine ⟨_, rfl, ?_⟩
    rw [List.filter_append, filter_thick_emit_thick]
    split
    · rw [filter_thick_emit_thin, List.append_nil]
    · simp

/-- Counterexample to C9 as stated: a violin part without staves stands between two
flute parts. All three parts resolve and are classified into groups with
`bracket = true`; the runs of identical section are flute / violin / flute, each
of total stave count at most 1, so no thick bracket is expected, but the code
issues one of span 2 on the first flute staff. -/
theorem thick_brackets_counterexample :
    Sample.orchestral.isCustom = false ∧
    (∀ p ∈ Sample.fluteGapFlute.parts,
      (Sample.orchestral.getGroup Sample.catalog p.instrumentId p.soloist).map
        (fun g : ScoreGroup => g.bracket) = some true) ∧
    (∀ p ∈ Sample.fluteGapFlute.parts,
      (searchTemplateIndexForId Sample.catalog p.instrumentId).instrTemplate.isSome = true) ∧
    thickBracketsOfRuns Sample.orchestral Sample.catalog Sample.fluteGapFlute.parts = [] ∧
    (Sample.orchestral.setBracketsAndBarlines Sample.catalog Sample.fluteGapFlute).map
      (fun cmds => cmds.filter Command.isThickBracket) =
      some [Command.addBracket 0 0 BracketType.NORMAL 2] := by
  decide

/-- C9, amended. For a non-custom order and a score whose parts all resolve to
instrument templates, all have at least one staff and are all classified into
groups with `bracket = true`, `setBracketsAndBarlines` succeeds and the thick
bracket directives (column 0, type `NORMAL`) it issues are, in score order, one
for each maximal run of consecutive parts with identical section whose total
stave count exceeds 1, on the first staff of the run and spanning the sum of the
stave counts of its parts; a run of total stave count 1 gets none. -/
theorem setBracketsAndBarlines_thick_brackets (o : ScoreOrder) (cat : Catalog) (score : Score)
    (hc : o.isCustom = false)
    (hres' : ∀ p ∈ score.parts,
      (searchTemplateIndexForId cat p.instrumentId).instrTemplate.isSome = true)
    (hbr' : ∀ p ∈ score.parts,
      (o.getGroup cat p.instrumentId p.soloist).map (fun g : ScoreGroup => g.bracket)
        = some true)
    (hst : ∀ p ∈ score.parts, p.staves ≠ []) :
    ∃ cmds, o.setBracketsAndBarlines cat score = some cmds ∧
      cmds.filter Command.isThickBracket = thickBracketsOfRuns o cat score.parts := by
  have hres : ∀ p ∈ score.parts,
      ∃ t, (searchTemplateIndexForId cat p.instrumentId).instrTemplate = some t :=
    fun p hp => Option.isSome_iff_exists.mp (hres' p hp)
  have hbr : ∀ p ∈ score.parts,
      ∃ sg, o.getGroup cat p.instrumentId p.soloist = some sg ∧ sg.bracket = true := by
    intro p hp
    have := hbr' p hp
    simp only [Option.map_eq_some'] at this
    exact this
  clear hres' hbr'
  unfold ScoreOrder.setBracketsAndBarlines thickBracketsOfRuns sectionRuns
  simp only [hc, Bool.false_eq_true, if_false]
  cases hparts : score.parts with
  | nil =>
    refine ⟨[], ?_, ?_⟩
    · simp [ScoreOrder.partLoop, ScoreOrder.finalBrackets, ScoreOrder.initialBracketState,
        ScoreOrder.emitBracket]
    · simp [List.splitBy]
  | cons a rest =>
    rw [hparts] at hres hbr hst
    obtain ⟨t, ht⟩ := hres a (by simp)
    obtain ⟨sg, hsg, hb⟩ := hbr a (by simp)
    obtain ⟨s0, srest, hs0⟩ := List.exists_cons_of_ne_nil (hst a (by simp))
    obtain ⟨st1, cmds1, hstep, h1, h2, h3, h4⟩ :=
      partStep_thick o cat ScoreOrder.initialBracketState a t sg s0 srest ht hsg hb hs0
    simp only [ScoreOrder.initialBracketState, ScoreOrder.sectionBoundary, if_true,
      ScoreOrder.emitBracket] at h2 h3 h4
    obtain ⟨st2, cmds2, hloop, hsome, hout⟩ :=
      partLoop_thick o cat rest
        (fun p hp => ⟨hres p (by simp [hp]), hbr p (by simp [hp]), hst p (by simp [hp])⟩)
        st1 a [] sg hsg h1 s0 srest (by simp [runStaves, hs0]) h2
        (by rw [h3]; simp [runSpan])
    obtain ⟨cmds3, hfin, hthick⟩ := finalBrackets_thick st2 hsome
    refine ⟨(cmds1 ++ cmds2) ++ cmds3, ?_, ?_⟩
    · simp only [ScoreOrder.partLoop, hstep, hloop, hfin]
    · rw [List.filter_append, List.filter_append, h4, List.nil_append, hthick, hout]
      rfl

/-- Witness of C9 (amended): flute, flute (section "Winds") and violin (section
"Strings") give one thick bracket of span 2 on the first flute staff, and none
for the violin. -/
theorem setBracketsAndBarlines_thick_brackets_witness :
    ∃ cmds, Sample.orchestral.setBracketsAndBarlines Sample.catalog Sample.fluteFluteViolin
        = some cmds ∧
      cmds.filter Command.isThickBracket = [Command.addBracket 0 0 BracketType.NORMAL 2] :=
  (setBracketsAndBarlines_thick_brackets Sample.orchestral Sample.catalog
    Sample.fluteFluteViolin (by decide) (by decide) (by decide) (by decide)).imp
    (fun _ h => ⟨h.1, h.2.trans (by decide)⟩)


/-! ### Thin brackets -/

/-- C10, the code at the failing input. Two single-staff flute parts: the flute is a
resolvable single-staff template of catalog rank 0 and its group requests
`thinBracket = true`, yet no thin bracket directive is issued, because
`prvInstrument` starts at 0 and the first part never anchors the bracket. The
same score with the oboe (catalog rank 1) gets the one directive of span 2 on
the first staff. -/
theorem thin_bracket_rank_zero_missing :
    Sample.orchestral.isCustom = false ∧
    searchTemplateIndexForId Sample.catalog (QString.str "flute") =
      { groupIndex := 0, instrIndex := 0, instrTemplate := some Sample.flute } ∧
    Sample.flute.staves = 1 ∧
    (Sample.orchestral.getGroup Sample.catalog (QString.str "flute") false).map
      (fun g : ScoreGroup => g.thinBracket) = some true ∧
    (Sample.orchestral.setBracketsAndBarlines Sample.catalog Sample.twoFlutes).map
      (fun cmds => cmds.filter Command.isThinBracket) = some [] ∧
    (Sample.orchestral.setBracketsAndBarlines Sample.catalog Sample.twoOboes).map
      (fun cmds => cmds.filter Command.isThinBracket) =
      some [Command.addBracket 0 1 BracketType.SQUARE 2] := by
  decide

/-- Three single-staff oboe parts (catalog rank 1): the pending thin bracket is
issued again at the third part and at the end of the score, so two directives
are issued on the first staff, of span 2 and of span 3. -/
theorem thin_bracket_reissued :
    (Sample.orchestral.setBracketsAndBarlines Sample.catalog Sample.threeOboes).map
      (fun cmds => cmds.filter Command.isThinBracket) =
      some [Command.addBracket 0 1 BracketType.SQUARE 2,
            Command.addBracket 0 1 BracketType.SQUARE 3] := by
  decide


/-! ### The registry -/

theorem addScoreOrderLoop_eq_findIdx (trCustom : QString) (heap : Heap) (name : QString)
    (l : List OrderPtr) (index : Nat) :
    ScoreOrderList.addScoreOrderLoop trCustom heap name l index =
      List.findIdx? (hasName trCustom heap name) l index := by
  induction l generalizing index with
  | nil => rfl
  | cons q rest ih =>
    simp only [ScoreOrderList.addScoreOrderLoop, List.findIdx?_cons, hasName]
    split
    · rfl
    · exact ih (index + 1)

/-- Appending to a registry that ends with the custom order puts the new order just
before it. -/
theorem append_before_custom (heap : Heap) (l : List OrderPtr) (c p : OrderPtr)
    (hc : (heap c).isCustom = true) :
    ScoreOrderList.append heap { _orders := l ++ [c] } p = { _orders := l ++ [p, c] } := by
  simp [ScoreOrderList.append, hc, qlistInsert]

theorem firstOccurrences_foldl (adds l : List OrderPtr) :
    adds.foldl (fun acc a => if a ∈ acc then acc else acc ++ [a]) l =
      l ++ (firstOccurrences adds).filter (fun x => decide (x ∉ l)) := by
  induction adds generalizing l with
  | nil => simp [firstOccurrences]
  | cons a rest ih =>
    rw [List.foldl_cons, ih]
    by_cases ha : a ∈ l
    · simp only [ha, if_true, firstOccurrences, List.filter_cons, not_true_eq_false,
        decide_False, Bool.false_eq_true, if_false, List.filter_filter]
      congr 1
      apply List.filter_congr
      intro x _
      by_cases hx : x ∈ l
      · simp [hx]
      · have : x ≠ a := fun h => hx (h ▸ ha)
        simp [hx, this]
    · simp only [ha, if_false, firstOccurrences, List.filter_cons, not_false_eq_true,
        decide_True, if_true, List.filter_filter, List.append_assoc, List.singleton_append]
      congr 2
      apply List.filter_congr
      intro x _
      simp only [List.mem_append, List.mem_singleton, not_or, Bool.decide_and, ne_eq,
        Bool.and_comm]

/-- A run of `addScoreOrder` calls with non-custom, non-customized orders on a
registry that ends with the custom order `c`: the heap is untouched and the
orders not yet present are put before `c`, in the order of the calls. -/
theorem addScoreOrders_plain (trCustom : QString) (heap : Heap) (c : OrderPtr)
    (hc : (heap c).isCustom = true) (adds l : List OrderPtr)
    (hadds : ∀ a ∈ adds, (heap a).isCustom = false ∧ (heap a).isCustomized = false) :
    addScoreOrders trCustom (heap, { _orders := l ++ [c] }) adds =
      (heap, { _orders :=
        adds.foldl (fun acc a => if a ∈ acc then acc else acc ++ [a]) l ++ [c] }) := by
  induction adds generalizing l with
  | nil => rfl
  | cons a rest ih =>
    obtain ⟨h1, h2⟩ := hadds a (by simp)
    have hac : a ≠ c := by
      intro h; rw [h, hc] at h1; cases h1
    have hstep : ScoreOrderList.addScoreOrder trCustom heap { _orders := l ++ [c] } (some a) =
        (heap, { _orders := (if a ∈ l then l else l ++ [a]) ++ [c] }) := by
      unfold ScoreOrderList.addScoreOrder
      by_cases ha : a ∈ l
      · simp [ha]
      · simp only [List.mem_append, ha, List.mem_singleton, hac, or_self, if_false, h2,
          Bool.not_false, if_true]
        rw [append_before_custom heap l c a hc]
        simp
    simp only [addScoreOrders, List.foldl_cons] at ih ⊢
    rw [hstep]
    exact ih _ (fun x hx => hadds x (by simp [hx]))

theorem firstOccurrences_mem (adds : List OrderPtr) (x : OrderPtr) :
    x ∈ firstOccurrences adds ↔ x ∈ adds := by
  induction adds with
  | nil => simp [firstOccurrences]
  | cons a rest ih =>
    simp only [firstOccurrences, List.mem_cons, List.mem_filter, ih, decide_eq_true_eq]
    constructor
    · rintro (h | ⟨h, _⟩)
      · exact Or.inl h
      · exact Or.inr h
    · intro h
      by_cases hx : x = a
      · exact Or.inl hx
      · rcases h with h | h
        · exact Or.inl h
        · exact Or.inr ⟨h, hx⟩

/-- C14. Starting from a freshly constructed registry (custom order at address `c`),
after any sequence of `addScoreOrder` calls with non-custom, non-customized
orders the registry is the added orders, each once and in the order in which
they were first added, followed by the custom order: the custom order is present
exactly once and is the last element. The heap is the one left by the
constructor. -/
theorem registry_custom_stays_last (cat : Catalog) (trCustom : QString) (heap : Heap)
    (counter : Nat) (c : OrderPtr) (adds : List OrderPtr)
    (hadds : ∀ a ∈ adds,
      ((ScoreOrderList.new cat trCustom heap counter c).1 a).isCustom = false ∧
      ((ScoreOrderList.new cat trCustom heap counter c).1 a).isCustomized = false) :
    (ScoreOrderList.new cat trCustom heap counter c).2.2._orders = [c] ∧
    (addScoreOrders trCustom ((ScoreOrderList.new cat trCustom heap counter c).1,
        (ScoreOrderList.new cat trCustom heap counter c).2.2) adds).2._orders =
      firstOccurrences adds ++ [c] ∧
    (addScoreOrders trCustom ((ScoreOrderList.new cat trCustom heap counter c).1,
        (ScoreOrderList.new cat trCustom heap counter c).2.2) adds).2._orders.count c = 1 ∧
    (addScoreOrders trCustom ((ScoreOrderList.new cat trCustom heap counter c).1,
        (ScoreOrderList.new cat trCustom heap counter c).2.2) adds).2._orders.getLast?
      = some c ∧
    ((addScoreOrders trCustom ((ScoreOrderList.new cat trCustom heap counter c).1,
        (ScoreOrderList.new cat trCustom heap counter c).2.2) adds).1 c).isCustom = true := by
  have hnew : ScoreOrderList.new cat trCustom heap counter c =
      (Heap.set heap c (ScoreOrder.createUnsortedGroup
        (ScoreOrder.new cat (QString.str "<custom>") (QString.str "Custom"), counter)).1,
       counter + 1, { _orders := [c] }) := by
    simp [ScoreOrderList.new, ScoreOrderList.addScoreOrder, ScoreOrderList.append,
      ScoreOrder.createUnsortedGroup, ScoreGroup.new, Heap.set, ScoreOrder.isCustomized,
      ScoreOrder.new, ScoreOrder.init]
  rw [hnew] at hadds ⊢
  dsimp only at hadds ⊢
  have hc : ((Heap.set heap c (ScoreOrder.createUnsortedGroup
      (ScoreOrder.new cat (QString.str "<custom>") (QString.str "Custom"), counter)).1) c).isCustom
      = true := by
    simp [Heap.set, ScoreOrder.createUnsortedGroup, ScoreOrder.new, ScoreOrder.init,
      ScoreOrder.isCustom, QString.eqv_refl]
  have hrun := addScoreOrders_plain trCustom _ c hc adds [] hadds
  rw [List.nil_append] at hrun
  rw [hrun, firstOccurrences_foldl]
  have hnot : c ∉ firstOccurrences adds := by
    rw [firstOccurrences_mem]
    intro hmem
    have := (hadds c hmem).1
    rw [hc] at this; cases this
  refine ⟨rfl, by simp, ?_, by simp, hc⟩
  simp only [List.nil_append, List.not_mem_nil, not_false_eq_true, decide_True,
    List.filter_true, List.count_append, List.count_singleton_self]
  rw [List.count_eq_zero_of_not_mem hnot]

/-- Witness of C14: the orders at 1, 2, 3 and again 2 are added to a fresh registry
whose custom order is at address 0. -/
theorem registry_custom_stays_last_witness :
    (addScoreOrders (QString.str "Custom") (Sample.freshRegistry.1, Sample.freshRegistry.2.2)
      [1, 2, 3, 2]).2._orders = [1, 2, 3, 0] :=
  (registry_custom_stays_last Sample.catalog (QString.str "Custom") Sample.heap 100 0
    [1, 2, 3, 2] (by decide)).2.1.trans (by decide)

/-- C15. A customized order `p` that is not in the registry, when some order of the
registry has its display name, is inserted at position `i + 1`, where `i` is the
position of the first order with that name; the other entries keep their
relative order (removing `p` gives the registry back) and the heap is untouched,
so `p` remains customized. -/
theorem addScoreOrder_customized_after_base (trCustom : QString) (heap : Heap)
    (l : ScoreOrderList) (p : OrderPtr) (i : Nat)
    (hnot : p ∉ l._orders)
    (hcust : (heap p).isCustomized = true)
    (hi : l._orders.findIdx? (hasName trCustom heap ((heap p).getName trCustom)) = some i) :
    (ScoreOrderList.addScoreOrder trCustom heap l (some p)).2._orders =
      l._orders.take (i + 1) ++ p :: l._orders.drop (i + 1) ∧
    (ScoreOrderList.addScoreOrder trCustom heap l (some p)).2._orders.get? (i + 1) = some p ∧
    (ScoreOrderList.addScoreOrder trCustom heap l (some p)).2._orders.erase p = l._orders ∧
    (ScoreOrderList.addScoreOrder trCustom heap l (some p)).1 = heap ∧
    ((ScoreOrderList.addScoreOrder trCustom heap l (some p)).1 p).isCustomized = true := by
  have hlt : i < l._orders.length := by
    have := List.findIdx?_eq_some_iff_getElem.mp hi
    exact this.1
  have hres : ScoreOrderList.addScoreOrder trCustom heap l (some p) =
      (heap, { _orders := l._orders.take (i + 1) ++ p :: l._orders.drop (i + 1) }) := by
    unfold ScoreOrderList.addScoreOrder
    simp only [hnot, if_false, hcust, Bool.not_true, Bool.false_eq_true,
      addScoreOrderLoop_eq_findIdx, hi, qlistInsert]
  rw [hres]
  refine ⟨rfl, ?_, ?_, rfl, hcust⟩
  · dsimp only
    rw [List.get?_eq_getElem?, List.getElem?_append_right (by simp)]
    simp [List.length_take, Nat.min_eq_left (Nat.succ_le_of_lt hlt)]
  · dsimp only
    have hnt : p ∉ l._orders.take (i + 1) := fun h => hnot (List.mem_of_mem_take h)
    rw [List.erase_append_right _ hnt, List.erase_cons_head, List.take_append_drop]

/-- Witness of C15: the base order "Orchestra" is at position 2 of the registry
`[Band, Choir, Orchestra, custom]`; the customized "Orchestra" (address 4) goes
to position 3. -/
theorem addScoreOrder_customized_after_base_witness :
    (ScoreOrderList.addScoreOrder (QString.str "Custom") Sample.registry.1 Sample.registry.2
      (some 4)).2._orders = [1, 2, 3, 4, 0] ∧
    ((ScoreOrderList.addScoreOrder (QString.str "Custom") Sample.registry.1 Sample.registry.2
      (some 4)).1 4).isCustomized = true :=
  ⟨(addScoreOrder_customized_after_base (QString.str "Custom") Sample.registry.1
      Sample.registry.2 4 2 (by decide) (by decide) (by decide)).1.trans (by decide),
   (addScoreOrder_customized_after_base (QString.str "Custom") Sample.registry.1
      Sample.registry.2 4 2 (by decide) (by decide) (by decide)).2.2.2.2⟩

/-- C16, the code at the failing input. In the registry reached from construction by
adding one order (address 3), the custom order (address 0) is the last element,
at index 1; `removeScoreOrder` applied to it removes it and the registry has no
custom order any more. Only in the fresh registry, where the custom order is at
index 0, is the removal refused. -/
theorem removeScoreOrder_removes_custom :
    Sample.smallRegistry.2._orders = [3, 0] ∧
    (Sample.smallRegistry.1 0).isCustom = true ∧
    ScoreOrderList.getScoreOrderIndex Sample.smallRegistry.2 0 = 1 ∧
    (ScoreOrderList.removeScoreOrder Sample.smallRegistry.2 (some 0))._orders = [3] ∧
    ScoreOrderList.customScoreOrder Sample.smallRegistry.1
      (ScoreOrderList.removeScoreOrder Sample.smallRegistry.2 (some 0)) = none ∧
    (ScoreOrderList.removeScoreOrder Sample.freshRegistry.2.2 (some 0))._orders = [0] := by
  decide

/-- C17, the code at the failing input. The registry holds the orchestral order
(address 3) and the custom order; the score violin, flute does not conform to
the orchestral order (its sort indices are 6, 0), yet `searchScoreOrders(score)`
returns the order, once per part, while `searchScoreOrders(indices)` on the sort
indices of the score returns nothing. -/
theorem searchScoreOrders_reports_nonconforming :
    Sample.smallRegistry.2._orders = [3, 0] ∧
    (Sample.smallRegistry.1 3).isCustom = false ∧
    Sample.violinFlute.parts.map (fun p =>
      (Sample.smallRegistry.1 3).instrumentIndex Sample.catalog p.instrumentId p.soloist)
      = [6, 0] ∧
    (Sample.smallRegistry.1 3).isScoreOrderOfScore Sample.catalog Sample.violinFlute = false ∧
    ScoreOrderList.searchScoreOrdersOfScore Sample.smallRegistry.1 Sample.catalog
      Sample.smallRegistry.2 Sample.violinFlute = [3, 3] ∧
    ScoreOrderList.searchScoreOrders Sample.smallRegistry.1 Sample.smallRegistry.2 [6, 0]
      = [] := by
  decide

theorem findByNameLoop_customized (trCustom : QString) (heap : Heap) (name : QString)
    (l : List OrderPtr) (u : Option OrderPtr) :
    ScoreOrderList.findByNameLoop trCustom heap name true l u =
      match l.find? (fun q => hasName trCustom heap name q && (heap q).isCustomized) with
      | some q => some q
      | none => u := by
  induction l generalizing u with
  | nil => rfl
  | cons q rest ih =>
    unfold ScoreOrderList.findByNameLoop
    simp only [List.find?_cons, hasName, if_true]
    cases h1 : ((heap q).getName trCustom).eqv name <;>
      cases h2 : (heap q).isCustomized <;> simp [ih, hasName]

theorem findByNameLoop_plain (trCustom : QString) (heap : Heap) (name : QString)
    (l : List OrderPtr) (u : Option OrderPtr) :
    ScoreOrderList.findByNameLoop trCustom heap name false l u =
      match l.find? (fun q => hasName trCustom heap name q && !(heap q).isCustomized) with
      | some q => some q
      | none =>
        match l.reverse.find? (fun q => hasName trCustom heap name q && (heap q).isCustomized)
          with
        | some q => some q
        | none => u := by
  induction l generalizing u with
  | nil => rfl
  | cons q rest ih =>
    unfold ScoreOrderList.findByNameLoop
    simp only [List.find?_cons, hasName, Bool.false_eq_true, if_false, List.reverse_cons,
      List.find?_append, List.find?_nil]
    cases h1 : ((heap q).getName trCustom).eqv name <;>
      cases h2 : (heap q).isCustomized <;> simp only [ih, hasName] <;>
      cases List.find? (fun q => ((heap q).getName trCustom).eqv name && !(heap q).isCustomized)
        rest <;>
      cases List.find? (fun q => ((heap q).getName trCustom).eqv name && (heap q).isCustomized)
        rest.reverse <;> simp

/-- C20. `findByName(name, customized)`: with `customized = true` the result is the
first order of the registry that has the display name and is customized, or none;
with `customized = false` it is the first non-customized order with the display
name or, when there is none, the last customized order with the display name, or
none when no order has the name. -/
theorem findByName_spec (trCustom : QString) (heap : Heap) (l : ScoreOrderList)
    (name : QString) :
    ScoreOrderList.findByName trCustom heap l name true =
      l._orders.find? (fun q => hasName trCustom heap name q && (heap q).isCustomized) ∧
    ScoreOrderList.findByName trCustom heap l name false =
      (match l._orders.find?
          (fun q => hasName trCustom heap name q && !(heap q).isCustomized) with
        | some q => some q
        | none => l._orders.reverse.find?
          (fun q => hasName trCustom heap name q && (heap q).isCustomized)) ∧
    ((∀ q ∈ l._orders, hasName trCustom heap name q = false) →
      ∀ customized, ScoreOrderList.findByName trCustom heap l name customized = none) := by
  have h1 : ScoreOrderList.findByName trCustom heap l name true =
      l._orders.find? (fun q => hasName trCustom heap name q && (heap q).isCustomized) := by
    unfold ScoreOrderList.findByName
    rw [findByNameLoop_customized]
    cases List.find? (fun q => hasName trCustom heap name q && (heap q).isCustomized)
      l._orders <;> rfl
  have h2 : ScoreOrderList.findByName trCustom heap l name false =
      (match l._orders.find?
          (fun q => hasName trCustom heap name q && !(heap q).isCustomized) with
        | some q => some q
        | none => l._orders.reverse.find?
          (fun q => hasName trCustom heap name q && (heap q).isCustomized)) := by
    unfold ScoreOrderList.findByName
    rw [findByNameLoop_plain]
    cases List.find? (fun q => hasName trCustom heap name q && !(heap q).isCustomized)
      l._orders
    · cases List.find? (fun q => hasName trCustom heap name q && (heap q).isCustomized)
        l._orders.reverse <;> rfl
    · rfl
  refine ⟨h1, h2, ?_⟩
  intro hno customized
  have e1 : ∀ (f : OrderPtr → Bool) (ks : List OrderPtr), (∀ q ∈ ks, q ∈ l._orders) →
      ks.find? (fun q => hasName trCustom heap name q && f q) = none := by
    intro f ks hks
    rw [List.find?_eq_none]
    intro q hq
    simp [hno q (hks q hq)]
  cases customized
  · rw [h2, e1 _ l._orders (fun q hq => hq),
      e1 _ l._orders.reverse (fun q hq => List.mem_reverse.mp hq)]
  · rw [h1, e1 _ l._orders (fun q hq => hq)]

/-! ### The custom order and the layout -/

/-- C18. For the custom order, `setBracketsAndBarlines` issues no command at all. -/
theorem setBracketsAndBarlines_custom (o : ScoreOrder) (cat : Catalog) (score : Score)
    (h : o.isCustom = true) : o.setBracketsAndBarlines cat score = some [] := by
  simp [ScoreOrder.setBracketsAndBarlines, h]

/-- Witness of C18: the custom order of the fresh registry on the sample score. -/
theorem setBracketsAndBarlines_custom_witness :
    (Sample.freshRegistry.1 0).setBracketsAndBarlines Sample.catalog Sample.fluteFluteViolin
      = some [] :=
  setBracketsAndBarlines_custom (Sample.freshRegistry.1 0) Sample.catalog
    Sample.fluteFluteViolin (by decide)


/-! ### Barline spans -/

theorem barlineCommands_append (a b : List Command) :
    barlineCommands (a ++ b) = barlineCommands a ++ barlineCommands b := by
  simp [barlineCommands, List.filterMap_append]

theorem barlineCommands_emitBracket (staff : Option Staff) (span level : Int)
    (type : BracketType) :
    barlineCommands (ScoreOrder.emitBracket staff span level type) = [] := by
  unfold ScoreOrder.emitBracket
  cases staff with
  | none => rfl
  | some s => split <;> simp [barlineCommands, Command.barline]

/-- The thick bracket phase issues no barline-span command and leaves the previous
staff, the previous group, the previous instrument and the thin bracket
accumulator alone. -/
theorem thickPhase_frame (sg : ScoreGroup) (part : Part) (staff : Staff) (k : Nat)
    (st : BracketState) :
    (ScoreOrder.thickPhase sg part staff k st).1.prvStaff = st.prvStaff ∧
    (ScoreOrder.thickPhase sg part staff k st).1.prvScoreGroup = st.prvScoreGroup ∧
    (ScoreOrder.thickPhase sg part staff k st).1.prvInstrument = st.prvInstrument ∧
    (ScoreOrder.thickPhase sg part staff k st).1.thnBracketStaff = st.thnBracketStaff ∧
    (ScoreOrder.thickPhase sg part staff k st).1.thnBracketSpan = st.thnBracketSpan ∧
    barlineCommands (ScoreOrder.thickPhase sg part staff k st).2 = [] := by
  unfold ScoreOrder.thickPhase
  dsimp only
  refine ⟨?_, ?_, ?_, ?_, ?_, ?_⟩
  · split <;> split <;> rfl
  · split <;> split <;> rfl
  · split <;> split <;> rfl
  · split <;> split <;> rfl
  · split <;> split <;> rfl
  · split
    · exact barlineCommands_emitBracket _ _ _ _
    · rfl

/-- The thin bracket phase issues no barline-span command and leaves the previous
staff alone. -/
theorem thinPhase_prvStaff (ii : InstrumentIndex) (sg : ScoreGroup) (staff : Staff)
    (k : Nat) (b : Bool) (st : BracketState) :
    (ScoreOrder.thinPhase ii sg staff k b st).1.prvStaff = st.prvStaff ∧
    barlineCommands (ScoreOrder.thinPhase ii sg staff k b st).2 = [] := by
  unfold ScoreOrder.thinPhase
  split
  · dsimp only
    refine ⟨?_, barlineCommands_emitBracket _ _ _ _⟩
    split <;> rfl
  · exact ⟨rfl, rfl⟩

/-- The barline-span commands of the template phase and the values it leaves in
`prvStaff`, `prvScoreGroup` and `staffIdx`. -/
theorem templatePhase_barlines (t : InstrumentTemplate) (sg : ScoreGroup) (part : Part)
    (staff : Staff) (ls : StaffLoopState) :
    barlineCommands (ScoreOrder.templatePhase t sg part staff ls).2 =
      (if t.staves > 1 then
        [(staff.idx, PropertyValue.bool (t.barlineSpan.getD ls.staffIdx false))]
       else
        match ls.st.prvStaff with
        | some prv =>
          [(prv.idx, PropertyValue.bool
            (sg.barLineSpan && ScoreOrder.sameSection sg ls.st.prvScoreGroup))]
        | none => []) ∧
    (ScoreOrder.templatePhase t sg part staff ls).1.st.prvStaff =
      (if t.staves > 1 then none else some staff) ∧
    (ScoreOrder.templatePhase t sg part staff ls).1.staffIdx = nextStaffIdx t ls.staffIdx := by
  unfold ScoreOrder.templatePhase nextStaffIdx
  dsimp only
  by_cases ht : t.staves > 1
  · simp only [ht, if_true]
    refine ⟨?_, trivial, trivial⟩
    split <;> simp [barlineCommands, Command.barline]
  · simp only [ht, if_false]
    refine ⟨?_, trivial, trivial⟩
    cases ls.st.prvStaff <;> simp [barlineCommands, Command.barline]

theorem barlineCommands_removals (staff : Staff) :
    barlineCommands (staff.brackets.map
        (fun bi => Command.removeBracket staff.idx bi.column bi.bracketType bi.bracketSpan) ++
      [Command.changeBarlineSpan staff.idx (PropertyValue.int 0)]) =
      [(staff.idx, PropertyValue.int 0)] := by
  rw [barlineCommands_append]
  have : barlineCommands (staff.brackets.map
      (fun bi => Command.removeBracket staff.idx bi.column bi.bracketType bi.bracketSpan))
      = [] := by
    unfold barlineCommands
    rw [List.filterMap_eq_nil_iff]
    intro c hc
    rw [List.mem_map] at hc
    obtain ⟨bi, _, rfl⟩ := hc
    rfl
  rw [this]
  rfl

/-- One staff visit, seen through its barline-span commands. -/
theorem staffStep_barlines (ii : InstrumentIndex) (t : InstrumentTemplate) (sg : ScoreGroup)
    (part : Part) (ls : StaffLoopState) (staff : Staff) :
    barlineCommands (ScoreOrder.staffStep ii t sg part ls staff).2 =
      (staff.idx, PropertyValue.int 0) ::
      (if t.staves > 1 then
        [(staff.idx, PropertyValue.bool (t.barlineSpan.getD ls.staffIdx false))]
       else
        match ls.st.prvStaff with
        | some prv =>
          [(prv.idx, PropertyValue.bool
            (sg.barLineSpan && ScoreOrder.sameSection sg ls.st.prvScoreGroup))]
        | none => []) ∧
    (ScoreOrder.staffStep ii t sg part ls staff).1.st.prvStaff =
      (if t.staves > 1 then none else some staff) ∧
    (ScoreOrder.staffStep ii t sg part ls staff).1.st.prvScoreGroup = some sg ∧
    (ScoreOrder.staffStep ii t sg part ls staff).1.staffIdx = nextStaffIdx t ls.staffIdx := by
  unfold ScoreOrder.staffStep
  dsimp only
  obtain ⟨k1, k2, _, _, _, k6⟩ := thickPhase_frame sg part staff ls.staffIdx ls.st
  obtain ⟨n1, n2⟩ := thinPhase_prvStaff ii sg staff ls.staffIdx ls.blockThinBracket
    (ScoreOrder.thickPhase sg part staff ls.staffIdx ls.st).1
  obtain ⟨_, _, n3, _⟩ := thinPhase_frame ii sg staff ls.staffIdx ls.blockThinBracket
    (ScoreOrder.thickPhase sg part staff ls.staffIdx ls.st).1
  obtain ⟨t1, t2, t3⟩ := templatePhase_barlines t sg part staff
    { ls with st := (ScoreOrder.thinPhase ii sg staff ls.staffIdx ls.blockThinBracket
        (ScoreOrder.thickPhase sg part staff ls.staffIdx ls.st).1).1 }
  obtain ⟨_, _, t4, _, _⟩ := templatePhase_frame t sg part staff
    { ls with st := (ScoreOrder.thinPhase ii sg staff ls.staffIdx ls.blockThinBracket
        (ScoreOrder.thickPhase sg part staff ls.staffIdx ls.st).1).1 }
  refine ⟨?_, t2, t4, t3⟩
  rw [barlineCommands_append, barlineCommands_append, barlineCommands_append,
    barlineCommands_removals, k6, n2, t1]
  dsimp only
  rw [n1, k1, n3, k2]
  rfl

theorem staffLoop_barlines (ii : InstrumentIndex) (t : InstrumentTemplate) (sg : ScoreGroup)
    (part : Part) (staves : List Staff) (ls : StaffLoopState) :
    barlineCommands (ScoreOrder.staffLoop ii t sg part staves ls).2 =
      barlineTrace (staffVisits t sg staves ls.staffIdx) ls.st.prvStaff ls.st.prvScoreGroup ∧
    ((ScoreOrder.staffLoop ii t sg part staves ls).1.st.prvStaff,
      (ScoreOrder.staffLoop ii t sg part staves ls).1.st.prvScoreGroup) =
      traceEnd (staffVisits t sg staves ls.staffIdx) (ls.st.prvStaff, ls.st.prvScoreGroup) := by
  induction staves generalizing ls with
  | nil => exact ⟨rfl, rfl⟩
  | cons s rest ih =>
    obtain ⟨a1, a2, a3, a4⟩ := staffStep_barlines ii t sg part ls s
    obtain ⟨b1, b2⟩ := ih (ScoreOrder.staffStep ii t sg part ls s).1
    unfold ScoreOrder.staffLoop
    dsimp only
    rw [barlineCommands_append, a1, b1, b2, a2, a3, a4]
    simp only [staffVisits, barlineTrace, traceEnd]
    constructor
    · by_cases ht : t.staves > 1
      · simp [ht]
      · simp [ht]
    · trivial

theorem barlineTrace_append (a b : List Visit) (ps : Option Staff) (pg : Option ScoreGroup) :
    barlineTrace (a ++ b) ps pg =
      barlineTrace a ps pg ++ barlineTrace b (traceEnd a (ps, pg)).1 (traceEnd a (ps, pg)).2 := by
  induction a generalizing ps pg with
  | nil => rfl
  | cons v vs ih =>
    simp only [List.cons_append, barlineTrace, traceEnd]
    by_cases ht : v.template.staves > 1
    · simp [ht, ih]
    · simp [ht, ih]

theorem traceEnd_append (a b : List Visit) (s : Option Staff × Option ScoreGroup) :
    traceEnd (a ++ b) s = traceEnd b (traceEnd a s) := by
  induction a generalizing s with
  | nil => rfl
  | cons v vs ih => simp only [List.cons_append, traceEnd]; exact ih _

/-- One part, seen through its barline-span commands. -/
theorem partStep_barlines (o : ScoreOrder) (cat : Catalog) (st st1 : BracketState)
    (part : Part) (cmds : List Command)
    (h : ScoreOrder.partStep o cat st part = some (st1, cmds)) :
    barlineCommands cmds =
      barlineTrace (partVisits o cat part) st.prvStaff st.prvScoreGroup ∧
    (st1.prvStaff, st1.prvScoreGroup) =
      traceEnd (partVisits o cat part) (st.prvStaff, st.prvScoreGroup) := by
  unfold ScoreOrder.partStep at h
  unfold partVisits
  cases ht : (searchTemplateIndexForId cat part.instrumentId).instrTemplate with
  | none =>
    simp only [ht] at h
    cases h
    exact ⟨rfl, rfl⟩
  | some t =>
    rw [getGroup_resolved o cat _ _ t ht]
    unfold templateGroupId
    simp only [ht] at h
    cases hs : part.staves with
    | nil =>
      simp only [hs] at h
      cases h
      cases o.getGroupByFamily (o.getFamilyName (some t) part.soloist)
        (instrumentGroupId cat (searchTemplateIndexForId cat part.instrumentId)) <;>
        exact ⟨rfl, rfl⟩
    | cons s0 rest =>
      cases hg : o.getGroupByFamily (o.getFamilyName (some t) part.soloist)
          (instrumentGroupId cat (searchTemplateIndexForId cat part.instrumentId)) with
      | none => simp [hs, hg] at h
      | some sg =>
        simp only [hs, hg, Option.some.injEq, Prod.mk.injEq] at h
        obtain ⟨h1, h2⟩ := h
        subst h1 h2
        exact staffLoop_barlines _ t sg part (s0 :: rest)
          { st := st, staffIdx := 0, blockThinBracket := false }

theorem partLoop_barlines (o : ScoreOrder) (cat : Catalog) (parts : List Part)
    (st st1 : BracketState) (cmds : List Command)
    (h : ScoreOrder.partLoop o cat parts st = some (st1, cmds)) :
    barlineCommands cmds =
      barlineTrace (scoreVisits o cat parts) st.prvStaff st.prvScoreGroup := by
  induction parts generalizing st cmds with
  | nil =>
    simp only [ScoreOrder.partLoop, Option.some.injEq, Prod.mk.injEq] at h
    rw [← h.2]; rfl
  | cons p ps ih =>
    unfold ScoreOrder.partLoop at h
    cases hp : ScoreOrder.partStep o cat st p with
    | none => simp [hp] at h
    | some r =>
      cases hl : ScoreOrder.partLoop o cat ps r.1 with
      | none => simp [hp, hl] at h
      | some r2 =>
        simp only [hp, hl, Option.some.injEq, Prod.mk.injEq] at h
        obtain ⟨a1, a2⟩ := partStep_barlines o cat st r.1 p r.2 hp
        have b1 := ih r.1 r2.2 (by rw [hl, ← h.1])
        rw [← h.2, barlineCommands_append, a1, b1]
        simp only [scoreVisits, List.map_cons, List.flatten_cons]
        rw [barlineTrace_append, ← a2]

theorem barlineCommands_finalBrackets (st : BracketState) (cmds : List Command)
    (h : ScoreOrder.finalBrackets st = some cmds) : barlineCommands cmds = [] := by
  unfold ScoreOrder.finalBrackets at h
  dsimp only at h
  split at h
  · cases h; exact barlineCommands_emitBracket _ _ _ _
  · split at h
    · cases h
    · cases h
      rw [barlineCommands_append, barlineCommands_emitBracket]
      split
      · exact barlineCommands_emitBracket _ _ _ _
      · rfl

/-- The barline-span commands of `setBracketsAndBarlines` are those of the visits of
the score, from the initial state. -/
theorem setBracketsAndBarlines_barlines (o : ScoreOrder) (cat : Catalog) (score : Score)
    (cmds : List Command) (hc : o.isCustom = false)
    (h : o.setBracketsAndBarlines cat score = some cmds) :
    barlineCommands cmds = barlineTrace (scoreVisits o cat score.parts) none none := by
  unfold ScoreOrder.setBracketsAndBarlines at h
  simp only [hc, Bool.false_eq_true, if_false] at h
  cases hl : ScoreOrder.partLoop o cat score.parts ScoreOrder.initialBracketState with
  | none => simp [hl] at h
  | some r =>
    cases hf : ScoreOrder.finalBrackets r.1 with
    | none => simp [hl, hf] at h
    | some fin =>
      simp only [hl, hf, Option.some.injEq] at h
      rw [← h, barlineCommands_append, barlineCommands_finalBrackets r.1 fin hf,
        List.append_nil]
      exact partLoop_barlines o cat score.parts _ r.1 r.2 (by rw [hl])


theorem barlineTrace_targets (vs : List Visit) (ps : Option Staff) (pg : Option ScoreGroup)
    (x : Nat × PropertyValue) (hx : x ∈ barlineTrace vs ps pg) :
    x.1 ∈ vs.map (fun v => v.staff.idx) ∨ ∃ p, ps = some p ∧ x.1 = p.idx := by
  induction vs generalizing ps pg with
  | nil => simp [barlineTrace] at hx
  | cons v vs ih =>
    simp only [barlineTrace, List.mem_cons] at hx
    rcases hx with rfl | hx
    · left; simp
    · by_cases ht : v.template.staves > 1
      · simp only [ht, if_true, List.mem_cons] at hx
        rcases hx with rfl | hx
        · left; simp
        · rcases ih none (some v.sg) hx with h | ⟨p, hp, _⟩
          · left; simp [h]
          · cases hp
      · simp only [ht, if_false, List.mem_append] at hx
        rcases hx with hx | hx
        · cases ps with
          | none => simp at hx
          | some p =>
            simp only [List.mem_singleton] at hx
            right
            exact ⟨p, rfl, by rw [hx]⟩
        · rcases ih (some v.staff) (some v.sg) hx with h | ⟨p, hp, hxp⟩
          · left; simp [h]
          · cases hp
            left; simp [hxp]

theorem traceEnd_prvStaff (vs : List Visit) (s : Option Staff × Option ScoreGroup)
    (p : Staff) (h : (traceEnd vs s).1 = some p) :
    p.idx ∈ vs.map (fun v => v.staff.idx) ∨ s.1 = some p := by
  induction vs generalizing s with
  | nil => right; exact h
  | cons v vs ih =>
    simp only [traceEnd] at h
    rcases ih _ h with h1 | h1
    · left; simp [h1]
    · left
      by_cases ht : v.template.staves > 1
      · simp [ht] at h1
      · simp only [ht, if_false, Option.some.injEq] at h1
        simp [← h1]

theorem traceEnd_single (vs : List Visit) (v : Visit) (s : Option Staff × Option ScoreGroup)
    (ht : ¬ v.template.staves > 1) :
    traceEnd (vs ++ [v]) s = (some v.staff, some v.sg) := by
  rw [traceEnd_append]
  simp [traceEnd, ht]

/-- Two consecutive visits `vp`, `vc` of staves of single-staff templates, in a list
of visits of distinct staves: the last barline-span command on the staff of `vp`
is the one issued at `vc`. -/
theorem lastValueOn_consecutive (pre post : List Visit) (vp vc : Visit)
    (hnodup : ((pre ++ vp :: vc :: post).map (fun v => v.staff.idx)).Nodup)
    (hp : ¬ vp.template.staves > 1) (hc : ¬ vc.template.staves > 1) :
    lastValueOn vp.staff.idx (barlineTrace (pre ++ vp :: vc :: post) none none) =
      some (PropertyValue.bool (vc.sg.barLineSpan && vc.sg._section.eqv vp.sg._section)) := by
  simp only [List.map_append, List.map_cons, List.nodup_append, List.nodup_cons,
    List.mem_cons, not_or, List.disjoint_cons_right] at hnodup
  obtain ⟨_, ⟨⟨hpc, hppost⟩, _, _⟩, hdisj⟩ := hnodup
  have hppre : vp.staff.idx ∉ pre.map (fun v => v.staff.idx) := hdisj.1
  have hA : (barlineTrace pre none none).filter (fun x => decide (x.1 = vp.staff.idx)) = [] := by
    rw [List.filter_eq_nil_iff]
    intro x hx
    rcases barlineTrace_targets pre none none x hx with h | ⟨p, h, _⟩
    · simp only [decide_eq_true_eq]
      intro he; exact hppre (he ▸ h)
    · cases h
  have hB : ∀ pg : Option ScoreGroup,
      List.filter (fun x : Nat × PropertyValue => decide (x.1 = vp.staff.idx))
        (match (traceEnd pre (none, none)).1 with
        | some prv =>
          [(prv.idx, PropertyValue.bool (vp.sg.barLineSpan && ScoreOrder.sameSection vp.sg pg))]
        | none => []) = [] := by
    intro pg
    cases hs : (traceEnd pre (none, none)).1 with
    | none => rfl
    | some prv =>
      rcases traceEnd_prvStaff pre (none, none) prv hs with h | h
      · have : prv.idx ≠ vp.staff.idx := fun he => hppre (he ▸ h)
        simp [this]
      · cases h
  have hC : (barlineTrace post (some vc.staff) (some vc.sg)).filter
      (fun x => decide (x.1 = vp.staff.idx)) = [] := by
    rw [List.filter_eq_nil_iff]
    intro x hx
    simp only [decide_eq_true_eq]
    rcases barlineTrace_targets post _ _ x hx with h | ⟨p, h, hxp⟩
    · intro he; exact hppost (he ▸ h)
    · cases h
      intro he; exact hpc (he.symm.trans hxp)
  have hvc : vc.staff.idx ≠ vp.staff.idx := fun he => hpc he.symm
  unfold lastValueOn
  rw [barlineTrace_append]
  simp only [barlineTrace, hp, hc, if_false, List.filter_append, List.filter_cons, hA, hB, hC,
    decide_True, if_true, hvc, decide_False, Bool.false_eq_true, List.nil_append,
    List.append_nil, List.filter_nil, List.cons_append]
  simp [ScoreOrder.sameSection]

/-! ### Totality of the layout derivation -/

theorem staffLoop_prvScoreGroup (ii : InstrumentIndex) (t : InstrumentTemplate)
    (sg : ScoreGroup) (part : Part) (s : Staff) (rest : List Staff) (ls : StaffLoopState) :
    (ScoreOrder.staffLoop ii t sg part (s :: rest) ls).1.st.prvScoreGroup = some sg := by
  induction rest generalizing s ls with
  | nil =>
    simp only [ScoreOrder.staffLoop]
    exact (staffStep_barlines ii t sg part ls s).2.2.1
  | cons s2 rest ih =>
    unfold ScoreOrder.staffLoop
    dsimp only
    exact ih s2 _

/-- Once a thin bracket is anchored, a previous group is recorded: the dereference
of `prvScoreGroup` after the part loop is safe. -/
theorem partStep_prv_some (o : ScoreOrder) (cat : Catalog) (st st1 : BracketState)
    (part : Part) (cmds : List Command)
    (h : ScoreOrder.partStep o cat st part = some (st1, cmds))
    (hinv : st.thnBracketStaff.isSome = true → st.prvScoreGroup.isSome = true) :
    st1.thnBracketStaff.isSome = true → st1.prvScoreGroup.isSome = true := by
  unfold ScoreOrder.partStep at h
  cases ht : (searchTemplateIndexForId cat part.instrumentId).instrTemplate with
  | none =>
    simp only [ht] at h
    cases h
    exact hinv
  | some t =>
    simp only [ht] at h
    cases hs : part.staves with
    | nil =>
      simp only [hs] at h
      cases h
      exact hinv
    | cons s0 rest =>
      cases hg : o.getGroupByFamily (o.getFamilyName (some t) part.soloist)
          (instrumentGroupId cat (searchTemplateIndexForId cat part.instrumentId)) with
      | none => simp [hs, hg] at h
      | some sg =>
        simp only [hs, hg, Option.some.injEq, Prod.mk.injEq] at h
        intro _
        rw [← h.1]
        show ((ScoreOrder.staffLoop _ t sg part (s0 :: rest) _).1.st.prvScoreGroup).isSome = true
        rw [staffLoop_prvScoreGroup]
        rfl

theorem partLoop_prv_some (o : ScoreOrder) (cat : Catalog) (parts : List Part)
    (st st1 : BracketState) (cmds : List Command)
    (h : ScoreOrder.partLoop o cat parts st = some (st1, cmds))
    (hinv : st.thnBracketStaff.isSome = true → st.prvScoreGroup.isSome = true) :
    st1.thnBracketStaff.isSome = true → st1.prvScoreGroup.isSome = true := by
  induction parts generalizing st cmds with
  | nil =>
    simp only [ScoreOrder.partLoop, Option.some.injEq, Prod.mk.injEq] at h
    rw [← h.1]; exact hinv
  | cons p ps ih =>
    unfold ScoreOrder.partLoop at h
    cases hp : ScoreOrder.partStep o cat st p with
    | none => simp [hp] at h
    | some r =>
      cases hl : ScoreOrder.partLoop o cat ps r.1 with
      | none => simp [hp, hl] at h
      | some r2 =>
        simp only [hp, hl, Option.some.injEq, Prod.mk.injEq] at h
        exact ih r.1 r2.2 (by rw [hl, ← h.1]) (partStep_prv_some o cat st r.1 p r.2 hp hinv)

theorem finalBrackets_total (st : BracketState)
    (hinv : st.thnBracketStaff.isSome = true → st.prvScoreGroup.isSome = true) :
    ∃ cmds, ScoreOrder.finalBrackets st = some cmds := by
  unfold ScoreOrder.finalBrackets
  dsimp only
  split
  · exact ⟨_, rfl⟩
  · rename_i hne
    cases hs : st.thnBracketStaff with
    | none => simp [ScoreOrder.emitBracket, hs] at hne
    | some s =>
      obtain ⟨prv, hprv⟩ := Option.isSome_iff_exists.mp (hinv (by rw [hs]; rfl))
      rw [hprv]
      exact ⟨_, rfl⟩

theorem partStep_total (o : ScoreOrder) (cat : Catalog) (st : BracketState) (part : Part)
    (hcls : part.resolves cat = true → part.staves ≠ [] →
      (o.getGroup cat part.instrumentId part.soloist).isSome = true) :
    ∃ r, ScoreOrder.partStep o cat st part = some r := by
  unfold ScoreOrder.partStep
  cases ht : (searchTemplateIndexForId cat part.instrumentId).instrTemplate with
  | none => simp only [ht]; exact ⟨_, rfl⟩
  | some t =>
    simp only [ht]
    cases hs : part.staves with
    | nil =>
      cases o.getGroupByFamily (o.getFamilyName (some t) part.soloist)
        (instrumentGroupId cat (searchTemplateIndexForId cat part.instrumentId)) <;>
        exact ⟨_, rfl⟩
    | cons s0 rest =>
      have hg := hcls (by simp [Part.resolves, ht]) (by simp [hs])
      rw [getGroup_resolved o cat _ _ t ht] at hg
      unfold templateGroupId at hg
      obtain ⟨sg, hsg⟩ := Option.isSome_iff_exists.mp hg
      simp only [hsg]
      exact ⟨_, rfl⟩

theorem partLoop_total (o : ScoreOrder) (cat : Catalog) (parts : List Part)
    (hcls : VisitedClassified o cat parts) (st : BracketState) :
    ∃ r, ScoreOrder.partLoop o cat parts st = some r := by
  induction parts generalizing st with
  | nil => exact ⟨_, rfl⟩
  | cons p ps ih =>
    obtain ⟨r, hr⟩ := partStep_total o cat st p (hcls p (by simp))
    obtain ⟨r2, hr2⟩ := ih (fun q hq => hcls q (by simp [hq])) r.1
    unfold ScoreOrder.partLoop
    simp only [hr, hr2]
    exact ⟨_, rfl⟩

/-- When every visited part is classified, `setBracketsAndBarlines` runs to its end. -/
theorem setBracketsAndBarlines_total (o : ScoreOrder) (cat : Catalog) (score : Score)
    (hcls : VisitedClassified o cat score.parts) :
    ∃ cmds, o.setBracketsAndBarlines cat score = some cmds := by
  unfold ScoreOrder.setBracketsAndBarlines
  split
  · exact ⟨_, rfl⟩
  · obtain ⟨r, hr⟩ := partLoop_total o cat score.parts hcls ScoreOrder.initialBracketState
    obtain ⟨fin, hfin⟩ := finalBrackets_total r.1
      (partLoop_prv_some o cat score.parts _ r.1 r.2 (by rw [hr]) (by
        simp [ScoreOrder.initialBracketState]))
    simp only [hr, hfin]
    exact ⟨_, rfl⟩

/-- C11. For a non-custom order: whenever two staves are visited consecutively
(unresolvable parts being skipped), both in parts whose template has a single
staff, and the staves visited are distinct objects, the last barline-span
command issued on the earlier staff has the value `group(c).barLineSpan AND
section(group(p)) = section(group(c))`, where `c` is the later staff. The
derivation runs to its end whenever every visited part is classified. -/
theorem barline_span_of_next_staff (o : ScoreOrder) (cat : Catalog) (score : Score)
    (hcustom : o.isCustom = false) :
    (∀ (cmds : List Command) (pre post : List Visit) (vp vc : Visit),
      o.setBracketsAndBarlines cat score = some cmds →
      scoreVisits o cat score.parts = pre ++ vp :: vc :: post →
      ((scoreVisits o cat score.parts).map (fun v => v.staff.idx)).Nodup →
      vp.template.staves ≤ 1 → vc.template.staves ≤ 1 →
      lastBarlineOn vp.staff.idx cmds =
        some (PropertyValue.bool
          (vc.sg.barLineSpan && vp.sg._section.eqv vc.sg._section))) ∧
    (VisitedClassified o cat score.parts →
      ∃ cmds, o.setBracketsAndBarlines cat score = some cmds) := by
  refine ⟨?_, setBracketsAndBarlines_total o cat score⟩
  intro cmds pre post vp vc hres hv hnodup hp hc
  unfold lastBarlineOn
  rw [setBracketsAndBarlines_barlines o cat score cmds hcustom hres, hv,
    QString.eqv_symm vp.sg._section]
  rw [hv] at hnodup
  exact lastValueOn_consecutive pre post vp vc hnodup (by omega) (by omega)

/-- Witness of C11: flute, flute, violin in the sample orchestral order. The second
flute staff (staff 1) is followed by the violin staff, whose group spans barlines
but lies in another section: the last barline-span command on staff 1 is
`false`. -/
theorem barline_span_of_next_staff_witness :
    lastBarlineOn 1
      [Command.changeBarlineSpan 0 (PropertyValue.int 0),
       Command.changeBarlineSpan 1 (PropertyValue.int 0),
       Command.changeBarlineSpan 0 (PropertyValue.bool true),
       Command.changeBarlineSpan 2 (PropertyValue.int 0),
       Command.addBracket 0 0 BracketType.NORMAL 2,
       Command.changeBarlineSpan 1 (PropertyValue.bool false)] =
      some (PropertyValue.bool false) :=
  (barline_span_of_next_staff Sample.orchestral Sample.catalog Sample.fluteFluteViolin
    (by decide)).1 _
    [Sample.visit 0 Sample.woodwindsGroup Sample.flute] []
    (Sample.visit 1 Sample.woodwindsGroup Sample.flute)
    (Sample.visit 2 Sample.stringsGroup Sample.violin)
    (by decide) (by decide) (by decide) (by decide) (by decide)


/-! ### Unresolvable parts -/

theorem emitBracket_targets (S : Nat → Prop) (staff : Option Staff) (span level : Int)
    (type : BracketType) (h : ∀ s, staff = some s → S s.idx) :
    ∀ c ∈ ScoreOrder.emitBracket staff span level type, S c.staff := by
  intro c hc
  cases staff with
  | none => simp [ScoreOrder.emitBracket] at hc
  | some s =>
    by_cases hsp : span > 1
    · simp only [ScoreOrder.emitBracket, hsp, if_true, List.mem_singleton] at hc
      subst hc
      exact h s rfl
    · simp [ScoreOrder.emitBracket, hsp] at hc

theorem thickPhase_targets (S : Nat → Prop) (sg : ScoreGroup) (part : Part) (staff : Staff)
    (k : Nat) (st : BracketState) (hst : Anchored S st) (hs : S staff.idx) :
    (∀ c ∈ (ScoreOrder.thickPhase sg part staff k st).2, S c.staff) ∧
    Anchored S (ScoreOrder.thickPhase sg part staff k st).1 := by
  obtain ⟨f1, _, _, f4, _, _⟩ := thickPhase_frame sg part staff k st
  refine ⟨?_, ?_, ?_, ?_⟩
  · unfold ScoreOrder.thickPhase
    dsimp only
    split
    · exact emitBracket_targets S _ _ _ _ hst.2.1
    · intro c hc; simp at hc
  · rw [f1]; exact hst.1
  · have hk : (ScoreOrder.thickPhase sg part staff k st).1.thkBracketStaff = st.thkBracketStaff ∨
        (ScoreOrder.thickPhase sg part staff k st).1.thkBracketStaff = some staff ∨
        (ScoreOrder.thickPhase sg part staff k st).1.thkBracketStaff = none := by
      unfold ScoreOrder.thickPhase
      dsimp only
      cases ScoreOrder.sectionBoundary sg st.prvScoreGroup <;> cases sg.bracket <;>
        by_cases h0 : k = 0 <;> simp [h0]
    intro s h
    rcases hk with hk | hk | hk
    · exact hst.2.1 s (hk ▸ h)
    · rw [hk] at h; cases h; exact hs
    · rw [hk] at h; cases h
  · rw [f4]; exact hst.2.2

theorem thinPhase_targets (S : Nat → Prop) (ii : InstrumentIndex) (sg : ScoreGroup)
    (staff : Staff) (k : Nat) (b : Bool) (st : BracketState) (hst : Anchored S st)
    (hs : S staff.idx) :
    (∀ c ∈ (ScoreOrder.thinPhase ii sg staff k b st).2, S c.staff) ∧
    Anchored S (ScoreOrder.thinPhase ii sg staff k b st).1 := by
  obtain ⟨f1, _⟩ := thinPhase_prvStaff ii sg staff k b st
  obtain ⟨g1, _, _, _⟩ := thinPhase_frame ii sg staff k b st
  refine ⟨?_, ?_, ?_, ?_⟩
  · unfold ScoreOrder.thinPhase
    split
    · exact emitBracket_targets S _ _ _ _ hst.2.2
    · intro c hc; simp at hc
  · rw [f1]; exact hst.1
  · rw [g1]; exact hst.2.1
  · have hk : (ScoreOrder.thinPhase ii sg staff k b st).1.thnBracketStaff = st.thnBracketStaff ∨
        (ScoreOrder.thinPhase ii sg staff k b st).1.thnBracketStaff = some staff ∨
        (ScoreOrder.thinPhase ii sg staff k b st).1.thnBracketStaff = none := by
      unfold ScoreOrder.thinPhase
      by_cases h0 : k = 0 <;> by_cases h1 : ii.instrIndex = st.prvInstrument <;>
        cases sg.thinBracket <;> cases b <;> simp [h0, h1]
    intro s h
    rcases hk with hk | hk | hk
    · exact hst.2.2 s (hk ▸ h)
    · rw [hk] at h; cases h; exact hs
    · rw [hk] at h; cases h

theorem templatePhase_targets (S : Nat → Prop) (t : InstrumentTemplate) (sg : ScoreGroup)
    (part : Part) (staff : Staff) (ls : StaffLoopState) (hst : Anchored S ls.st)
    (hs : S staff.idx) :
    (∀ c ∈ (ScoreOrder.templatePhase t sg part staff ls).2, S c.staff) ∧
    Anchored S (ScoreOrder.templatePhase t sg part staff ls).1.st := by
  unfold ScoreOrder.templatePhase
  dsimp only
  split
  · refine ⟨?_, ?_, hst.2.1, hst.2.2⟩
    · intro c hc
      simp only [List.mem_append, List.mem_singleton] at hc
      rcases hc with hc | rfl
      · split at hc
        · simp only [List.mem_singleton] at hc
          subst hc; exact hs
        · simp at hc
      · exact hs
    · intro s h; cases h
  · refine ⟨?_, ?_, hst.2.1, hst.2.2⟩
    · intro c hc
      cases hp : ls.st.prvStaff with
      | none => simp [hp] at hc
      | some prv =>
        simp only [hp, List.mem_singleton] at hc
        subst hc
        exact hst.1 prv hp
    · intro s h
      cases h
      exact hs

theorem staffStep_targets (S : Nat → Prop) (ii : InstrumentIndex) (t : InstrumentTemplate)
    (sg : ScoreGroup) (part : Part) (ls : StaffLoopState) (staff : Staff)
    (hst : Anchored S ls.st) (hs : S staff.idx) :
    (∀ c ∈ (ScoreOrder.staffStep ii t sg part ls staff).2, S c.staff) ∧
    Anchored S (ScoreOrder.staffStep ii t sg part ls staff).1.st := by
  obtain ⟨a1, a2⟩ := thickPhase_targets S sg part staff ls.staffIdx ls.st hst hs
  obtain ⟨b1, b2⟩ := thinPhase_targets S ii sg staff ls.staffIdx ls.blockThinBracket _ a2 hs
  obtain ⟨c1, c2⟩ := templatePhase_targets S t sg part staff
    { ls with st := (ScoreOrder.thinPhase ii sg staff ls.staffIdx ls.blockThinBracket
        (ScoreOrder.thickPhase sg part staff ls.staffIdx ls.st).1).1 } b2 hs
  unfold ScoreOrder.staffStep
  dsimp only
  refine ⟨?_, c2⟩
  intro c hc
  simp only [List.mem_append, List.mem_map, List.mem_singleton] at hc
  rcases hc with ((((⟨bi, _, rfl⟩ | rfl) | hc) | hc) | hc)
  · exact hs
  · exact hs
  · exact a1 c hc
  · exact b1 c hc
  · exact c1 c hc

theorem staffLoop_targets (S : Nat → Prop) (ii : InstrumentIndex) (t : InstrumentTemplate)
    (sg : ScoreGroup) (part : Part) (staves : List Staff) (ls : StaffLoopState)
    (hst : Anchored S ls.st) (hs : ∀ s ∈ staves, S s.idx) :
    (∀ c ∈ (ScoreOrder.staffLoop ii t sg part staves ls).2, S c.staff) ∧
    Anchored S (ScoreOrder.staffLoop ii t sg part staves ls).1.st := by
  induction staves generalizing ls with
  | nil => exact ⟨by intro c hc; simp [ScoreOrder.staffLoop] at hc, hst⟩
  | cons s rest ih =>
    obtain ⟨a1, a2⟩ := staffStep_targets S ii t sg part ls s hst (hs s (by simp))
    obtain ⟨b1, b2⟩ := ih (ScoreOrder.staffStep ii t sg part ls s).1 a2
      (fun x hx => hs x (by simp [hx]))
    unfold ScoreOrder.staffLoop
    dsimp only
    refine ⟨?_, b2⟩
    intro c hc
    rw [List.mem_append] at hc
    rcases hc with hc | hc
    · exact a1 c hc
    · exact b1 c hc

theorem partStep_targets (S : Nat → Prop) (o : ScoreOrder) (cat : Catalog)
    (st st1 : BracketState) (part : Part) (cmds : List Command)
    (h : ScoreOrder.partStep o cat st part = some (st1, cmds))
    (hst : Anchored S st)
    (hs : part.resolves cat = true → ∀ s ∈ part.staves, S s.idx) :
    (∀ c ∈ cmds, S c.staff) ∧ Anchored S st1 := by
  unfold ScoreOrder.partStep at h
  cases ht : (searchTemplateIndexForId cat part.instrumentId).instrTemplate with
  | none =>
    simp only [ht] at h
    cases h
    exact ⟨by intro c hc; simp at hc, hst⟩
  | some t =>
    simp only [ht] at h
    cases hsv : part.staves with
    | nil =>
      simp only [hsv] at h
      cases h
      exact ⟨by intro c hc; simp at hc, hst⟩
    | cons s0 rest =>
      cases hg : o.getGroupByFamily (o.getFamilyName (some t) part.soloist)
          (instrumentGroupId cat (searchTemplateIndexForId cat part.instrumentId)) with
      | none => simp [hsv, hg] at h
      | some sg =>
        simp only [hsv, hg, Option.some.injEq, Prod.mk.injEq] at h
        obtain ⟨a1, a2⟩ := staffLoop_targets S (searchTemplateIndexForId cat part.instrumentId)
          t sg part (s0 :: rest) { st := st, staffIdx := 0, blockThinBracket := false } hst
          (by rw [← hsv]; exact hs (by simp [Part.resolves, ht]))
        rw [← h.1, ← h.2]
        exact ⟨a1, a2⟩

theorem partLoop_targets (S : Nat → Prop) (o : ScoreOrder) (cat : Catalog)
    (parts : List Part) (st st1 : BracketState) (cmds : List Command)
    (h : ScoreOrder.partLoop o cat parts st = some (st1, cmds))
    (hst : Anchored S st)
    (hs : ∀ p ∈ parts, p.resolves cat = true → ∀ s ∈ p.staves, S s.idx) :
    (∀ c ∈ cmds, S c.staff) ∧ Anchored S st1 := by
  induction parts generalizing st cmds with
  | nil =>
    simp only [ScoreOrder.partLoop, Option.some.injEq, Prod.mk.injEq] at h
    rw [← h.1, ← h.2]
    exact ⟨by intro c hc; simp at hc, hst⟩
  | cons p ps ih =>
    unfold ScoreOrder.partLoop at h
    cases hp : ScoreOrder.partStep o cat st p with
    | none => simp [hp] at h
    | some r =>
      cases hl : ScoreOrder.partLoop o cat ps r.1 with
      | none => simp [hp, hl] at h
      | some r2 =>
        simp only [hp, hl, Option.some.injEq, Prod.mk.injEq] at h
        obtain ⟨a1, a2⟩ := partStep_targets S o cat st r.1 p r.2 hp hst (hs p (by simp))
        obtain ⟨b1, b2⟩ := ih r.1 r2.2 (by rw [hl, ← h.1]) a2
          (fun q hq => hs q (by simp [hq]))
        rw [← h.2]
        refine ⟨?_, b2⟩
        intro c hc
        rw [List.mem_append] at hc
        rcases hc with hc | hc
        · exact a1 c hc
        · exact b1 c hc

theorem finalBrackets_targets (S : Nat → Prop) (st : BracketState) (cmds : List Command)
    (h : ScoreOrder.finalBrackets st = some cmds) (hst : Anchored S st) :
    ∀ c ∈ cmds, S c.staff := by
  unfold ScoreOrder.finalBrackets at h
  dsimp only at h
  have e1 := emitBracket_targets S st.thkBracketStaff st.thkBracketSpan 0 BracketType.NORMAL
    hst.2.1
  have e2 := emitBracket_targets S st.thnBracketStaff st.thnBracketSpan 1 BracketType.SQUARE
    hst.2.2
  split at h
  · cases h; exact e1
  · split at h
    · cases h
    · cases h
      intro c hc
      rw [List.mem_append] at hc
      rcases hc with hc | hc
      · exact e1 c hc
      · split at hc
        · exact e2 c hc
        · simp at hc

/-- A part that resolves to no template leaves the state alone and issues nothing:
the part loop over a list is the part loop over its resolvable parts. -/
theorem partLoop_filter_resolves (o : ScoreOrder) (cat : Catalog) (parts : List Part)
    (st : BracketState) :
    ScoreOrder.partLoop o cat (parts.filter (Part.resolves cat)) st =
      ScoreOrder.partLoop o cat parts st := by
  induction parts generalizing st with
  | nil => rfl
  | cons p ps ih =>
    by_cases hp : p.resolves cat = true
    · rw [List.filter_cons_of_pos hp]
      simp only [ScoreOrder.partLoop]
      cases ScoreOrder.partStep o cat st p with
      | none => rfl
      | some r => simp only [ih]
    · rw [List.filter_cons_of_neg hp, ih]
      have hnone : (searchTemplateIndexForId cat p.instrumentId).instrTemplate = none := by
        simpa [Part.resolves] using hp
      have hstep : ScoreOrder.partStep o cat st p = some (st, []) := by
        simp [ScoreOrder.partStep, hnone]
      simp only [ScoreOrder.partLoop, hstep, List.nil_append]
      cases ScoreOrder.partLoop o cat ps st <;> rfl

/-- C19. Parts whose instrument id resolves to no template are skipped by
`setBracketsAndBarlines`: the result is the one obtained for the score with these
parts removed, and every command issued is issued on a staff of a part that
resolves; hence no command is issued on a staff of an unresolvable part (a staff
that is no staff of a resolvable part). The derivation runs to its end whenever
every visited part is classified. -/
theorem setBracketsAndBarlines_skips_unresolved (o : ScoreOrder) (cat : Catalog)
    (score : Score) :
    o.setBracketsAndBarlines cat score =
      o.setBracketsAndBarlines cat { parts := score.parts.filter (Part.resolves cat) } ∧
    (∀ cmds, o.setBracketsAndBarlines cat score = some cmds →
      (∀ c ∈ cmds, StaffOfResolved cat score.parts c.staff) ∧
      ∀ p ∈ score.parts, p.resolves cat = false → ∀ s ∈ p.staves,
        ¬ StaffOfResolved cat score.parts s.idx → ∀ c ∈ cmds, c.staff ≠ s.idx) ∧
    (VisitedClassified o cat score.parts →
      ∃ cmds, o.setBracketsAndBarlines cat score = some cmds) := by
  refine ⟨?_, ?_, setBracketsAndBarlines_total o cat score⟩
  · simp only [ScoreOrder.setBracketsAndBarlines, partLoop_filter_resolves]
  · intro cmds h
    have key : ∀ c ∈ cmds, StaffOfResolved cat score.parts c.staff := by
      unfold ScoreOrder.setBracketsAndBarlines at h
      split at h
      · cases h; intro c hc; simp at hc
      · cases hl : ScoreOrder.partLoop o cat score.parts ScoreOrder.initialBracketState with
        | none => simp [hl] at h
        | some r =>
          cases hf : ScoreOrder.finalBrackets r.1 with
          | none => simp [hl, hf] at h
          | some fin =>
            simp only [hl, hf, Option.some.injEq] at h
            have hinit : Anchored (StaffOfResolved cat score.parts)
                ScoreOrder.initialBracketState := by
              refine ⟨?_, ?_, ?_⟩ <;> intro s hs <;>
                simp [ScoreOrder.initialBracketState] at hs
            obtain ⟨a1, a2⟩ := partLoop_targets (StaffOfResolved cat score.parts) o cat
              score.parts _ r.1 r.2 (by rw [hl]) hinit
              (fun p hp hr s hs => ⟨p, hp, hr, s, hs, rfl⟩)
            have a3 := finalBrackets_targets _ r.1 fin hf a2
            rw [← h]
            intro c hc
            rw [List.mem_append] at hc
            rcases hc with hc | hc
            · exact a1 c hc
            · exact a3 c hc
    refine ⟨key, ?_⟩
    intro p _ _ s _ hns c hc heq
    exact hns (heq ▸ key c hc)

/-- Witness of C19: the part of unknown instrument between the flutes is skipped; the
commands are those of flute, flute, violin and none is issued on its staff 9. -/
theorem setBracketsAndBarlines_skips_unresolved_witness :
    Sample.orchestral.setBracketsAndBarlines Sample.catalog Sample.withUnknown =
      Sample.orchestral.setBracketsAndBarlines Sample.catalog Sample.fluteFluteViolin :=
  (setBracketsAndBarlines_skips_unresolved Sample.orchestral Sample.catalog
    Sample.withUnknown).1.trans (by decide)


/-! ### Duplicate declarations -/

theorem DeclKind.same_refl (k : DeclKind) : k.same k = true := by
  cases k <;> simp [DeclKind.same]

theorem FirstDecl.append {decls : List Declaration} {d : Declaration}
    (h : FirstDecl decls d) (more : List Declaration) : FirstDecl (decls ++ more) d := by
  unfold FirstDecl at h ⊢
  rw [List.find?_append, h]
  rfl

theorem FirstDecl.new (decls : List Declaration) (d : Declaration)
    (h : ∀ x ∈ decls, d.kind.same x.kind = false) : FirstDecl (decls ++ [d]) d := by
  unfold FirstDecl
  rw [List.find?_append]
  have : decls.find? (fun x => d.kind.same x.kind) = none := by
    rw [List.find?_eq_none]
    intro x hx
    simp [h x hx]
  rw [this]
  simp [DeclKind.same_refl]

theorem Covered.mono {o o1 : ScoreOrder} {d : Declaration} (h : Covered o d)
    (hg : ∀ g ∈ o.groups, g ∈ o1.groups)
    (hs : o._soloists.isSome = true → o1._soloists.isSome = true) : Covered o1 d := by
  unfold Covered at h ⊢
  cases hk : d.kind with
  | soloists => rw [hk] at h; exact hs h
  | family id =>
    rw [hk] at h
    obtain ⟨g, hgm, hge⟩ := h
    exact ⟨g, hg g hgm, hge⟩
  | unsorted f =>
    rw [hk] at h
    obtain ⟨g, hgm, hge⟩ := h
    exact ⟨g, hg g hgm, hge⟩

/-- A declaration that is ignored because its bucket is taken. -/
theorem DeclInv.decl_skip {decls : List Declaration} {s : ScoreOrder × Nat}
    (h : DeclInv decls s) (d : Declaration) (hcov : Covered s.1 d) :
    DeclInv (decls ++ [d]) s where
  first := by
    intro g hg
    obtain ⟨d0, h1, h2⟩ := h.first g hg
    exact ⟨d0, h1.append _, h2⟩
  covered := by
    intro x hx
    rw [List.mem_append, List.mem_singleton] at hx
    rcases hx with hx | rfl
    · exact h.covered x hx
    · exact hcov
  cached := h.cached
  unsorted_distinct := h.unsorted_distinct
  family_distinct := h.family_distinct

/-- A declaration that creates the group `g`. -/
theorem DeclInv.decl_push {decls : List Declaration} {s : ScoreOrder × Nat}
    (h : DeclInv decls s) (d : Declaration) (g : ScoreGroup) (s1 : ScoreOrder × Nat)
    (hg : s1.1.groups = s.1.groups ++ [g])
    (hsol : s.1._soloists.isSome = true → s1.1._soloists.isSome = true)
    (hun : s.1._unsorted.isSome = true → s1.1._unsorted.isSome = true)
    (hof : GroupOf d g)
    (hnew : ∀ x ∈ decls, d.kind.same x.kind = false)
    (hcov : Covered s1.1 d)
    (hcache : g._unsorted.isNull = false → g._unsorted.isEmpty = true →
      s1.1._unsorted.isSome = true)
    (hud : ∀ a ∈ s.1.groups, ¬ (a._unsorted.isNull = false ∧ g._unsorted.isNull = false ∧
      a._unsorted.eqv g._unsorted = true))
    (hfd : ∀ a ∈ s.1.groups, ¬ (g.isFamily = true ∧ a.id.eqv g.id = true)) :
    DeclInv (decls ++ [d]) s1 where
  first := by
    intro x hx
    rw [hg, List.mem_append, List.mem_singleton] at hx
    rcases hx with hx | rfl
    · obtain ⟨d0, h1, h2⟩ := h.first x hx
      exact ⟨d0, h1.append _, h2⟩
    · exact ⟨d, FirstDecl.new decls d hnew, hof⟩
  covered := by
    intro x hx
    rw [List.mem_append, List.mem_singleton] at hx
    rcases hx with hx | rfl
    · exact (h.covered x hx).mono (fun a ha => by rw [hg]; simp [ha]) hsol
    · exact hcov
  cached := by
    intro x hx h1 h2
    rw [hg, List.mem_append, List.mem_singleton] at hx
    rcases hx with hx | rfl
    · exact hun (h.cached x hx h1 h2)
    · exact hcache h1 h2
  unsorted_distinct := by
    rw [hg, List.pairwise_append]
    refine ⟨h.unsorted_distinct, by simp, ?_⟩
    intro a ha b hb
    rw [List.mem_singleton] at hb
    subst hb
    exact hud a ha
  family_distinct := by
    rw [hg, List.pairwise_append]
    refine ⟨h.family_distinct, by simp, ?_⟩
    intro a ha b hb
    rw [List.mem_singleton] at hb
    subst hb
    exact hfd a ha

theorem DeclInv.decl_frame {decls : List Declaration} {s : ScoreOrder × Nat}
    (h : DeclInv decls s) (s1 : ScoreOrder × Nat)
    (hg : s1.1.groups = s.1.groups) (hs : s1.1._soloists = s.1._soloists)
    (hu : s1.1._unsorted = s.1._unsorted) : DeclInv decls s1 where
  first := by rw [hg]; exact h.first
  covered := by
    intro d hd
    exact (h.covered d hd).mono (fun a ha => by rw [hg]; exact ha) (by rw [hs]; exact id)
  cached := by rw [hg, hu]; exact h.cached
  unsorted_distinct := by rw [hg]; exact h.unsorted_distinct
  family_distinct := by rw [hg]; exact h.family_distinct

theorem DeclInv.decl_readFamily {decls : List Declaration} {s : ScoreOrder × Nat}
    (h : DeclInv decls s) (text : String) (sect : QString) (br ssm bls tbr : Bool) :
    DeclInv (decls ++ [Declaration.mk (DeclKind.family text) sect br ssm bls tbr])
      (ScoreOrder.readFamily text sect br ssm bls tbr s) := by
  unfold ScoreOrder.readFamily
  dsimp only
  by_cases hany : (s.1.groups.any (fun sg => sg.id.eqv (QString.str text))) = true
  · rw [if_pos hany]
    apply h.decl_skip
    rw [List.any_eq_true] at hany
    exact hany
  · rw [if_neg hany]
    have hnone : ∀ a ∈ s.1.groups, a.id.eqv (QString.str text) = false := by
      intro a ha
      cases he : a.id.eqv (QString.str text)
      · rfl
      · exact absurd (List.any_eq_true.mpr ⟨a, ha, he⟩) hany
    refine h.decl_push _ _ _ rfl id id ?_ ?_ ?_ ?_ ?_ ?_
    · exact ⟨rfl, rfl, rfl, rfl, rfl, rfl, rfl, rfl⟩
    · intro x hx
      cases hk : x.kind with
      | soloists => rfl
      | unsorted f => rfl
      | family id =>
        have hc := h.covered x hx
        unfold Covered at hc
        rw [hk] at hc
        obtain ⟨a, ha, hae⟩ := hc
        simp only [DeclKind.same, decide_eq_false_iff_not]
        intro heq
        rw [← heq, hnone a ha] at hae
        cases hae
    · refine ⟨_, List.mem_append_right _ (List.mem_singleton.mpr rfl), ?_⟩
      simp [ScoreGroup.id, ScoreGroup.new, QString.eqv_refl]
    · intro h1; cases h1
    · intro a _ h1; cases h1.2.1
    · intro a ha h1
      have := hnone a ha
      simp only [ScoreGroup.id, ScoreGroup.new] at h1 this
      rw [this] at h1
      cases h1.2

theorem DeclInv.decl_readUnsorted {decls : List Declaration} {s : ScoreOrder × Nat}
    (h : DeclInv decls s) (groupAttr : Option String) (sect : QString)
    (br ssm bls tbr : Bool) :
    DeclInv (decls ++
        [Declaration.mk (DeclKind.unsorted (groupAttr.getD "")) sect br ssm bls tbr])
      (ScoreOrder.readUnsorted groupAttr sect br ssm bls tbr s) := by
  have hattr : ScoreOrder.xmlAttributeD groupAttr (QString.str "") =
      QString.str (groupAttr.getD "") := by
    cases groupAttr <;> rfl
  unfold ScoreOrder.readUnsorted
  dsimp only
  rw [hattr]
  by_cases hany : (s.1.groups.any
      (fun sg => sg.isUnsorted (QString.str (groupAttr.getD "")))) = true
  · rw [if_pos hany]
    apply h.decl_skip
    rw [List.any_eq_true] at hany
    exact hany
  · rw [if_neg hany]
    have hnone : ∀ a ∈ s.1.groups, a.isUnsorted (QString.str (groupAttr.getD "")) = false := by
      intro a ha
      cases he : a.isUnsorted (QString.str (groupAttr.getD ""))
      · rfl
      · exact absurd (List.any_eq_true.mpr ⟨a, ha, he⟩) hany
    refine h.decl_push _ _ _ rfl id ?_ ?_ ?_ ?_ ?_ ?_ ?_
    · intro hu
      dsimp only
      split
      · rfl
      · exact hu
    · exact ⟨rfl, rfl, rfl, rfl, rfl, rfl, rfl, rfl⟩
    · intro x hx
      cases hk : x.kind with
      | soloists => rfl
      | family id => rfl
      | unsorted f =>
        have hc := h.covered x hx
        unfold Covered at hc
        rw [hk] at hc
        obtain ⟨a, ha, hae⟩ := hc
        simp only [DeclKind.same, decide_eq_false_iff_not]
        intro heq
        rw [← heq, hnone a ha] at hae
        cases hae
    · refine ⟨_, List.mem_append_right _ (List.mem_singleton.mpr rfl), ?_⟩
      simp [ScoreGroup.isUnsorted, ScoreGroup.new, QString.isNull, QString.eqv_refl]
    · intro _ h2
      dsimp only [ScoreGroup.new] at h2 ⊢
      cases hu : s.1._unsorted with
      | some u => simp
      | none => simp [h2]
    · intro a ha h1
      have := hnone a ha
      simp only [ScoreGroup.isUnsorted, ScoreGroup.new] at h1 this
      rw [h1.1] at this
      simp only [Bool.false_eq_true, if_false, QString.isNull, Bool.false_or] at this
      rw [this] at h1
      cases h1.2.2
    · intro a _ h1
      simp [ScoreGroup.isFamily, ScoreGroup.new, QString.isNull] at h1

theorem DeclInv.decl_readSoloists {decls : List Declaration} {s : ScoreOrder × Nat}
    (h : DeclInv decls s) (sect : QString) :
    DeclInv (decls ++ [Declaration.mk DeclKind.soloists sect false false true true])
      (ScoreOrder.readSoloists sect s) := by
  unfold ScoreOrder.readSoloists
  cases hs : s.1._soloists with
  | some x =>
    apply h.decl_skip
    simp [Covered, hs]
  | none =>
    dsimp only
    refine h.decl_push _ _ _ rfl (fun _ => rfl) id ?_ ?_ ?_ ?_ ?_ ?_
    · exact ⟨rfl, rfl, rfl, rfl, rfl, rfl, rfl, rfl⟩
    · intro x hx
      cases hk : x.kind with
      | family id => rfl
      | unsorted f => rfl
      | soloists =>
        have hc := h.covered x hx
        unfold Covered at hc
        rw [hk, hs] at hc
        cases hc
    · simp [Covered]
    · intro h1; cases h1
    · intro a _ h1; cases h1.2.1
    · intro a _ h1
      simp [ScoreGroup.isFamily, ScoreGroup.new] at h1


theorem DeclInv.decl_readSection {decls : List Declaration} {s : ScoreOrder × Nat}
    (h : DeclInv decls s) (id ssm bls tbr : Option String) (children : List SectionChild) :
    DeclInv (decls ++ childDecls (OrderChild.sectionTag id ssm bls tbr children))
      (ScoreOrder.readSection id ssm bls tbr children s) := by
  unfold ScoreOrder.readSection childDecls
  dsimp only
  induction children generalizing decls s with
  | nil => simpa using h
  | cons c cs ih =>
    rw [List.foldl_cons, List.map_cons, List.flatten_cons, ← List.append_assoc]
    apply ih
    cases c with
    | family text => exact h.decl_readFamily _ _ _ _ _ _
    | unsorted group => exact h.decl_readUnsorted _ _ _ _ _ _
    | unknown => simpa [sectionChildDecls, ScoreOrder.readSectionChild] using h

theorem DeclInv.decl_readChild {decls : List Declaration} {s : ScoreOrder × Nat}
    (h : DeclInv decls s) (cat : Catalog) (translate : String → String) (c : OrderChild) :
    DeclInv (decls ++ childDecls c) (ScoreOrder.readChild cat translate s c) := by
  cases c with
  | name text =>
    simp only [childDecls, List.append_nil]
    exact h.decl_frame _ rfl rfl rfl
  | sectionTag id ssm bls tbr children => exact h.decl_readSection _ _ _ _ _
  | instrument id children =>
    simp only [childDecls, List.append_nil, ScoreOrder.readChild, ScoreOrder.readInstrument]
    split
    · exact h
    · exact h.decl_frame _ rfl rfl rfl
  | family text => exact h.decl_readFamily _ _ _ _ _ _
  | soloists => exact h.decl_readSoloists _
  | unsorted group => exact h.decl_readUnsorted _ _ _ _ _ _
  | unknown => simpa [childDecls, ScoreOrder.readChild] using h

theorem DeclInv.decl_foldl_readChild {decls : List Declaration} {s : ScoreOrder × Nat}
    (h : DeclInv decls s) (cat : Catalog) (translate : String → String)
    (cs : List OrderChild) :
    DeclInv (decls ++ (cs.map childDecls).flatten)
      (cs.foldl (ScoreOrder.readChild cat translate) s) := by
  induction cs generalizing decls s with
  | nil => simpa using h
  | cons c cs ih =>
    rw [List.foldl_cons, List.map_cons, List.flatten_cons, ← List.append_assoc]
    exact ih (h.decl_readChild cat translate c)

theorem isUnsorted_empty_filter (a : ScoreGroup)
    (h : a.isUnsorted (QString.str "") = true) :
    a._unsorted.isNull = false ∧ a._unsorted.isEmpty = true := by
  cases hu : a._unsorted with
  | null => simp [ScoreGroup.isUnsorted, hu, QString.isNull] at h
  | str v =>
    simp only [ScoreGroup.isUnsorted, hu, QString.isNull, QString.eqv, QString.toStr,
      Bool.false_eq_true, if_false, Bool.false_or, decide_eq_true_eq] at h
    simp [QString.isNull, QString.isEmpty, QString.toStr, h]

/-- C13. Duplicate declarations are ignored, not overwritten: the groups of an order
obtained by `read` hold at most one soloists group, no two unsorted groups with
the same filter and no two family groups with the same id; and every group is the
group of the first declaration of its bucket in document order, with the section
and the display flags of that declaration, except the default unsorted group that
`read` makes itself when the element declares no unsorted group with empty
filter. -/
theorem read_ignores_duplicates (cat : Catalog) (translate : String → String)
    (e : OrderElement) (s : ScoreOrder × Nat) :
    ((ScoreOrder.read cat translate e s).1.groups.filter
      (fun g => g.isSoloists)).length ≤ 1 ∧
    (ScoreOrder.read cat translate e s).1.groups.Pairwise (fun a b =>
      ¬ (a._unsorted.isNull = false ∧ b._unsorted.isNull = false ∧
          a._unsorted.eqv b._unsorted = true)) ∧
    (ScoreOrder.read cat translate e s).1.groups.Pairwise (fun a b =>
      ¬ (a.isFamily = true ∧ b.isFamily = true ∧ a.id.eqv b.id = true)) ∧
    ∀ g ∈ (ScoreOrder.read cat translate e s).1.groups,
      (∃ d, FirstDecl (declarations e) d ∧ GroupOf d g) ∨
      (SynthesizedDefault g ∧
        ∀ d ∈ declarations e, d.kind ≠ DeclKind.unsorted "") := by
  have hsolo : ((ScoreOrder.read cat translate e s).1.groups.filter
      (fun g => g.isSoloists)).length ≤ 1 := by
    have inv := (read_inv cat translate e s).1
    generalize ScoreOrder.read cat translate e s = r at *
    have hsorted : (r.1.groups.filter (fun g => g.isSoloists)).Pairwise
        (fun a b => a._index < b._index) := inv.sorted.sublist (List.filter_sublist _)
    have hall : ∀ g ∈ r.1.groups.filter (fun g => g.isSoloists), r.1._soloists = some g := by
      intro g hg
      rw [List.mem_filter] at hg
      exact inv.soloists_unique g hg.1 hg.2
    cases hl : r.1.groups.filter (fun g => g.isSoloists) with
    | nil => simp
    | cons a rest =>
      cases rest with
      | nil => simp
      | cons b rest2 =>
        exfalso
        rw [hl] at hsorted hall
        have ha := hall a (by simp)
        have hb := hall b (by simp)
        rw [ha] at hb
        have hab : a = b := Option.some.inj hb
        have hlt := (List.pairwise_cons.mp hsorted).1 b (by simp)
        rw [hab] at hlt
        exact Nat.lt_irrefl _ hlt
  have h0 : DeclInv []
      ({ ScoreOrder.init cat s.1 with _customized := decide (e.customized ≠ 0) }, s.2) :=
    { first := by intro g hg; simp [ScoreOrder.init] at hg
      covered := by intro d hd; simp at hd
      cached := by intro g hg; simp [ScoreOrder.init] at hg
      unsorted_distinct := by simp [ScoreOrder.init]
      family_distinct := by simp [ScoreOrder.init] }
  have h1 := h0.decl_foldl_readChild cat translate e.children
  rw [List.nil_append] at h1
  have hfam : ∀ l : List ScoreGroup,
      l.Pairwise (fun a b => ¬ (b.isFamily = true ∧ a.id.eqv b.id = true)) →
      l.Pairwise (fun a b => ¬ (a.isFamily = true ∧ b.isFamily = true ∧
        a.id.eqv b.id = true)) :=
    fun l hl => hl.imp (fun hab habc => hab ⟨habc.2.1, habc.2.2⟩)
  refine ⟨hsolo, ?_⟩
  unfold ScoreOrder.read
  dsimp only
  split
  · rename_i hnone
    have hcache : ∀ a ∈ (List.foldl (ScoreOrder.readChild cat translate)
        ({ ScoreOrder.init cat s.1 with _customized := decide (e.customized ≠ 0) }, s.2)
        e.children).1.groups, ¬ (a._unsorted.isNull = false ∧ a._unsorted.isEmpty = true) := by
      intro a ha hab
      have := h1.cached a ha hab.1 hab.2
      rw [hnone] at this
      cases this
    simp only [ScoreOrder.createUnsortedGroup, ScoreGroup.new]
    refine ⟨?_, ?_, ?_⟩
    · rw [List.pairwise_append]
      refine ⟨h1.unsorted_distinct, by simp, ?_⟩
      intro a ha b hb
      rw [List.mem_singleton] at hb
      subst hb
      intro hab
      apply hcache a ha
      refine ⟨hab.1, ?_⟩
      have := hab.2.2
      simpa [QString.eqv, QString.isEmpty, QString.toStr] using this
    · apply hfam
      rw [List.pairwise_append]
      refine ⟨h1.family_distinct, by simp, ?_⟩
      intro a _ b hb
      rw [List.mem_singleton] at hb
      subst hb
      simp [ScoreGroup.isFamily, QString.isNull]
    · intro g hg
      rw [List.mem_append, List.mem_singleton] at hg
      rcases hg with hg | rfl
      · exact Or.inl (h1.first g hg)
      · right
        refine ⟨⟨rfl, rfl, rfl, rfl, rfl, rfl, rfl, rfl⟩, ?_⟩
        intro d hd hk
        have hc := h1.covered d hd
        unfold Covered at hc
        rw [hk] at hc
        obtain ⟨a, ha, hae⟩ := hc
        exact hcache a ha (isUnsorted_empty_filter a hae)
  · exact ⟨h1.unsorted_distinct, hfam _ h1.family_distinct,
      fun g hg => Or.inl (h1.first g hg)⟩


/-! ### Writing and reading back -/

/-- `QString::arg` on the texts of `write`: the marker with the lowest number is
replaced, also inside what an earlier call has pasted. -/
theorem qArg_examples :
    qArg "unsorted group=\"%1\"" "bowed" = "unsorted group=\"bowed\"" ∧
    qArg "instrument id=\"%1\"" "100% %2" = "instrument id=\"100% %2\"" ∧
    qArg (qArg "Order id=\"%1\" customized=\"%2\"" "orchestral") "1" =
      "Order id=\"orchestral\" customized=\"1\"" ∧
    qArg (qArg "Order id=\"%1\" customized=\"%2\"" "%1") "1" =
      "Order id=\"1\" customized=\"%2\"" ∧
    qArg "no marker" "x" = "no marker" := by
  decide

/-! ### Adding a customized order without base -/

theorem addScoreOrderLoop_none (trCustom : QString) (heap : Heap) (name : QString) :
    ∀ (l : List OrderPtr) (index : Nat),
      (∀ q ∈ l, hasName trCustom heap name q = false) →
      ScoreOrderList.addScoreOrderLoop trCustom heap name l index = none
  | [], _, _ => rfl
  | q :: rest, index, h => by
    have hq := h q (List.mem_cons_self _ _)
    simp only [hasName] at hq
    simp only [ScoreOrderList.addScoreOrderLoop, hq, Bool.false_eq_true, if_false]
    exact addScoreOrderLoop_none trCustom heap name rest (index + 1)
      (fun x hx => h x (List.mem_cons_of_mem _ hx))

/-- C21. In a registry whose last element is the custom order `c`, adding a
customized order `p` that is not in the registry and whose display name no order
of the registry has puts `p` immediately before `c` and leaves the other entries
in their order (removing `p` gives the registry back); in the heap `p` is demoted
to non-customized and nothing else changes. -/
theorem addScoreOrder_customized_without_base (trCustom : QString) (heap : Heap)
    (l : ScoreOrderList) (c p : OrderPtr)
    (hlast : l._orders.getLast? = some c) (hc : (heap c).isCustom = true)
    (hnot : p ∉ l._orders) (hcust : (heap p).isCustomized = true)
    (hnone : ∀ q ∈ l._orders, hasName trCustom heap ((heap p).getName trCustom) q = false) :
    (ScoreOrderList.addScoreOrder trCustom heap l (some p)).2._orders =
      l._orders.dropLast ++ [p, c] ∧
    ((ScoreOrderList.addScoreOrder trCustom heap l (some p)).1 p).isCustomized = false ∧
    (ScoreOrderList.addScoreOrder trCustom heap l (some p)).2._orders.erase p = l._orders ∧
    (ScoreOrderList.addScoreOrder trCustom heap l (some p)).1 =
      Heap.set heap p { heap p with _customized := false } := by
  have hl : l._orders = l._orders.dropLast ++ [c] :=
    (List.dropLast_append_getLast? c hlast).symm
  have hres : ScoreOrderList.addScoreOrder trCustom heap l (some p) =
      (Heap.set heap p { heap p with _customized := false },
       { _orders := l._orders.dropLast ++ [p, c] }) := by
    unfold ScoreOrderList.addScoreOrder
    simp only [hnot, if_false, hcust, Bool.not_true, Bool.false_eq_true,
      addScoreOrderLoop_none trCustom heap _ l._orders 0 hnone]
    have : l = { _orders := l._orders.dropLast ++ [c] } := by
      cases l; simp only [ScoreOrderList.mk.injEq]; exact hl
    rw [this, append_before_custom heap _ c p hc]
    simp
  rw [hres]
  refine ⟨rfl, by simp [Heap.set, ScoreOrder.isCustomized], ?_, rfl⟩
  dsimp only
  have hnt : p ∉ l._orders.dropLast := fun h => hnot (List.mem_of_mem_dropLast h)
  rw [List.erase_append_right _ hnt, List.erase_cons_head]
  exact hl.symm

/-- Witness of C21: the customized order "Festival" (address 5) is added to the
registry `[Band, Choir, Orchestra, custom]`. -/
theorem addScoreOrder_customized_without_base_witness :
    (ScoreOrderList.addScoreOrder (QString.str "Custom") Sample.festivalHeap Sample.registry.2
      (some 5)).2._orders = [1, 2, 3, 5, 0] ∧
    ((ScoreOrderList.addScoreOrder (QString.str "Custom") Sample.festivalHeap Sample.registry.2
      (some 5)).1 5).isCustomized = false :=
  ⟨(addScoreOrder_customized_without_base (QString.str "Custom") Sample.festivalHeap
      Sample.registry.2 0 5 (by decide) (by decide) (by decide) (by decide) (by decide)).1.trans
      (by decide),
   (addScoreOrder_customized_without_base (QString.str "Custom") Sample.festivalHeap
      Sample.registry.2 0 5 (by decide) (by decide) (by decide) (by decide) (by decide)).2.1⟩



/-! ### Boolean attributes -/

theorem map_toLower_eq_iff : ∀ (l m : List Char),
    l.map Char.toLower = m.map Char.toLower ↔
      (l.length = m.length ∧ (l.zip m).all (fun p => p.1.toLower == p.2.toLower) = true)
  | [], [] => by simp
  | [], _ :: _ => by simp
  | _ :: _, [] => by simp
  | a :: l, b :: m => by
    simp only [List.map_cons, List.cons.injEq, List.length_cons, Nat.add_right_cancel_iff,
      List.zip_cons_cons, List.all_cons, Bool.and_eq_true, beq_iff_eq, map_toLower_eq_iff l m]
    tauto

theorem toLower_eq_iff (a b : String) (hb : b.data.map Char.toLower = b.data) :
    ScoreOrder.toLower a = b ↔ equalsIgnoringCase a b = true := by
  simp only [ScoreOrder.toLower, equalsIgnoringCase, Bool.and_eq_true, decide_eq_true_eq]
  rw [← map_toLower_eq_iff, hb]
  constructor
  · intro h; rw [← h]
  · intro h; exact String.ext h

/-- C22. `readBoolAttribute` returns what the specification words: the default when
the attribute is absent, `true` when the value is "true" and `false` when it is
"false", letter case being ignored, and the default for every other value. The
function is total: no value makes the parse fail. -/
theorem readBoolAttribute_spec (attr : Option String) (defvalue : Bool) :
    ScoreOrder.readBoolAttribute attr defvalue = boolAttributeSpec attr defvalue := by
  cases attr with
  | none => rfl
  | some a =>
    have hf := toLower_eq_iff a "false" (by decide)
    have ht := toLower_eq_iff a "true" (by decide)
    simp only [ScoreOrder.readBoolAttribute, boolAttributeSpec]
    by_cases h1 : ScoreOrder.toLower a = "false"
    · have h2 : ¬ ScoreOrder.toLower a = "true" := by rw [h1]; decide
      have e1 := hf.mp h1
      have e2 : equalsIgnoringCase a "true" = false := by
        cases h : equalsIgnoringCase a "true" with
        | false => rfl
        | true => exact absurd (ht.mpr h) h2
      simp [h1, e1, e2]
    · have e1 : equalsIgnoringCase a "false" = false := by
        cases h : equalsIgnoringCase a "false" with
        | false => rfl
        | true => exact absurd (hf.mpr h) h1
      by_cases h2 : ScoreOrder.toLower a = "true"
      · simp [h1, h2, ht.mp h2]
      · have e2 : equalsIgnoringCase a "true" = false := by
          cases h : equalsIgnoringCase a "true" with
          | false => rfl
          | true => exact absurd (ht.mpr h) h2
        simp [h1, h2, e1, e2]

/-- Values of `readBoolAttribute` on some attribute texts. -/
theorem readBoolAttribute_examples :
    ScoreOrder.readBoolAttribute (some "TRUE") false = true ∧
    ScoreOrder.readBoolAttribute (some "False") true = false ∧
    ScoreOrder.readBoolAttribute (some "yes") false = false ∧
    ScoreOrder.readBoolAttribute (some "yes") true = true ∧
    ScoreOrder.readBoolAttribute (some "") true = true ∧
    ScoreOrder.readBoolAttribute none true = true := by
  decide



/-! ### Spans of the accumulated brackets -/

theorem emitBracket_span (staff : Option Staff) (span level : Int) (type : BracketType) :
    ∀ c ∈ ScoreOrder.emitBracket staff span level type, c.spanAtLeastTwo := by
  intro c hc
  cases staff with
  | none => simp [ScoreOrder.emitBracket] at hc
  | some s =>
    by_cases hsp : span > 1
    · simp only [ScoreOrder.emitBracket, hsp, if_true, List.mem_singleton] at hc
      subst hc
      intro _
      omega
    · simp [ScoreOrder.emitBracket, hsp] at hc

theorem emitBracket_discards (staff : Option Staff) (span level : Int) (type : BracketType)
    (h : span ≤ 1) : ScoreOrder.emitBracket staff span level type = [] := by
  cases staff with
  | none => rfl
  | some s =>
    have : ¬ span > 1 := by omega
    simp [ScoreOrder.emitBracket, this]

theorem thickPhase_span (sg : ScoreGroup) (part : Part) (staff : Staff) (k : Nat)
    (st : BracketState) : ∀ c ∈ (ScoreOrder.thickPhase sg part staff k st).2, c.spanAtLeastTwo := by
  intro c hc
  simp only [ScoreOrder.thickPhase] at hc
  split at hc
  · exact emitBracket_span _ _ _ _ c hc
  · simp at hc

theorem thinPhase_span (ii : InstrumentIndex) (sg : ScoreGroup) (staff : Staff) (k : Nat)
    (b : Bool) (st : BracketState) :
    ∀ c ∈ (ScoreOrder.thinPhase ii sg staff k b st).2, c.spanAtLeastTwo := by
  intro c hc
  unfold ScoreOrder.thinPhase at hc
  split at hc
  · exact emitBracket_span _ _ _ _ c hc
  · simp at hc

theorem templatePhase_span (t : InstrumentTemplate) (sg : ScoreGroup) (part : Part)
    (staff : Staff) (ls : StaffLoopState) :
    ∀ c ∈ (ScoreOrder.templatePhase t sg part staff ls).2, c.spanAtLeastTwo := by
  intro c hc
  unfold ScoreOrder.templatePhase at hc
  by_cases ht : t.staves > 1
  · simp only [ht, if_true, List.mem_append, List.mem_singleton] at hc
    rcases hc with hc | hc
    · split at hc
      · simp only [List.mem_singleton] at hc
        subst hc
        intro h; exact absurd rfl h
      · simp at hc
    · subst hc; trivial
  · simp only [ht, if_false] at hc
    cases hp : ls.st.prvStaff with
    | none => simp [hp] at hc
    | some prv =>
      simp only [hp, List.mem_singleton] at hc
      subst hc; trivial

theorem staffStep_span (ii : InstrumentIndex) (t : InstrumentTemplate) (sg : ScoreGroup)
    (part : Part) (ls : StaffLoopState) (staff : Staff) :
    ∀ c ∈ (ScoreOrder.staffStep ii t sg part ls staff).2, c.spanAtLeastTwo := by
  intro c hc
  simp only [ScoreOrder.staffStep, List.mem_append, List.mem_map, List.mem_singleton] at hc
  rcases hc with ((((⟨bi, _, rfl⟩ | rfl) | hc) | hc) | hc)
  · trivial
  · trivial
  · exact thickPhase_span _ _ _ _ _ c hc
  · exact thinPhase_span _ _ _ _ _ _ c hc
  · exact templatePhase_span _ _ _ _ _ c hc

theorem staffLoop_span (ii : InstrumentIndex) (t : InstrumentTemplate) (sg : ScoreGroup)
    (part : Part) : ∀ (staves : List Staff) (ls : StaffLoopState),
    ∀ c ∈ (ScoreOrder.staffLoop ii t sg part staves ls).2, c.spanAtLeastTwo
  | [], _, c, hc => by simp [ScoreOrder.staffLoop] at hc
  | staff :: rest, ls, c, hc => by
    simp only [ScoreOrder.staffLoop, List.mem_append] at hc
    rcases hc with hc | hc
    · exact staffStep_span _ _ _ _ _ _ c hc
    · exact staffLoop_span ii t sg part rest _ c hc

theorem partStep_span (o : ScoreOrder) (cat : Catalog) (st st1 : BracketState) (part : Part)
    (cmds : List Command) (h : ScoreOrder.partStep o cat st part = some (st1, cmds)) :
    ∀ c ∈ cmds, c.spanAtLeastTwo := by
  unfold ScoreOrder.partStep at h
  cases ht : (searchTemplateIndexForId cat part.instrumentId).instrTemplate with
  | none =>
    simp only [ht, Option.some.injEq, Prod.mk.injEq] at h
    intro c hc; rw [← h.2] at hc; simp at hc
  | some t =>
    simp only [ht] at h
    cases hs : part.staves with
    | nil =>
      simp only [hs, Option.some.injEq, Prod.mk.injEq] at h
      intro c hc; rw [← h.2] at hc; simp at hc
    | cons s rest =>
      cases hg : o.getGroupByFamily (o.getFamilyName (some t) part.soloist)
          (instrumentGroupId cat (searchTemplateIndexForId cat part.instrumentId)) with
      | none => simp [hs, hg] at h
      | some sg =>
        simp only [hs, hg, Option.some.injEq, Prod.mk.injEq] at h
        intro c hc; rw [← h.2] at hc
        exact staffLoop_span _ _ _ _ _ _ c hc

theorem partLoop_span (o : ScoreOrder) (cat : Catalog) :
    ∀ (parts : List Part) (st st1 : BracketState) (cmds : List Command),
      ScoreOrder.partLoop o cat parts st = some (st1, cmds) → ∀ c ∈ cmds, c.spanAtLeastTwo
  | [], st, st1, cmds, h, c, hc => by
    simp only [ScoreOrder.partLoop, Option.some.injEq, Prod.mk.injEq] at h
    rw [← h.2] at hc; simp at hc
  | part :: rest, st, st1, cmds, h, c, hc => by
    simp only [ScoreOrder.partLoop] at h
    cases hp : ScoreOrder.partStep o cat st part with
    | none => simp [hp] at h
    | some r =>
      cases hl : ScoreOrder.partLoop o cat rest r.1 with
      | none => simp [hp, hl] at h
      | some r2 =>
        simp only [hp, hl, Option.some.injEq, Prod.mk.injEq] at h
        rw [← h.2, List.mem_append] at hc
        rcases hc with hc | hc
        · exact partStep_span o cat st r.1 part r.2 hp c hc
        · exact partLoop_span o cat rest r.1 r2.1 r2.2 hl c hc

theorem finalBrackets_span (st : BracketState) (cmds : List Command)
    (h : ScoreOrder.finalBrackets st = some cmds) : ∀ c ∈ cmds, c.spanAtLeastTwo := by
  intro c hc
  unfold ScoreOrder.finalBrackets at h
  have hthin := emitBracket_span st.thnBracketStaff st.thnBracketSpan 1 BracketType.SQUARE
  have hthick := emitBracket_span st.thkBracketStaff st.thkBracketSpan 0 BracketType.NORMAL
  cases he : ScoreOrder.emitBracket st.thnBracketStaff st.thnBracketSpan 1 BracketType.SQUARE with
  | nil =>
    simp only [he, Option.some.injEq] at h
    rw [← h] at hc
    exact hthick c hc
  | cons x xs =>
    rw [he] at hthin
    cases hp : st.prvScoreGroup with
    | none => simp [he, hp] at h
    | some prv =>
      simp only [he, hp, Option.some.injEq] at h
      rw [← h, List.mem_append] at hc
      rcases hc with hc | hc
      · exact hthick c hc
      · split at hc
        · exact hthin c hc
        · simp at hc

theorem setBracketsAndBarlines_span (o : ScoreOrder) (cat : Catalog) (score : Score)
    (cmds : List Command) (h : o.setBracketsAndBarlines cat score = some cmds) :
    ∀ c ∈ cmds, c.spanAtLeastTwo := by
  unfold ScoreOrder.setBracketsAndBarlines at h
  by_cases hc : o.isCustom = true
  · simp only [hc, if_true, Option.some.injEq] at h
    intro c hc2; rw [← h] at hc2; simp at hc2
  · have hc1 : o.isCustom = false := by simpa using hc
    simp only [hc1, Bool.false_eq_true, if_false] at h
    cases hl : ScoreOrder.partLoop o cat score.parts ScoreOrder.initialBracketState with
    | none => simp [hl] at h
    | some r =>
      cases hf : ScoreOrder.finalBrackets r.1 with
      | none => simp [hl, hf] at h
      | some fin =>
        simp only [hl, hf, Option.some.injEq] at h
        intro c hc2
        rw [← h, List.mem_append] at hc2
        rcases hc2 with hc2 | hc2
        · exact partLoop_span o cat score.parts _ r.1 r.2 hl c hc2
        · exact finalBrackets_span r.1 fin hf c hc2

/-- C24. Every thick bracket directive (column 0, `NORMAL`) and every thin bracket
directive (column 1, `SQUARE`) that `setBracketsAndBarlines` emits spans at
least 2 staves, for any order and any score: each is issued by the guarded call
that discards a pending bracket whose accumulated span is at most 1. -/
theorem accumulated_brackets_span_at_least_two (o : ScoreOrder) (cat : Catalog)
    (score : Score) :
    (∀ (cmds : List Command) (s : Nat) (span : Int),
      o.setBracketsAndBarlines cat score = some cmds →
      (Command.addBracket s 0 BracketType.NORMAL span ∈ cmds → 2 ≤ span) ∧
      (Command.addBracket s 1 BracketType.SQUARE span ∈ cmds → 2 ≤ span)) ∧
    (∀ (staff : Option Staff) (span level : Int) (type : BracketType),
      span ≤ 1 → ScoreOrder.emitBracket staff span level type = []) := by
  refine ⟨?_, emitBracket_discards⟩
  intro cmds s span h
  have hall := setBracketsAndBarlines_span o cat score cmds h
  exact ⟨fun hm => hall _ hm (by decide), fun hm => hall _ hm (by decide)⟩

/-- Witness of C24: flute, flute, violin in the sample orchestral order. The thick
bracket of the two flutes spans 2; the violin alone gets none. -/
theorem accumulated_brackets_span_at_least_two_witness :
    Command.addBracket 0 0 BracketType.NORMAL 2 ∈
      [Command.changeBarlineSpan 0 (PropertyValue.int 0),
       Command.changeBarlineSpan 1 (PropertyValue.int 0),
       Command.changeBarlineSpan 0 (PropertyValue.bool true),
       Command.changeBarlineSpan 2 (PropertyValue.int 0),
       Command.addBracket 0 0 BracketType.NORMAL 2,
       Command.changeBarlineSpan 1 (PropertyValue.bool false)] ∧ (2 : Int) ≤ 2 :=
  ⟨by decide,
   ((accumulated_brackets_span_at_least_two Sample.orchestral Sample.catalog
      Sample.fluteFluteViolin).1
      [Command.changeBarlineSpan 0 (PropertyValue.int 0),
       Command.changeBarlineSpan 1 (PropertyValue.int 0),
       Command.changeBarlineSpan 0 (PropertyValue.bool true),
       Command.changeBarlineSpan 2 (PropertyValue.int 0),
       Command.addBracket 0 0 BracketType.NORMAL 2,
       Command.changeBarlineSpan 1 (PropertyValue.bool false)] 0 2 (by decide)).1 (by decide)⟩



/-! ### Parts of multi-staff instruments -/

theorem directCommands_append (a b : List Command) :
    directCommands (a ++ b) = directCommands a ++ directCommands b := by
  simp [directCommands, List.filter_append]

theorem directCommands_emitBracket (staff : Option Staff) (span : Int) (level : Int)
    (type : BracketType) (hl : level ≠ 2) :
    directCommands (ScoreOrder.emitBracket staff span level type) = [] := by
  unfold ScoreOrder.emitBracket
  cases staff with
  | none => rfl
  | some s => split <;> simp [directCommands, Command.isAccumulated, hl]

theorem thickPhase_direct (sg : ScoreGroup) (part : Part) (staff : Staff) (k : Nat)
    (st : BracketState) : directCommands (ScoreOrder.thickPhase sg part staff k st).2 = [] := by
  unfold ScoreOrder.thickPhase
  dsimp only
  split
  · exact directCommands_emitBracket _ _ _ _ (by decide)
  · rfl

theorem thinPhase_direct (ii : InstrumentIndex) (sg : ScoreGroup) (staff : Staff)
    (k : Nat) (b : Bool) (st : BracketState) :
    directCommands (ScoreOrder.thinPhase ii sg staff k b st).2 = [] := by
  unfold ScoreOrder.thinPhase
  split
  · exact directCommands_emitBracket _ _ _ _ (by decide)
  · rfl

theorem templatePhase_direct (t : InstrumentTemplate) (sg : ScoreGroup) (part : Part)
    (staff : Staff) (ls : StaffLoopState) :
    directCommands (ScoreOrder.templatePhase t sg part staff ls).2 =
      (if t.staves > 1 then
        (if t.bracket.getD ls.staffIdx BracketType.NO_BRACKET ≠ BracketType.NO_BRACKET then
          [Command.addBracket staff.idx 2 (t.bracket.getD ls.staffIdx BracketType.NO_BRACKET)
            (t.bracketSpan.getD ls.staffIdx 0)]
         else []) ++
        [Command.changeBarlineSpan staff.idx
          (PropertyValue.bool (t.barlineSpan.getD ls.staffIdx false))]
       else
        match ls.st.prvStaff with
        | some prv =>
          [Command.changeBarlineSpan prv.idx
            (PropertyValue.bool (sg.barLineSpan && ScoreOrder.sameSection sg ls.st.prvScoreGroup))]
        | none => []) := by
  unfold ScoreOrder.templatePhase
  dsimp only
  by_cases ht : t.staves > 1
  · simp only [ht, if_true]
    split <;> simp [directCommands, Command.isAccumulated]
  · simp only [ht, if_false]
    cases ls.st.prvStaff <;> simp [directCommands, Command.isAccumulated]

theorem directCommands_removals (staff : Staff) :
    directCommands (staff.brackets.map
        (fun bi => Command.removeBracket staff.idx bi.column bi.bracketType bi.bracketSpan) ++
      [Command.changeBarlineSpan staff.idx (PropertyValue.int 0)]) =
      staff.brackets.map
        (fun bi => Command.removeBracket staff.idx bi.column bi.bracketType bi.bracketSpan) ++
      [Command.changeBarlineSpan staff.idx (PropertyValue.int 0)] := by
  unfold directCommands
  rw [List.filter_eq_self]
  intro c hc
  rw [List.mem_append, List.mem_map, List.mem_singleton] at hc
  rcases hc with ⟨bi, _, rfl⟩ | rfl <;> rfl

/-- One staff visit, seen through its commands other than accumulator brackets. -/
theorem staffStep_direct (ii : InstrumentIndex) (t : InstrumentTemplate) (sg : ScoreGroup)
    (part : Part) (ls : StaffLoopState) (staff : Staff) :
    directCommands (ScoreOrder.staffStep ii t sg part ls staff).2 =
      visitCommands { staff := staff, sg := sg, template := t, staffIdx := ls.staffIdx }
        ls.st.prvStaff ls.st.prvScoreGroup := by
  unfold ScoreOrder.staffStep
  dsimp only
  obtain ⟨k1, k2, _, _, _, _⟩ := thickPhase_frame sg part staff ls.staffIdx ls.st
  obtain ⟨n1, _⟩ := thinPhase_prvStaff ii sg staff ls.staffIdx ls.blockThinBracket
    (ScoreOrder.thickPhase sg part staff ls.staffIdx ls.st).1
  obtain ⟨_, _, n3, _⟩ := thinPhase_frame ii sg staff ls.staffIdx ls.blockThinBracket
    (ScoreOrder.thickPhase sg part staff ls.staffIdx ls.st).1
  rw [directCommands_append, directCommands_append, directCommands_append,
    directCommands_removals, thickPhase_direct, thinPhase_direct, templatePhase_direct]
  dsimp only
  rw [n1, k1, n3, k2]
  simp only [visitCommands, List.append_nil, List.append_assoc]

theorem staffLoop_direct (ii : InstrumentIndex) (t : InstrumentTemplate) (sg : ScoreGroup)
    (part : Part) (staves : List Staff) (ls : StaffLoopState) :
    directCommands (ScoreOrder.staffLoop ii t sg part staves ls).2 =
      directTrace (staffVisits t sg staves ls.staffIdx) ls.st.prvStaff ls.st.prvScoreGroup := by
  induction staves generalizing ls with
  | nil => rfl
  | cons s rest ih =>
    obtain ⟨_, a2, a3, a4⟩ := staffStep_barlines ii t sg part ls s
    have b1 := ih (ScoreOrder.staffStep ii t sg part ls s).1
    unfold ScoreOrder.staffLoop
    dsimp only
    rw [directCommands_append, staffStep_direct, b1, a2, a3, a4]
    simp only [staffVisits, directTrace]

theorem directTrace_append (a b : List Visit) (ps : Option Staff) (pg : Option ScoreGroup) :
    directTrace (a ++ b) ps pg =
      directTrace a ps pg ++ directTrace b (traceEnd a (ps, pg)).1 (traceEnd a (ps, pg)).2 := by
  induction a generalizing ps pg with
  | nil => rfl
  | cons v vs ih =>
    show visitCommands v ps pg ++ directTrace (vs ++ b) _ _ = _
    rw [ih]
    simp only [directTrace, traceEnd, List.append_assoc]

/-- One part, seen through its commands other than accumulator brackets. -/
theorem partStep_direct (o : ScoreOrder) (cat : Catalog) (st st1 : BracketState)
    (part : Part) (cmds : List Command)
    (h : ScoreOrder.partStep o cat st part = some (st1, cmds)) :
    directCommands cmds =
      directTrace (partVisits o cat part) st.prvStaff st.prvScoreGroup := by
  unfold ScoreOrder.partStep at h
  unfold partVisits
  cases ht : (searchTemplateIndexForId cat part.instrumentId).instrTemplate with
  | none =>
    simp only [ht] at h
    cases h
    rfl
  | some t =>
    rw [getGroup_resolved o cat _ _ t ht]
    unfold templateGroupId
    simp only [ht] at h
    cases hs : part.staves with
    | nil =>
      simp only [hs] at h
      cases h
      cases o.getGroupByFamily (o.getFamilyName (some t) part.soloist)
        (instrumentGroupId cat (searchTemplateIndexForId cat part.instrumentId)) <;> rfl
    | cons s0 rest =>
      cases hg : o.getGroupByFamily (o.getFamilyName (some t) part.soloist)
          (instrumentGroupId cat (searchTemplateIndexForId cat part.instrumentId)) with
      | none => simp [hs, hg] at h
      | some sg =>
        simp only [hs, hg, Option.some.injEq, Prod.mk.injEq] at h
        obtain ⟨h1, h2⟩ := h
        subst h1 h2
        exact staffLoop_direct _ t sg part (s0 :: rest)
          { st := st, staffIdx := 0, blockThinBracket := false }

theorem partLoop_direct (o : ScoreOrder) (cat : Catalog) (parts : List Part)
    (st st1 : BracketState) (cmds : List Command)
    (h : ScoreOrder.partLoop o cat parts st = some (st1, cmds)) :
    directCommands cmds =
      directTrace (scoreVisits o cat parts) st.prvStaff st.prvScoreGroup := by
  induction parts generalizing st cmds with
  | nil =>
    simp only [ScoreOrder.partLoop, Option.some.injEq, Prod.mk.injEq] at h
    rw [← h.2]; rfl
  | cons p ps ih =>
    unfold ScoreOrder.partLoop at h
    cases hp : ScoreOrder.partStep o cat st p with
    | none => simp [hp] at h
    | some r =>
      cases hl : ScoreOrder.partLoop o cat ps r.1 with
      | none => simp [hp, hl] at h
      | some r2 =>
        simp only [hp, hl, Option.some.injEq, Prod.mk.injEq] at h
        obtain ⟨_, a2⟩ := partStep_barlines o cat st r.1 p r.2 hp
        have a1 := partStep_direct o cat st r.1 p r.2 hp
        have b1 := ih r.1 r2.2 (by rw [hl, ← h.1])
        rw [← h.2, directCommands_append, a1, b1]
        simp only [scoreVisits, List.map_cons, List.flatten_cons]
        rw [directTrace_append, ← a2]

theorem directCommands_finalBrackets (st : BracketState) (cmds : List Command)
    (h : ScoreOrder.finalBrackets st = some cmds) : directCommands cmds = [] := by
  unfold ScoreOrder.finalBrackets at h
  dsimp only at h
  split at h
  · cases h; exact directCommands_emitBracket _ _ _ _ (by decide)
  · split at h
    · cases h
    · cases h
      rw [directCommands_append, directCommands_emitBracket _ _ _ _ (by decide)]
      split
      · exact directCommands_emitBracket _ _ _ _ (by decide)
      · rfl

/-- The commands of `setBracketsAndBarlines` other than accumulator brackets are those
of the visits of the score, from the initial state. -/
theorem setBracketsAndBarlines_direct (o : ScoreOrder) (cat : Catalog) (score : Score)
    (cmds : List Command) (hc : o.isCustom = false)
    (h : o.setBracketsAndBarlines cat score = some cmds) :
    directCommands cmds = directTrace (scoreVisits o cat score.parts) none none := by
  unfold ScoreOrder.setBracketsAndBarlines at h
  simp only [hc, Bool.false_eq_true, if_false] at h
  cases hl : ScoreOrder.partLoop o cat score.parts ScoreOrder.initialBracketState with
  | none => simp [hl] at h
  | some r =>
    cases hf : ScoreOrder.finalBrackets r.1 with
    | none => simp [hl, hf] at h
    | some fin =>
      simp only [hl, hf, Option.some.injEq] at h
      rw [← h, directCommands_append, directCommands_finalBrackets r.1 fin hf,
        List.append_nil]
      exact partLoop_direct o cat score.parts _ r.1 r.2 (by rw [hl])

theorem templateCommands_staff (t : InstrumentTemplate) (staff : Staff) (k : Nat) :
    ∀ c ∈ templateCommands t staff k, c.staff = staff.idx := by
  intro c hc
  simp only [templateCommands, List.mem_append, List.mem_map, List.mem_singleton] at hc
  rcases hc with ((⟨bi, _, rfl⟩ | rfl) | hc) | rfl
  · rfl
  · rfl
  · split at hc
    · simp only [List.mem_singleton] at hc
      subst hc; rfl
    · simp at hc
  · rfl

theorem visitCommands_multi (v : Visit) (ps : Option Staff) (pg : Option ScoreGroup)
    (ht : v.template.staves > 1) :
    visitCommands v ps pg = templateCommands v.template v.staff v.staffIdx := by
  simp only [visitCommands, templateCommands, ht, if_true, List.append_assoc]

theorem visitCommands_targets (v : Visit) (ps : Option Staff) (pg : Option ScoreGroup) :
    ∀ c ∈ visitCommands v ps pg, c.staff = v.staff.idx ∨ ∃ p, ps = some p ∧ c.staff = p.idx := by
  intro c hc
  by_cases ht : v.template.staves > 1
  · rw [visitCommands_multi v ps pg ht] at hc
    exact Or.inl (templateCommands_staff _ _ _ c hc)
  · simp only [visitCommands, ht, if_false, List.mem_append, List.mem_map,
      List.mem_singleton] at hc
    rcases hc with (⟨bi, _, rfl⟩ | rfl) | hc
    · exact Or.inl rfl
    · exact Or.inl rfl
    · cases ps with
      | none => simp at hc
      | some p =>
        simp only [List.mem_singleton] at hc
        subst hc
        exact Or.inr ⟨p, rfl, rfl⟩

theorem directTrace_targets (vs : List Visit) (ps : Option Staff) (pg : Option ScoreGroup)
    (c : Command) (hc : c ∈ directTrace vs ps pg) :
    c.staff ∈ vs.map (fun v => v.staff.idx) ∨ ∃ p, ps = some p ∧ c.staff = p.idx := by
  induction vs generalizing ps pg with
  | nil => simp [directTrace] at hc
  | cons v vs ih =>
    simp only [directTrace, List.mem_append] at hc
    rcases hc with hc | hc
    · rcases visitCommands_targets v ps pg c hc with h | h
      · left; simp [h]
      · exact Or.inr h
    · rcases ih _ _ hc with h | ⟨p, hp, hcp⟩
      · left; simp [h]
      · left
        by_cases ht : v.template.staves > 1
        · simp [ht] at hp
        · simp only [ht, if_false, Option.some.injEq] at hp
          simp [hcp, ← hp]

/-- In a list of visits of distinct staves, the commands other than accumulator
brackets issued on the staff of a visit made with a multi-staff template are
those the template prescribes, in that order. -/
theorem directTrace_multi_staff (pre post : List Visit) (v : Visit)
    (hnodup : ((pre ++ v :: post).map (fun v => v.staff.idx)).Nodup)
    (ht : v.template.staves > 1) :
    (directTrace (pre ++ v :: post) none none).filter
        (fun c => decide (c.staff = v.staff.idx)) =
      templateCommands v.template v.staff v.staffIdx := by
  simp only [List.map_append, List.map_cons, List.nodup_append, List.nodup_cons] at hnodup
  obtain ⟨_, ⟨hvpost, _⟩, hdisj⟩ := hnodup
  have hvpre : v.staff.idx ∉ pre.map (fun v => v.staff.idx) := by
    intro hm
    exact hdisj hm (List.mem_cons_self _ _)
  rw [directTrace_append]
  simp only [directTrace, ht, if_true, List.filter_append]
  have h1 : (directTrace pre none none).filter (fun c => decide (c.staff = v.staff.idx)) = [] := by
    rw [List.filter_eq_nil_iff]
    intro c hc
    rcases directTrace_targets pre none none c hc with h | ⟨p, hp, _⟩
    · simp only [decide_eq_true_eq]
      intro heq; rw [heq] at h; exact hvpre h
    · cases hp
  have h2 : (directTrace post none (some v.sg)).filter
      (fun c => decide (c.staff = v.staff.idx)) = [] := by
    rw [List.filter_eq_nil_iff]
    intro c hc
    rcases directTrace_targets post none (some v.sg) c hc with h | ⟨p, hp, _⟩
    · simp only [decide_eq_true_eq]
      intro heq; rw [heq] at h; exact hvpost h
    · cases hp
  have h3 : (visitCommands v (traceEnd pre (none, none)).1 (traceEnd pre (none, none)).2).filter
      (fun c => decide (c.staff = v.staff.idx)) =
      templateCommands v.template v.staff v.staffIdx := by
    rw [visitCommands_multi _ _ _ ht, List.filter_eq_self]
    intro c hc
    simp [templateCommands_staff _ _ _ c hc]
  rw [h1, h2, h3]
  simp

theorem staffVisits_get (t : InstrumentTemplate) (sg : ScoreGroup) (ht : t.staves > 1) :
    ∀ (staves : List Staff) (j i : Nat) (s : Staff),
      staves.get? i = some s → j ≤ t.staves →
      ∃ pre post, staffVisits t sg staves j =
        pre ++ { staff := s, sg := sg, template := t, staffIdx := min (j + i) t.staves } :: post
  | [], _, i, s, h, _ => by simp at h
  | s0 :: rest, j, 0, s, h, hj => by
    simp only [List.get?_cons_zero, Option.some.injEq] at h
    subst h
    refine ⟨[], staffVisits t sg rest (nextStaffIdx t j), ?_⟩
    simp only [staffVisits, List.nil_append, Nat.add_zero, Nat.min_eq_left hj]
  | s0 :: rest, j, i + 1, s, h, hj => by
    simp only [List.get?_cons_succ] at h
    by_cases hlt : j < t.staves
    · have hn : nextStaffIdx t j = j + 1 := by simp [nextStaffIdx, ht, hlt]
      obtain ⟨pre, post, hp⟩ := staffVisits_get t sg ht rest (j + 1) i s h (by omega)
      have hidx : j + 1 + i = j + (i + 1) := by omega
      rw [hidx] at hp
      refine ⟨{ staff := s0, sg := sg, template := t, staffIdx := j } :: pre, post, ?_⟩
      simp only [staffVisits, hn, hp, List.cons_append]
    · have hn : nextStaffIdx t j = j := by simp [nextStaffIdx, ht, hlt]
      obtain ⟨pre, post, hp⟩ := staffVisits_get t sg ht rest j i s h hj
      have hidx : min (j + i) t.staves = min (j + (i + 1)) t.staves := by omega
      rw [hidx] at hp
      refine ⟨{ staff := s0, sg := sg, template := t, staffIdx := j } :: pre, post, ?_⟩
      simp only [staffVisits, hn, hp, List.cons_append]

theorem partLoop_classified (o : ScoreOrder) (cat : Catalog) :
    ∀ (parts : List Part) (st : BracketState) (r : BracketState × List Command),
      ScoreOrder.partLoop o cat parts st = some r → VisitedClassified o cat parts
  | [], _, _, _ => by intro p hp; simp at hp
  | part :: rest, st, r, h => by
    simp only [ScoreOrder.partLoop] at h
    cases hp : ScoreOrder.partStep o cat st part with
    | none => simp [hp] at h
    | some r1 =>
      cases hl : ScoreOrder.partLoop o cat rest r1.1 with
      | none => simp [hp, hl] at h
      | some r2 =>
        have ih := partLoop_classified o cat rest r1.1 r2 hl
        intro p hmem hres hst
        rcases List.mem_cons.mp hmem with rfl | hmem
        · unfold Part.resolves at hres
          obtain ⟨t, ht⟩ := Option.isSome_iff_exists.mp hres
          rw [getGroup_resolved o cat _ _ t ht]
          unfold templateGroupId
          unfold ScoreOrder.partStep at hp
          simp only [ht] at hp
          cases hs : p.staves with
          | nil => exact absurd hs hst
          | cons s0 rest0 =>
            cases hg : o.getGroupByFamily (o.getFamilyName (some t) p.soloist)
                (instrumentGroupId cat (searchTemplateIndexForId cat p.instrumentId)) with
            | none => simp [hs, hg] at hp
            | some sg => rfl
        · exact ih p hmem hres hst

theorem barlineCommands_filter_staff (i : Nat) : ∀ (cmds : List Command),
    (barlineCommands cmds).filter (fun x => decide (x.1 = i)) =
      barlineCommands ((directCommands cmds).filter (fun c => decide (c.staff = i)))
  | [] => rfl
  | c :: cs => by
    have ih := barlineCommands_filter_staff i cs
    simp only [barlineCommands, directCommands] at ih ⊢
    cases c with
    | removeBracket s a b d =>
      by_cases hs : s = i <;>
        simp [Command.barline, Command.isAccumulated, Command.staff, hs, ih]
    | addBracket s level type span =>
      by_cases hl : level = 2 <;> by_cases hs : s = i <;>
        simp [Command.barline, Command.isAccumulated, Command.staff, hs, hl, ih]
    | changeBarlineSpan s v =>
      by_cases hs : s = i <;>
        simp [Command.barline, Command.isAccumulated, Command.staff, hs, ih]

theorem barlineCommands_templateCommands (t : InstrumentTemplate) (staff : Staff) (k : Nat) :
    barlineCommands (templateCommands t staff k) =
      [(staff.idx, PropertyValue.int 0),
       (staff.idx, PropertyValue.bool (t.barlineSpan.getD k false))] := by
  unfold templateCommands
  rw [barlineCommands_append, barlineCommands_append, barlineCommands_removals]
  have : barlineCommands
      (if t.bracket.getD k BracketType.NO_BRACKET ≠ BracketType.NO_BRACKET then
        [Command.addBracket staff.idx 2 (t.bracket.getD k BracketType.NO_BRACKET)
          (t.bracketSpan.getD k 0)]
       else []) = [] := by
    split <;> rfl
  rw [this]
  rfl

theorem setBracketsAndBarlines_classified (o : ScoreOrder) (cat : Catalog) (score : Score)
    (cmds : List Command) (hc : o.isCustom = false)
    (h : o.setBracketsAndBarlines cat score = some cmds) :
    VisitedClassified o cat score.parts := by
  unfold ScoreOrder.setBracketsAndBarlines at h
  simp only [hc, Bool.false_eq_true, if_false] at h
  cases hl : ScoreOrder.partLoop o cat score.parts ScoreOrder.initialBracketState with
  | none => simp [hl] at h
  | some r => exact partLoop_classified o cat score.parts _ r hl

theorem scoreVisits_split (o : ScoreOrder) (cat : Catalog) (before after : List Part)
    (part : Part) :
    scoreVisits o cat (before ++ part :: after) =
      scoreVisits o cat before ++ partVisits o cat part ++ scoreVisits o cat after := by
  simp [scoreVisits]

/-- C23. For a non-custom order, a part whose template declares `n > 1` staves and
the staff at position `k` of that part, the staves visited being distinct
objects: the commands issued on the staff, the brackets of the two accumulators
apart, are those the template prescribes for the index `min k n`, which is `k`
for `k < n`, in this order: the removal of every bracket the staff has, the
reset of the barline span, the bracket at column 2 with the template's type and
span for that index exactly when that type is not `NO_BRACKET`, and the
template's `barlineSpan` for that index, which is therefore the last
barline-span command on the staff; no barline-span command computed from the
group is among them. The derivation runs to its end whenever every visited part
is classified. -/
theorem multi_staff_part_follows_template (o : ScoreOrder) (cat : Catalog) (score : Score)
    (hcustom : o.isCustom = false) :
    (∀ (cmds : List Command) (before after : List Part) (part : Part)
        (t : InstrumentTemplate) (k : Nat) (staff : Staff),
      o.setBracketsAndBarlines cat score = some cmds →
      score.parts = before ++ part :: after →
      (searchTemplateIndexForId cat part.instrumentId).instrTemplate = some t →
      t.staves > 1 → part.staves.get? k = some staff →
      ((scoreVisits o cat score.parts).map (fun v => v.staff.idx)).Nodup →
      (directCommands cmds).filter (fun c => decide (c.staff = staff.idx)) =
        templateCommands t staff (min k t.staves) ∧
      lastBarlineOn staff.idx cmds =
        some (PropertyValue.bool (t.barlineSpan.getD (min k t.staves) false))) ∧
    (VisitedClassified o cat score.parts →
      ∃ cmds, o.setBracketsAndBarlines cat score = some cmds) := by
  refine ⟨?_, setBracketsAndBarlines_total o cat score⟩
  intro cmds before after part t k staff hres hparts ht hn hstaff hnodup
  have hcls := setBracketsAndBarlines_classified o cat score cmds hcustom hres
  have hmem : part ∈ score.parts := by rw [hparts]; simp
  have hne : part.staves ≠ [] := by
    intro h0; rw [h0] at hstaff; simp at hstaff
  have hsg := hcls part hmem (by simp [Part.resolves, ht]) hne
  obtain ⟨sg, hsg⟩ := Option.isSome_iff_exists.mp hsg
  have hpv : partVisits o cat part = staffVisits t sg part.staves 0 := by
    simp only [partVisits, ht, hsg]
  obtain ⟨pre, post, hsv⟩ := staffVisits_get t sg hn part.staves 0 k staff hstaff (by omega)
  rw [Nat.zero_add] at hsv
  have hv : scoreVisits o cat score.parts =
      (scoreVisits o cat before ++ pre) ++
        { staff := staff, sg := sg, template := t, staffIdx := min k t.staves } ::
          (post ++ scoreVisits o cat after) := by
    rw [hparts, scoreVisits_split, hpv, hsv]
    simp
  rw [hv] at hnodup
  have hdirect : (directCommands cmds).filter (fun c => decide (c.staff = staff.idx)) =
      templateCommands t staff (min k t.staves) := by
    rw [setBracketsAndBarlines_direct o cat score cmds hcustom hres, hv]
    exact directTrace_multi_staff _ _
      { staff := staff, sg := sg, template := t, staffIdx := min k t.staves } hnodup hn
  refine ⟨hdirect, ?_⟩
  unfold lastBarlineOn lastValueOn
  rw [barlineCommands_filter_staff, hdirect, barlineCommands_templateCommands]
  rfl

/-- Witness of C23: flute, piano, violin with the sample orchestral order. The upper
piano staff (staff 1, index 0 in the part) loses its square bracket, gets the
brace of the template at column 2 and the barline span `true` of the template. -/
theorem multi_staff_part_follows_template_witness :
    (directCommands
      [Command.changeBarlineSpan 0 (PropertyValue.int 0),
       Command.removeBracket 1 1 BracketType.SQUARE 2,
       Command.changeBarlineSpan 1 (PropertyValue.int 0),
       Command.addBracket 1 2 BracketType.BRACE 2,
       Command.changeBarlineSpan 1 (PropertyValue.bool true),
       Command.changeBarlineSpan 2 (PropertyValue.int 0),
       Command.changeBarlineSpan 2 (PropertyValue.bool false),
       Command.changeBarlineSpan 3 (PropertyValue.int 0)]).filter
        (fun c => decide (c.staff = Sample.pianoUpper.idx)) =
      templateCommands Sample.piano Sample.pianoUpper 0 ∧
    lastBarlineOn Sample.pianoUpper.idx
      [Command.changeBarlineSpan 0 (PropertyValue.int 0),
       Command.removeBracket 1 1 BracketType.SQUARE 2,
       Command.changeBarlineSpan 1 (PropertyValue.int 0),
       Command.addBracket 1 2 BracketType.BRACE 2,
       Command.changeBarlineSpan 1 (PropertyValue.bool true),
       Command.changeBarlineSpan 2 (PropertyValue.int 0),
       Command.changeBarlineSpan 2 (PropertyValue.bool false),
       Command.changeBarlineSpan 3 (PropertyValue.int 0)] =
      some (PropertyValue.bool (Sample.piano.barlineSpan.getD 0 false)) :=
  (multi_staff_part_follows_template Sample.orchestral Sample.keyboardCatalog
    Sample.flutePianoViolin (by decide)).1 _ [Sample.part "flute" 0] [Sample.part "violin" 3]
    Sample.pianoPart Sample.piano 0 Sample.pianoUpper
    (by decide) (by decide) (by decide) (by decide) (by decide) (by decide)



/-! ### Repeated thick brackets -/

/-- C25, the code at the failing input. The order has the section "Winds" (family
`woodwinds`, bracket on) and the default unsorted group outside any section
(bracket off); the score is flute, flute, violin, and the violin falls into the
unsorted group. The thick bracket of the two flutes (staff 0, span 2) is issued
when the violin staff opens another section, and, the accumulator not being
cleared for a group without bracket, once more after the last part. -/
theorem thick_bracket_issued_twice :
    Sample.windsOnly.isCustom = false ∧
    Sample.windsOnly.groups.map (fun g => (g._id, g._section, g.bracket)) =
      [(QString.str "woodwinds", QString.str "Winds", true),
       (QString.str "<unsorted>", QString.str "", false)] ∧
    Sample.windsOnly.setBracketsAndBarlines Sample.catalog Sample.fluteFluteViolin = some
      [Command.changeBarlineSpan 0 (PropertyValue.int 0),
       Command.changeBarlineSpan 1 (PropertyValue.int 0),
       Command.changeBarlineSpan 0 (PropertyValue.bool true),
       Command.changeBarlineSpan 2 (PropertyValue.int 0),
       Command.addBracket 0 0 BracketType.NORMAL 2,
       Command.changeBarlineSpan 1 (PropertyValue.bool false),
       Command.addBracket 0 0 BracketType.NORMAL 2] ∧
    (Sample.windsOnly.setBracketsAndBarlines Sample.catalog Sample.fluteFluteViolin).map
      (fun cmds => (cmds.filter Command.isThickBracket).map Command.staff) = some [0, 0] := by
  decide

/-! ### Cloning -/

/-- C26, the code at the failing input. The order read from `filteredLastElement` has
the groups `strings`, the default unsorted group and, last, the unsorted group
for `bowed`; its cached default unsorted group is the one with the empty filter,
at position 1. The clone has the same groups, field for field, but caches the
copy of the last unsorted group, the one for `bowed`, at position 2. A flute
(family `woodwinds`, instrument group `wind`) and an unknown instrument are
classified into position 1 by the order and into position 2 by its clone. -/
theorem clone_changes_classification :
    Sample.filteredLast.groups.map (fun g => (g._id, g._unsorted)) =
      [(QString.str "strings", QString.null), (QString.str "<unsorted>", QString.str ""),
       (QString.str "<unsorted>", QString.str "bowed")] ∧
    sameGroups Sample.filteredLast.groups
      (Sample.filteredLast.clone Sample.catalog 10).1.groups = true ∧
    Sample.filteredLast._unsorted.map (fun g => g._unsorted) = some (QString.str "") ∧
    (Sample.filteredLast.clone Sample.catalog 10).1._unsorted.map (fun g => g._unsorted) =
      some (QString.str "bowed") ∧
    (Sample.filteredLast.getGroup Sample.catalog (QString.str "flute") false).map
      (fun g => Sample.filteredLast.groups.indexOf g) = some 1 ∧
    ((Sample.filteredLast.clone Sample.catalog 10).1.getGroup Sample.catalog
      (QString.str "flute") false).map
      (fun g => (Sample.filteredLast.clone Sample.catalog 10).1.groups.indexOf g) = some 2 ∧
    (Sample.filteredLast.getGroup Sample.catalog (QString.str "theremin") false).map
      (fun g => Sample.filteredLast.groups.indexOf g) = some 1 ∧
    ((Sample.filteredLast.clone Sample.catalog 10).1.getGroup Sample.catalog
      (QString.str "theremin") false).map
      (fun g => (Sample.filteredLast.clone Sample.catalog 10).1.groups.indexOf g) = some 2 := by
  decide

/-! ### The default unsorted group -/

theorem getGroupByFamily_isSome (o : ScoreOrder) (family instrumentGroup : QString)
    (h : o._unsorted.isSome = true) :
    (o.getGroupByFamily family instrumentGroup).isSome = true := by
  unfold ScoreOrder.getGroupByFamily
  split
  · exact h
  · split
    · rfl
    · rfl
    · exact h

theorem getGroup_isSome (o : ScoreOrder) (cat : Catalog) (id : QString) (soloist : Bool)
    (h : o._unsorted.isSome = true) : (o.getGroup cat id soloist).isSome = true := by
  unfold ScoreOrder.getGroup
  dsimp only
  split
  · exact h
  · exact getGroupByFamily_isSome o _ _ h

/-- C27. For the order that `read` produces from any element and any starting
order: the cached default unsorted group is present, is one of the groups and has
an empty (non-null) filter. Hence, for any catalog, `getGroup` returns a group
for every instrument id and soloist flag and for every family and instrument
group, and `instrumentInUnsortedSection` and `setBracketsAndBarlines`, which
dereference the group unchecked, run to their end. -/
theorem read_default_unsorted_present (cat : Catalog) (translate : String → String)
    (e : OrderElement) (s : ScoreOrder × Nat) :
    (∃ u, (ScoreOrder.read cat translate e s).1._unsorted = some u ∧
      u ∈ (ScoreOrder.read cat translate e s).1.groups ∧ u._unsorted = QString.str "") ∧
    (∀ (cat2 : Catalog) (id : QString) (soloist : Bool),
      ((ScoreOrder.read cat translate e s).1.getGroup cat2 id soloist).isSome = true) ∧
    (∀ (family instrumentGroup : QString),
      ((ScoreOrder.read cat translate e s).1.getGroupByFamily family instrumentGroup).isSome
        = true) ∧
    (∀ (cat2 : Catalog) (id : QString) (soloist : Bool),
      ((ScoreOrder.read cat translate e s).1.instrumentInUnsortedSection cat2 id soloist).isSome
        = true) ∧
    (∀ (cat2 : Catalog) (score : Score),
      ((ScoreOrder.read cat translate e s).1.setBracketsAndBarlines cat2 score).isSome
        = true) := by
  obtain ⟨hinv, u, hu⟩ := read_inv cat translate e s
  have hsome : (ScoreOrder.read cat translate e s).1._unsorted.isSome = true := by
    rw [hu]; rfl
  refine ⟨⟨u, hu, (hinv.unsorted_cached u hu).1, (hinv.unsorted_cached u hu).2⟩,
    fun cat2 id soloist => getGroup_isSome _ cat2 id soloist hsome,
    fun family ig => getGroupByFamily_isSome _ family ig hsome, ?_, ?_⟩
  · intro cat2 id soloist
    unfold ScoreOrder.instrumentInUnsortedSection
    cases soloist with
    | true => rfl
    | false =>
      obtain ⟨g, hg⟩ := Option.isSome_iff_exists.mp (getGroup_isSome _ cat2 id false hsome)
      simp [hg]
  · intro cat2 score
    obtain ⟨cmds, hc⟩ := setBracketsAndBarlines_total _ cat2 score
      (fun p _ _ _ => getGroup_isSome _ cat2 p.instrumentId p.soloist hsome)
    rw [hc]; rfl


end Ms
